import Mathlib

/-!
Shallow embedding of the Dynamic Resource Allocation System
(`models.py`, `allocation_engine.py`, `event_handler.py`).

Conventions of the embedding:
* Python `float` becomes `ℚ`; `datetime` becomes `Nat` (an abstract clock value
  `now` is passed to every operation that reads the clock); `int` becomes `Int`.
* The Python dictionaries `operators`, `machines`, `materials`, `work_orders`
  (keyed by identifier, insertion-ordered) become lists of records; well-formed
  states have pairwise distinct identifiers, which every Python `dict` guarantees.
  Lookup is `List.find?` on the identifier, update maps over the list.
* An unguarded Python dictionary access `d[k]` (which raises `KeyError` when the
  key is absent) is modelled in the `Except Unit` monad; `d.get(k)` is an `Option`
  lookup.  Console output is ignored: it never affects state.
* Python truthiness of an optional string field (`if wo.assigned_operator:`)
  is `none`-or-empty-string = falsy, which the definitions reproduce exactly.
-/

inductive OperatorStatus where
  | AVAILABLE
  | ASSIGNED
  | BREAK
  | UNAVAILABLE
deriving DecidableEq, Repr

inductive MachineStatus where
  | IDLE
  | RUNNING
  | MAINTENANCE
  | BREAKDOWN
deriving DecidableEq, Repr

inductive WorkOrderStatus where
  | PENDING
  | IN_PROGRESS
  | COMPLETED
  | BLOCKED
deriving DecidableEq, Repr

structure Operator where
  operator_id : String
  name : String
  skills : List String
  skill_levels : List (String × Int)
  current_status : OperatorStatus
  current_work_order : Option String := none
  shift_start : Option Nat := none
  shift_end : Option Nat := none
  location : String := ""
  hourly_cost : ℚ := 0
deriving DecidableEq, Repr

structure Machine where
  machine_id : String
  name : String
  capabilities : List String
  current_status : MachineStatus
  current_work_order : Option String := none
  location : String := ""
  cycle_time : Int := 0
  maintenance_schedule : Option Nat := none
  last_maintenance : Option Nat := none
  operating_cost_per_hour : ℚ := 0
deriving DecidableEq, Repr

structure MaterialRequirement where
  material_id : String
  quantity : ℚ
deriving DecidableEq, Repr

structure Material where
  material_id : String
  name : String
  quantity_available : ℚ
  quantity_reserved : ℚ
  location : String
  unit_of_measure : String
  reorder_point : ℚ
  expected_delivery : Option Nat := none
  cost_per_unit : ℚ := 0
deriving DecidableEq, Repr

structure WorkOrder where
  work_order_id : String
  priority : Int
  required_skills : List String
  required_machine_capability : String
  required_materials : List MaterialRequirement
  estimated_duration : Int
  deadline : Nat
  status : WorkOrderStatus
  assigned_operator : Option String := none
  assigned_machine : Option String := none
  start_time : Option Nat := none
  completion_time : Option Nat := none
  location : String := ""
  progress : ℚ := 0
deriving DecidableEq, Repr

/-- The mutable state of `AllocationEngine`: the four identifier-keyed catalogs
plus the `last_reallocation_time` map. -/
structure EngineState where
  operators : List Operator
  machines : List Machine
  materials : List Material
  work_orders : List WorkOrder
  last_reallocation_time : List (String × Nat) := []
deriving DecidableEq, Repr

/-! ### Catalog lookup and update -/

def findOperator (st : EngineState) (i : String) : Option Operator :=
  st.operators.find? (fun o => o.operator_id = i)

def findMachine (st : EngineState) (i : String) : Option Machine :=
  st.machines.find? (fun m => m.machine_id = i)

def findMaterial (st : EngineState) (i : String) : Option Material :=
  st.materials.find? (fun m => m.material_id = i)

def findWorkOrder (st : EngineState) (i : String) : Option WorkOrder :=
  st.work_orders.find? (fun w => w.work_order_id = i)

def updateOperator (st : EngineState) (i : String) (f : Operator → Operator) : EngineState :=
  { st with operators := st.operators.map (fun o => if o.operator_id = i then f o else o) }

def updateMachine (st : EngineState) (i : String) (f : Machine → Machine) : EngineState :=
  { st with machines := st.machines.map (fun m => if m.machine_id = i then f m else m) }

def updateMaterial (st : EngineState) (i : String) (f : Material → Material) : EngineState :=
  { st with materials := st.materials.map (fun m => if m.material_id = i then f m else m) }

def updateWorkOrder (st : EngineState) (i : String) (f : WorkOrder → WorkOrder) : EngineState :=
  { st with work_orders := st.work_orders.map (fun w => if w.work_order_id = i then f w else w) }

/-- Python `self.last_reallocation_time[k] = v`: overwrite an existing key in
place, otherwise append. -/
def setReallocTime (st : EngineState) (k : String) (v : Nat) : EngineState :=
  { st with last_reallocation_time :=
      if st.last_reallocation_time.any (fun p => p.1 = k) then
        st.last_reallocation_time.map (fun p => if p.1 = k then (k, v) else p)
      else
        st.last_reallocation_time ++ [(k, v)] }

/-- Unguarded dictionary accesses (`self.engine.materials[i]` and the like) raise
`KeyError` when the key is absent; this is the `Except Unit` error. -/
def getOperatorE (st : EngineState) (i : String) : Except Unit Operator :=
  match findOperator st i with
  | some o => .ok o
  | none => .error ()

def getMachineE (st : EngineState) (i : String) : Except Unit Machine :=
  match findMachine st i with
  | some m => .ok m
  | none => .error ()

def getMaterialE (st : EngineState) (i : String) : Except Unit Material :=
  match findMaterial st i with
  | some m => .ok m
  | none => .error ()

def getWorkOrderE (st : EngineState) (i : String) : Except Unit WorkOrder :=
  match findWorkOrder st i with
  | some w => .ok w
  | none => .error ()

/-! ### `AllocationEngine.calculate_distance` / `calculate_allocation_score` -/

def calculate_distance (location1 location2 : String) : ℚ :=
  if location1 = location2 then 0 else 10

/-- `operator.skill_levels.get(skill, 0)`. -/
def skillLevel (levels : List (String × Int)) (skill : String) : Int :=
  match levels.find? (fun p => p.1 = skill) with
  | some p => p.2
  | none => 0

/-- Term 1 of `calculate_allocation_score`: average required-skill level over 5;
`0` when the required-skill list is empty (`if skill_levels` is false on `[]`). -/
def skill_match_quality (work_order : WorkOrder) (operator : Operator) : ℚ :=
  let skill_levels := work_order.required_skills.map (fun s => skillLevel operator.skill_levels s)
  if skill_levels.isEmpty then 0
  else ((skill_levels.map (fun l => (Int.cast l : ℚ))).sum / (skill_levels.length : ℚ)) / 5

/-- Term 2: `1 - min(avg_distance / max_distance, 1.0)` with `max_distance = 100`. -/
def proximity_factor (work_order : WorkOrder) (operator : Operator) (machine : Machine) : ℚ :=
  let max_distance : ℚ := 100
  let operator_machine_distance := calculate_distance operator.location machine.location
  let machine_wo_distance := calculate_distance machine.location work_order.location
  let avg_distance := (operator_machine_distance + machine_wo_distance) / 2
  1 - min (avg_distance / max_distance) 1

/-- Term 3: `max(0, min(1 - cycle_time / 120, 1))`, with a neutral `0.5` when
`machine.cycle_time` is falsy (zero). -/
def machine_efficiency (machine : Machine) : ℚ :=
  let max_cycle_time : ℚ := 120
  let raw : ℚ :=
    if machine.cycle_time = 0 then 0.5 else 1 - (machine.cycle_time : ℚ) / max_cycle_time
  max 0 (min raw 1)

/-- Term 4: `1 - min(total_cost / max_cost, 1.0)` with `max_cost = 100`. -/
def cost_optimization (operator : Operator) (machine : Machine) : ℚ :=
  let max_cost : ℚ := 100
  let total_cost := operator.hourly_cost + machine.operating_cost_per_hour
  1 - min (total_cost / max_cost) 1

def calculate_allocation_score (work_order : WorkOrder) (operator : Operator)
    (machine : Machine) : ℚ :=
  0.4 * skill_match_quality work_order operator +
    0.3 * proximity_factor work_order operator machine +
    0.2 * machine_efficiency machine +
    0.1 * cost_optimization operator machine

/-! ### `AllocationEngine.check_hard_constraints` -/

/-- The `(False, reason)` strings of `check_hard_constraints`, one constructor per
distinct message template, carrying the data interpolated into the message. -/
inductive Reason where
  | missingSkill (skill : String)
  | lacksCapability
  | materialNotFound (material_id : String)
  | insufficientMaterial (material_id : String) (need availQty : ℚ)
  | operatorNotAvailable (status : OperatorStatus)
  | machineNotIdle (status : MachineStatus)
  | allSatisfied
deriving DecidableEq, Repr

/-- The `for mat_req in work_order.required_materials` loop of
`check_hard_constraints`: first failure, `none` when all requirements pass. -/
def materialsCheck (st : EngineState) : List MaterialRequirement → Option Reason
  | [] => none
  | req :: rest =>
    match findMaterial st req.material_id with
    | none => some (.materialNotFound req.material_id)
    | some material =>
      let available := material.quantity_available - material.quantity_reserved
      if available < req.quantity then
        some (.insufficientMaterial req.material_id req.quantity available)
      else materialsCheck st rest

def check_hard_constraints (st : EngineState) (work_order : WorkOrder)
    (operator : Operator) (machine : Machine) : Bool × Reason :=
  match work_order.required_skills.find? (fun skill => !(operator.skills.contains skill)) with
  | some skill => (false, .missingSkill skill)
  | none =>
    if !(machine.capabilities.contains work_order.required_machine_capability) then
      (false, .lacksCapability)
    else
      match materialsCheck st work_order.required_materials with
      | some r => (false, r)
      | none =>
        if operator.current_status ≠ OperatorStatus.AVAILABLE then
          (false, .operatorNotAvailable operator.current_status)
        else if machine.current_status ≠ MachineStatus.IDLE then
          (false, .machineNotIdle machine.current_status)
        else (true, .allSatisfied)

/-! ### `AllocationEngine.prioritize_work_orders`

`pandas.sort_values` on several key columns is `numpy.lexsort`, a stable sort by
the lexicographic order on (priority descending, deadline ascending, duration
ascending).  A stable sort's output is uniquely determined by the total preorder
being sorted by, so the structurally recursive `List.insertionSort` (also stable)
computes exactly the same list. -/

def woLE (a b : WorkOrder) : Prop :=
  b.priority < a.priority ∨
    (a.priority = b.priority ∧ (a.deadline < b.deadline ∨
      (a.deadline = b.deadline ∧ a.estimated_duration ≤ b.estimated_duration)))

instance : DecidableRel woLE := fun a b => by unfold woLE; infer_instance

instance : IsTotal WorkOrder woLE where
  total a b := by unfold woLE; omega

instance : IsTrans WorkOrder woLE where
  trans a b c := by unfold woLE; omega

def pendingOrders (st : EngineState) : List WorkOrder :=
  st.work_orders.filter (fun wo => wo.status = WorkOrderStatus.PENDING)

def prioritize_work_orders (st : EngineState) : List WorkOrder :=
  (pendingOrders st).insertionSort woLE

/-! ### `AllocationEngine.find_best_allocation` -/

def availableOperators (st : EngineState) : List Operator :=
  st.operators.filter (fun op => op.current_status = OperatorStatus.AVAILABLE)

def idleMachines (st : EngineState) : List Machine :=
  st.machines.filter (fun m => m.current_status = MachineStatus.IDLE)

/-- The nested `for operator in available_operators: for machine in idle_machines:`
iteration, operators outermost. -/
def candidatePairs (st : EngineState) : List (Operator × Machine) :=
  (availableOperators st).flatMap (fun operator =>
    (idleMachines st).map (fun machine => (operator, machine)))

/-- The body of the `find_best_allocation` loop, tracking `best_score` (initially
`-1`) and `best_allocation` (initially `None`); a candidate replaces the incumbent
only on a strictly greater score. -/
def fbaLoop (st : EngineState) (work_order : WorkOrder) :
    List (Operator × Machine) → ℚ → Option (Operator × Machine × ℚ) →
      Option (Operator × Machine × ℚ)
  | [], _, best_allocation => best_allocation
  | (operator, machine) :: rest, best_score, best_allocation =>
    if (check_hard_constraints st work_order operator machine).1 then
      let score := calculate_allocation_score work_order operator machine
      if best_score < score then
        fbaLoop st work_order rest score (some (operator, machine, score))
      else
        fbaLoop st work_order rest best_score best_allocation
    else
      fbaLoop st work_order rest best_score best_allocation

def find_best_allocation (st : EngineState) (work_order : WorkOrder) :
    Option (Operator × Machine × ℚ) :=
  fbaLoop st work_order (candidatePairs st) (-1) none

/-! ### `AllocationEngine.allocate_resources` -/

/-- The `for mat_req in work_order.required_materials` reservation loop;
`self.materials[mat_req.material_id]` is an unguarded access. -/
def reserveLoop : EngineState → List MaterialRequirement → Except Unit EngineState
  | st, [] => .ok st
  | st, req :: rest => do
    let _ ← getMaterialE st req.material_id
    reserveLoop
      (updateMaterial st req.material_id (fun m =>
        { m with quantity_reserved := m.quantity_reserved + req.quantity })) rest

def allocate_resources (now : Nat) (st : EngineState) (work_order_id : String) :
    Except Unit (EngineState × Bool) :=
  match findWorkOrder st work_order_id with
  | none => .ok (st, false)
  | some work_order =>
    match find_best_allocation st work_order with
    | none =>
      .ok (updateWorkOrder st work_order_id (fun w => { w with status := .BLOCKED }), false)
    | some (operator, machine, _score) => do
      let st ← reserveLoop st work_order.required_materials
      let st := updateWorkOrder st work_order_id (fun w =>
        { w with assigned_operator := some operator.operator_id,
                 assigned_machine := some machine.machine_id,
                 status := .IN_PROGRESS,
                 start_time := some now })
      let st := updateOperator st operator.operator_id (fun o =>
        { o with current_status := .ASSIGNED, current_work_order := some work_order_id })
      let st := updateMachine st machine.machine_id (fun m =>
        { m with current_status := .RUNNING, current_work_order := some work_order_id })
      let st := setReallocTime st work_order_id now
      .ok (st, true)

/-! ### `AllocationEngine.process_allocations` -/

/-- The `for work_order in prioritized_orders` loop, over the identifiers of the
snapshot taken before the loop, threading the allocated/blocked counters. -/
def allocLoop (now : Nat) : EngineState → List String → Nat → Nat →
    Except Unit (EngineState × Nat × Nat)
  | st, [], a, b => .ok (st, a, b)
  | st, wid :: rest, a, b => do
    let (st', allocated) ← allocate_resources now st wid
    if allocated then allocLoop now st' rest (a + 1) b
    else allocLoop now st' rest a (b + 1)

/-- Returns the final state together with the `allocated`, `blocked`, `total`
counters of the results dictionary. -/
def process_allocations (now : Nat) (st : EngineState) :
    Except Unit (EngineState × Nat × Nat × Nat) := do
  let prioritized := prioritize_work_orders st
  let (st', a, b) ← allocLoop now st (prioritized.map (fun wo => wo.work_order_id)) 0 0
  .ok (st', a, b, prioritized.length)

/-! ### `EventHandler` (`event_handler.py`)

Each handler receives the engine state and returns it, in `Except Unit` because
several handlers perform unguarded dictionary accesses.  `now` is the abstract
clock read by `datetime.now()`. -/

/-- `handle_machine_maintenance`: guarded lookup, then status and timestamp. -/
def handle_machine_maintenance (now : Nat) (st : EngineState) (machine_id : String) :
    EngineState :=
  match findMachine st machine_id with
  | none => st
  | some _ =>
    updateMachine st machine_id (fun m =>
      { m with current_status := .MAINTENANCE, last_maintenance := some now })

/-- `handle_operator_available`: guarded lookup; mark AVAILABLE, clear the
reference, and run a bulk pass when any work order is PENDING. -/
def handle_operator_available (now : Nat) (st : EngineState) (operator_id : String) :
    Except Unit EngineState :=
  match findOperator st operator_id with
  | none => .ok st
  | some _ => do
    let st := updateOperator st operator_id (fun o =>
      { o with current_status := .AVAILABLE, current_work_order := none })
    let pending_count := (pendingOrders st).length
    if 0 < pending_count then do
      let (st', _, _, _) ← process_allocations now st
      .ok st'
    else .ok st

/-- The material-release loop of `handle_work_order_completion`;
`self.engine.materials[mat_req.material_id]` is an unguarded access. -/
def releaseLoop : EngineState → List MaterialRequirement → Except Unit EngineState
  | st, [] => .ok st
  | st, req :: rest => do
    let _ ← getMaterialE st req.material_id
    releaseLoop
      (updateMaterial st req.material_id (fun m =>
        { m with quantity_reserved := m.quantity_reserved - req.quantity,
                 quantity_available := m.quantity_available - req.quantity })) rest

/-- `handle_work_order_completion`.  The efficiency computation of the source is
console output only and is omitted.  `if work_order.assigned_operator:` and
`if work_order.assigned_machine:` test Python truthiness, so an empty-string
identifier is treated like `None`. -/
def handle_work_order_completion (now : Nat) (st : EngineState) (work_order_id : String) :
    Except Unit EngineState :=
  match findWorkOrder st work_order_id with
  | none => .ok st
  | some work_order => do
    let st := updateWorkOrder st work_order_id (fun w =>
      { w with status := .COMPLETED, completion_time := some now, progress := 100 })
    let st ← releaseLoop st work_order.required_materials
    let st ← match work_order.assigned_operator with
      | some opId =>
        if opId.isEmpty then pure st else handle_operator_available now st opId
      | none => pure st
    match work_order.assigned_machine with
    | some mid =>
      if mid.isEmpty then pure st
      else do
        let _ ← getMachineE st mid
        pure (updateMachine st mid (fun m =>
          { m with current_status := .IDLE, current_work_order := none }))
    | none => pure st

/-- The `if wo.assigned_operator:` release block shared by the shortage and
breakdown handlers; `self.engine.operators[...]` is an unguarded access. -/
def freeOpE (st : EngineState) : Option String → Except Unit EngineState
  | some opid =>
    if opid.isEmpty then pure st
    else do
      let _ ← getOperatorE st opid
      pure (updateOperator st opid (fun o =>
        { o with current_status := .AVAILABLE, current_work_order := none }))
  | none => pure st

/-- The `if wo.assigned_machine:` release block of the shortage handler;
`self.engine.machines[...]` is an unguarded access. -/
def freeMachE (st : EngineState) : Option String → Except Unit EngineState
  | some mid =>
    if mid.isEmpty then pure st
    else do
      let _ ← getMachineE st mid
      pure (updateMachine st mid (fun m =>
        { m with current_status := .IDLE, current_work_order := none }))
  | none => pure st

/-- Breakdown, alternative-found branch: release the old operator when a
different one was chosen. -/
def freeOpIfDifferent (st : EngineState) (newId : String) :
    Option String → Except Unit EngineState
  | some opid =>
    if opid.isEmpty then pure st
    else if opid ≠ newId then do
      let _ ← getOperatorE st opid
      pure (updateOperator st opid (fun o =>
        { o with current_status := .AVAILABLE, current_work_order := none }))
    else pure st
  | none => pure st

/-- Breakdown, no-alternative branch: free the operator and rerun the bulk
allocation pass. -/
def freeAndRealloc (now : Nat) (st : EngineState) :
    Option String → Except Unit EngineState
  | some opid =>
    if opid.isEmpty then pure st
    else do
      let _ ← getOperatorE st opid
      let st := updateOperator st opid (fun o =>
        { o with current_status := .AVAILABLE, current_work_order := none })
      let (st', _, _, _) ← process_allocations now st
      pure st'
  | none => pure st

/-- `handle_machine_breakdown`.  `self.engine.work_orders[...]` and
`self.engine.operators[...]` are unguarded accesses; `if machine.current_work_order:`
and `if operator_id:` test truthiness. -/
def handle_machine_breakdown (now : Nat) (st : EngineState) (machine_id : String) :
    Except Unit EngineState :=
  match findMachine st machine_id with
  | none => .ok st
  | some machine => do
    let st := updateMachine st machine_id (fun m => { m with current_status := .BREAKDOWN })
    match machine.current_work_order with
    | none => pure st
    | some woId =>
      if woId.isEmpty then pure st
      else do
        let work_order ← getWorkOrderE st woId
        let operator_id := work_order.assigned_operator
        let st := updateWorkOrder st woId (fun w =>
          { w with assigned_machine := none, status := .BLOCKED })
        let work_order' :=
          { work_order with assigned_machine := none, status := WorkOrderStatus.BLOCKED }
        match find_best_allocation st work_order' with
        | some (new_operator, _new_machine, _score) => do
          let st ← freeOpIfDifferent st new_operator.operator_id operator_id
          let (st', _) ← allocate_resources now st woId
          pure st'
        | none => freeAndRealloc now st operator_id

/-- The `for wo in affected_orders` loop of `handle_material_shortage`;
`self.engine.operators[...]` and `self.engine.machines[...]` are unguarded. -/
def shortageLoop : EngineState → List WorkOrder → Except Unit EngineState
  | st, [] => .ok st
  | st, wo :: rest =>
    if wo.status = WorkOrderStatus.IN_PROGRESS then do
      let st := updateWorkOrder st wo.work_order_id (fun w => { w with status := .BLOCKED })
      let st ← freeOpE st wo.assigned_operator
      let st ← freeMachE st wo.assigned_machine
      shortageLoop st rest
    else shortageLoop st rest

def affectedBy (st : EngineState) (material_id : String) : List WorkOrder :=
  st.work_orders.filter (fun wo =>
    wo.required_materials.any (fun req => req.material_id = material_id))

/-- `handle_material_shortage`: guarded lookup, then block every affected
IN_PROGRESS work order and free its operator and machine. -/
def handle_material_shortage (st : EngineState) (material_id : String) :
    Except Unit EngineState :=
  match findMaterial st material_id with
  | none => .ok st
  | some _ => shortageLoop st (affectedBy st material_id)

/-- `handle_material_delivered`: guarded lookup; add the delivered quantity,
move every BLOCKED work order requiring the material back to PENDING, and run a
bulk pass when any was unblocked. -/
def handle_material_delivered (now : Nat) (st : EngineState) (material_id : String)
    (quantity : ℚ) : Except Unit EngineState :=
  match findMaterial st material_id with
  | none => .ok st
  | some _ => do
    let st := updateMaterial st material_id (fun m =>
      { m with quantity_available := m.quantity_available + quantity })
    let unblocked := (st.work_orders.filter (fun wo =>
      wo.status = WorkOrderStatus.BLOCKED ∧
        wo.required_materials.any (fun req => req.material_id = material_id))).length
    let st := { st with work_orders := st.work_orders.map (fun wo =>
      if wo.status = WorkOrderStatus.BLOCKED ∧
          wo.required_materials.any (fun req => req.material_id = material_id)
      then { wo with status := .PENDING } else wo) }
    if 0 < unblocked then do
      let (st', _, _, _) ← process_allocations now st
      pure st'
    else pure st

/-! ## Infrastructure: lemmas about catalog lookup and update -/

section KeyedList

variable {α : Type} {k : α → String} {f : α → α} {i j : String}

theorem find?_key_map_update (hf : ∀ a, k (f a) = k a) (l : List α) :
    (l.map (fun a => if k a = i then f a else a)).find? (fun a => k a = j) =
      if i = j then (l.find? (fun a => k a = j)).map f
      else l.find? (fun a => k a = j) := by
  by_cases hij : i = j
  · subst hij
    rw [if_pos rfl]
    induction l with
    | nil => rfl
    | cons a l ih =>
      by_cases hai : k a = i
      · rw [List.map_cons, if_pos hai,
          List.find?_cons_of_pos _ (by simp [hf, hai]),
          List.find?_cons_of_pos _ (by simpa using hai), Option.map_some']
      · rw [List.map_cons, if_neg hai,
          List.find?_cons_of_neg _ (by simpa using hai),
          List.find?_cons_of_neg _ (by simpa using hai), ih]
  · rw [if_neg hij]
    induction l with
    | nil => rfl
    | cons a l ih =>
      by_cases hai : k a = i
      · have haj : ¬ k a = j := fun h => hij (hai.symm.trans h)
        rw [List.map_cons, if_pos hai,
          List.find?_cons_of_neg _ (by simp [hf, hai, hij]),
          List.find?_cons_of_neg _ (by simpa using haj), ih]
      · by_cases haj : k a = j
        · rw [List.map_cons, if_neg hai,
            List.find?_cons_of_pos _ (by simpa using haj),
            List.find?_cons_of_pos _ (by simpa using haj)]
        · rw [List.map_cons, if_neg hai,
            List.find?_cons_of_neg _ (by simpa using haj),
            List.find?_cons_of_neg _ (by simpa using haj), ih]

theorem key_of_find? {l : List α} {x : α} (h : l.find? (fun a => k a = i) = some x) :
    k x = i := by
  simpa using List.find?_some h

theorem find?_key_of_mem {l : List α} {x : α} (hx : x ∈ l) (hk : k x = i)
    (hnd : (l.map k).Nodup) : l.find? (fun a => k a = i) = some x := by
  induction l with
  | nil => cases hx
  | cons a l ih =>
    rw [List.map_cons, List.nodup_cons] at hnd
    rcases List.mem_cons.1 hx with rfl | hx'
    · exact List.find?_cons_of_pos _ (by simpa using hk)
    · have hka : ¬ k a = i := by
        intro h
        exact hnd.1 (by rw [h, ← hk]; exact List.mem_map_of_mem k hx')
      rw [List.find?_cons_of_neg _ (by simpa using hka)]
      exact ih hx' hnd.2

theorem eq_of_mem_key_nodup {l : List α} {x y : α} (hx : x ∈ l) (hy : y ∈ l)
    (hk : k x = k y) (hnd : (l.map k).Nodup) : x = y := by
  have h1 := find?_key_of_mem hx rfl hnd
  have h2 := find?_key_of_mem hy hk.symm hnd
  rw [h1] at h2
  exact Option.some_injective _ h2

theorem map_key_map_update (hf : ∀ a, k (f a) = k a) (l : List α) :
    (l.map (fun a => if k a = i then f a else a)).map k = l.map k := by
  induction l with
  | nil => rfl
  | cons a l ih =>
    by_cases hai : k a = i <;> simp [hai, hf, ih]

end KeyedList

/-! ### State-component simp lemmas -/

@[simp] theorem updateOperator_machines (st : EngineState) (i : String) (f : Operator → Operator) :
    (updateOperator st i f).machines = st.machines := rfl

@[simp] theorem updateOperator_materials (st : EngineState) (i : String) (f : Operator → Operator) :
    (updateOperator st i f).materials = st.materials := rfl

@[simp] theorem updateOperator_work_orders (st : EngineState) (i : String) (f : Operator → Operator) :
    (updateOperator st i f).work_orders = st.work_orders := rfl

@[simp] theorem updateOperator_realloc (st : EngineState) (i : String) (f : Operator → Operator) :
    (updateOperator st i f).last_reallocation_time = st.last_reallocation_time := rfl

@[simp] theorem updateMachine_operators (st : EngineState) (i : String) (f : Machine → Machine) :
    (updateMachine st i f).operators = st.operators := rfl

@[simp] theorem updateMachine_materials (st : EngineState) (i : String) (f : Machine → Machine) :
    (updateMachine st i f).materials = st.materials := rfl

@[simp] theorem updateMachine_work_orders (st : EngineState) (i : String) (f : Machine → Machine) :
    (updateMachine st i f).work_orders = st.work_orders := rfl

@[simp] theorem updateMachine_realloc (st : EngineState) (i : String) (f : Machine → Machine) :
    (updateMachine st i f).last_reallocation_time = st.last_reallocation_time := rfl

@[simp] theorem updateMaterial_operators (st : EngineState) (i : String) (f : Material → Material) :
    (updateMaterial st i f).operators = st.operators := rfl

@[simp] theorem updateMaterial_machines (st : EngineState) (i : String) (f : Material → Material) :
    (updateMaterial st i f).machines = st.machines := rfl

@[simp] theorem updateMaterial_work_orders (st : EngineState) (i : String) (f : Material → Material) :
    (updateMaterial st i f).work_orders = st.work_orders := rfl

@[simp] theorem updateMaterial_realloc (st : EngineState) (i : String) (f : Material → Material) :
    (updateMaterial st i f).last_reallocation_time = st.last_reallocation_time := rfl

@[simp] theorem updateWorkOrder_operators (st : EngineState) (i : String) (f : WorkOrder → WorkOrder) :
    (updateWorkOrder st i f).operators = st.operators := rfl

@[simp] theorem updateWorkOrder_machines (st : EngineState) (i : String) (f : WorkOrder → WorkOrder) :
    (updateWorkOrder st i f).machines = st.machines := rfl

@[simp] theorem updateWorkOrder_materials (st : EngineState) (i : String) (f : WorkOrder → WorkOrder) :
    (updateWorkOrder st i f).materials = st.materials := rfl

@[simp] theorem updateWorkOrder_realloc (st : EngineState) (i : String) (f : WorkOrder → WorkOrder) :
    (updateWorkOrder st i f).last_reallocation_time = st.last_reallocation_time := rfl

@[simp] theorem setReallocTime_operators (st : EngineState) (s : String) (v : Nat) :
    (setReallocTime st s v).operators = st.operators := rfl

@[simp] theorem setReallocTime_machines (st : EngineState) (s : String) (v : Nat) :
    (setReallocTime st s v).machines = st.machines := rfl

@[simp] theorem setReallocTime_materials (st : EngineState) (s : String) (v : Nat) :
    (setReallocTime st s v).materials = st.materials := rfl

@[simp] theorem setReallocTime_work_orders (st : EngineState) (s : String) (v : Nat) :
    (setReallocTime st s v).work_orders = st.work_orders := rfl

/-! ### Specialized find-after-update lemmas -/

theorem findOperator_updateOperator (st : EngineState) (i j : String) (f : Operator → Operator)
    (hf : ∀ o, (f o).operator_id = o.operator_id) :
    findOperator (updateOperator st i f) j =
      if i = j then (findOperator st j).map f else findOperator st j :=
  find?_key_map_update hf st.operators

theorem findMachine_updateMachine (st : EngineState) (i j : String) (f : Machine → Machine)
    (hf : ∀ m, (f m).machine_id = m.machine_id) :
    findMachine (updateMachine st i f) j =
      if i = j then (findMachine st j).map f else findMachine st j :=
  find?_key_map_update hf st.machines

theorem findMaterial_updateMaterial (st : EngineState) (i j : String) (f : Material → Material)
    (hf : ∀ m, (f m).material_id = m.material_id) :
    findMaterial (updateMaterial st i f) j =
      if i = j then (findMaterial st j).map f else findMaterial st j :=
  find?_key_map_update hf st.materials

theorem findWorkOrder_updateWorkOrder (st : EngineState) (i j : String) (f : WorkOrder → WorkOrder)
    (hf : ∀ w, (f w).work_order_id = w.work_order_id) :
    findWorkOrder (updateWorkOrder st i f) j =
      if i = j then (findWorkOrder st j).map f else findWorkOrder st j :=
  find?_key_map_update hf st.work_orders

theorem findOperator_id {st : EngineState} {i : String} {o : Operator}
    (h : findOperator st i = some o) : o.operator_id = i :=
  key_of_find? h

theorem findMachine_id {st : EngineState} {i : String} {m : Machine}
    (h : findMachine st i = some m) : m.machine_id = i :=
  key_of_find? h

theorem findMaterial_id {st : EngineState} {i : String} {m : Material}
    (h : findMaterial st i = some m) : m.material_id = i :=
  key_of_find? h

theorem findWorkOrder_id {st : EngineState} {i : String} {w : WorkOrder}
    (h : findWorkOrder st i = some w) : w.work_order_id = i :=
  key_of_find? h

theorem findOperator_mem {st : EngineState} {i : String} {o : Operator}
    (h : findOperator st i = some o) : o ∈ st.operators :=
  List.mem_of_find?_eq_some h

theorem findMachine_mem {st : EngineState} {i : String} {m : Machine}
    (h : findMachine st i = some m) : m ∈ st.machines :=
  List.mem_of_find?_eq_some h

theorem findMaterial_mem {st : EngineState} {i : String} {m : Material}
    (h : findMaterial st i = some m) : m ∈ st.materials :=
  List.mem_of_find?_eq_some h

theorem findWorkOrder_mem {st : EngineState} {i : String} {w : WorkOrder}
    (h : findWorkOrder st i = some w) : w ∈ st.work_orders :=
  List.mem_of_find?_eq_some h

/-! ## Spec-side predicates for the hard constraints -/

/-- Check 1 of the spec: the operator's skill set is a superset of the work
order's required skills. -/
def skillsOK (work_order : WorkOrder) (operator : Operator) : Prop :=
  ∀ skill ∈ work_order.required_skills, skill ∈ operator.skills

/-- Check 2: the machine's capability set contains the required capability. -/
def capabilityOK (work_order : WorkOrder) (machine : Machine) : Prop :=
  work_order.required_machine_capability ∈ machine.capabilities

/-- One material requirement is satisfiable: the material exists and the
unreserved quantity covers the requirement. -/
def materialReqOK (st : EngineState) (req : MaterialRequirement) : Prop :=
  ∃ mat, findMaterial st req.material_id = some mat ∧
    req.quantity ≤ mat.quantity_available - mat.quantity_reserved

/-- Check 3: every material requirement is satisfiable. -/
def materialsOK (st : EngineState) (work_order : WorkOrder) : Prop :=
  ∀ req ∈ work_order.required_materials, materialReqOK st req

/-- Check 4: operator AVAILABLE and machine IDLE. -/
def statusesOK (operator : Operator) (machine : Machine) : Prop :=
  operator.current_status = OperatorStatus.AVAILABLE ∧
    machine.current_status = MachineStatus.IDLE

instance (work_order : WorkOrder) (operator : Operator) : Decidable (skillsOK work_order operator) := by
  unfold skillsOK; infer_instance

instance (work_order : WorkOrder) (machine : Machine) : Decidable (capabilityOK work_order machine) := by
  unfold capabilityOK; infer_instance

instance (operator : Operator) (machine : Machine) : Decidable (statusesOK operator machine) := by
  unfold statusesOK; infer_instance

instance (st : EngineState) (req : MaterialRequirement) : Decidable (materialReqOK st req) := by
  unfold materialReqOK
  cases findMaterial st req.material_id with
  | none => exact .isFalse (by simp)
  | some m => exact decidable_of_iff (req.quantity ≤ m.quantity_available - m.quantity_reserved) (by simp)

instance (st : EngineState) (work_order : WorkOrder) : Decidable (materialsOK st work_order) := by
  unfold materialsOK; infer_instance

theorem materialsCheck_eq_none {st : EngineState} {l : List MaterialRequirement} :
    materialsCheck st l = none ↔ ∀ req ∈ l, materialReqOK st req := by
  induction l with
  | nil => simp [materialsCheck]
  | cons req rest ih =>
    cases hfind : findMaterial st req.material_id with
    | none =>
      simp only [materialsCheck, hfind]
      constructor
      · intro h; cases h
      · intro h
        rcases h req (List.mem_cons_self _ _) with ⟨mat, hmat, _⟩
        rw [hfind] at hmat; cases hmat
    | some mat =>
      simp only [materialsCheck, hfind]
      by_cases hq : mat.quantity_available - mat.quantity_reserved < req.quantity
      · rw [if_pos hq]
        constructor
        · intro h; cases h
        · intro h
          rcases h req (List.mem_cons_self _ _) with ⟨mat', hmat', hle⟩
          rw [hfind] at hmat'
          cases hmat'
          exact absurd hle (not_le.2 hq)
      · rw [if_neg hq]
        rw [ih]
        constructor
        · intro h req' hreq'
          rcases List.mem_cons.1 hreq' with rfl | h'
          · exact ⟨mat, hfind, le_of_not_lt hq⟩
          · exact h req' h'
        · intro h req' hreq'
          exact h req' (List.mem_cons_of_mem _ hreq')

/-- The first failing requirement: characterization of `materialsCheck` when it
reports a failure. -/
theorem materialsCheck_eq_some {st : EngineState} {l : List MaterialRequirement} {r : Reason} :
    materialsCheck st l = some r →
      ∃ l₁ req l₂, l = l₁ ++ req :: l₂ ∧ (∀ x ∈ l₁, materialReqOK st x) ∧
        ((findMaterial st req.material_id = none ∧ r = .materialNotFound req.material_id) ∨
         (∃ mat, findMaterial st req.material_id = some mat ∧
            mat.quantity_available - mat.quantity_reserved < req.quantity ∧
            r = .insufficientMaterial req.material_id req.quantity
                  (mat.quantity_available - mat.quantity_reserved))) := by
  induction l with
  | nil => intro h; cases h
  | cons req rest ih =>
    intro h
    cases hfind : findMaterial st req.material_id with
    | none =>
      refine ⟨[], req, rest, rfl, by simp, Or.inl ⟨hfind, ?_⟩⟩
      simp only [materialsCheck, hfind] at h
      exact (Option.some_injective _ h).symm
    | some mat =>
      simp only [materialsCheck, hfind] at h
      by_cases hq : mat.quantity_available - mat.quantity_reserved < req.quantity
      · rw [if_pos hq] at h
        exact ⟨[], req, rest, rfl, by simp,
          Or.inr ⟨mat, hfind, hq, (Option.some_injective _ h).symm⟩⟩
      · rw [if_neg hq] at h
        rcases ih h with ⟨l₁, req', l₂, heq, hpre, hfail⟩
        exact ⟨req :: l₁, req', l₂, by rw [heq]; rfl, by
          intro x hx
          rcases List.mem_cons.1 hx with rfl | hx'
          · exact ⟨mat, hfind, le_of_not_lt hq⟩
          · exact hpre x hx', hfail⟩

theorem skillsOK_iff_find_none {work_order : WorkOrder} {operator : Operator} :
    work_order.required_skills.find? (fun skill => !(operator.skills.contains skill)) = none ↔
      skillsOK work_order operator := by
  rw [List.find?_eq_none]
  unfold skillsOK
  constructor
  · intro h skill hs
    have := h skill hs
    simpa [List.contains] using this
  · intro h skill hs
    simpa [List.contains] using h skill hs

theorem check_pass_iff (st : EngineState) (work_order : WorkOrder)
    (operator : Operator) (machine : Machine) :
    (check_hard_constraints st work_order operator machine).1 = true ↔
      skillsOK work_order operator ∧ capabilityOK work_order machine ∧
        materialsOK st work_order ∧ statusesOK operator machine := by
  unfold check_hard_constraints
  cases hsk : work_order.required_skills.find?
      (fun skill => !(operator.skills.contains skill)) with
  | some skill =>
    simp only [Bool.false_eq_true, false_iff]
    intro ⟨h1, _, _, _⟩
    rw [← skillsOK_iff_find_none] at h1
    rw [h1] at hsk
    cases hsk
  | none =>
    have hskOK : skillsOK work_order operator := skillsOK_iff_find_none.1 hsk
    cases hcap : machine.capabilities.contains work_order.required_machine_capability with
    | true =>
      rw [if_neg (by simp)]
      cases hmc : materialsCheck st work_order.required_materials with
      | some r =>
        simp only [Bool.false_eq_true, false_iff]
        intro ⟨_, _, h3, _⟩
        have hmn := materialsCheck_eq_none.2 h3
        rw [hmn] at hmc
        cases hmc
      | none =>
        have hmOK : materialsOK st work_order := materialsCheck_eq_none.1 hmc
        by_cases hop : operator.current_status = OperatorStatus.AVAILABLE
        · rw [if_neg (by simp [hop])]
          by_cases hma : machine.current_status = MachineStatus.IDLE
          · rw [if_neg (by simp [hma])]
            simp only [true_iff]
            exact ⟨hskOK, List.elem_iff.1 hcap, hmOK, hop, hma⟩
          · rw [if_pos (by simp [hma])]
            simp only [Bool.false_eq_true, false_iff]
            intro ⟨_, _, _, _, h5⟩
            exact hma h5
        · rw [if_pos (by simp [hop])]
          simp only [Bool.false_eq_true, false_iff]
          intro ⟨_, _, _, h4, _⟩
          exact hop h4
    | false =>
      rw [if_pos (by simp)]
      simp only [Bool.false_eq_true, false_iff]
      intro ⟨_, h2, _, _⟩
      have hmem : work_order.required_machine_capability ∈ machine.capabilities := h2
      have hc : machine.capabilities.contains work_order.required_machine_capability = true :=
        List.elem_eq_true_of_mem hmem
      rw [hc] at hcap
      simp at hcap

theorem check_of_skill_fail {st : EngineState} {work_order : WorkOrder}
    {operator : Operator} {machine : Machine} {skill : String}
    (h : work_order.required_skills.find?
        (fun skill => !(operator.skills.contains skill)) = some skill) :
    check_hard_constraints st work_order operator machine = (false, .missingSkill skill) := by
  unfold check_hard_constraints
  rw [h]

theorem check_of_cap_fail {st : EngineState} {work_order : WorkOrder}
    {operator : Operator} {machine : Machine}
    (hsk : work_order.required_skills.find?
        (fun skill => !(operator.skills.contains skill)) = none)
    (hcap : machine.capabilities.contains work_order.required_machine_capability = false) :
    check_hard_constraints st work_order operator machine = (false, .lacksCapability) := by
  unfold check_hard_constraints
  rw [hsk, hcap]
  simp

theorem check_of_materials_fail {st : EngineState} {work_order : WorkOrder}
    {operator : Operator} {machine : Machine} {r : Reason}
    (hsk : work_order.required_skills.find?
        (fun skill => !(operator.skills.contains skill)) = none)
    (hcap : machine.capabilities.contains work_order.required_machine_capability = true)
    (hmc : materialsCheck st work_order.required_materials = some r) :
    check_hard_constraints st work_order operator machine = (false, r) := by
  unfold check_hard_constraints
  rw [hsk, hcap, hmc]
  simp

theorem check_of_operator_busy {st : EngineState} {work_order : WorkOrder}
    {operator : Operator} {machine : Machine}
    (hsk : work_order.required_skills.find?
        (fun skill => !(operator.skills.contains skill)) = none)
    (hcap : machine.capabilities.contains work_order.required_machine_capability = true)
    (hmc : materialsCheck st work_order.required_materials = none)
    (hop : operator.current_status ≠ OperatorStatus.AVAILABLE) :
    check_hard_constraints st work_order operator machine =
      (false, .operatorNotAvailable operator.current_status) := by
  unfold check_hard_constraints
  rw [hsk, hcap, hmc]
  simp [hop]

theorem check_of_machine_busy {st : EngineState} {work_order : WorkOrder}
    {operator : Operator} {machine : Machine}
    (hsk : work_order.required_skills.find?
        (fun skill => !(operator.skills.contains skill)) = none)
    (hcap : machine.capabilities.contains work_order.required_machine_capability = true)
    (hmc : materialsCheck st work_order.required_materials = none)
    (hop : operator.current_status = OperatorStatus.AVAILABLE)
    (hma : machine.current_status ≠ MachineStatus.IDLE) :
    check_hard_constraints st work_order operator machine =
      (false, .machineNotIdle machine.current_status) := by
  unfold check_hard_constraints
  rw [hsk, hcap, hmc]
  simp [hop, hma]

theorem check_of_all_pass {st : EngineState} {work_order : WorkOrder}
    {operator : Operator} {machine : Machine}
    (h : skillsOK work_order operator ∧ capabilityOK work_order machine ∧
      materialsOK st work_order ∧ statusesOK operator machine) :
    check_hard_constraints st work_order operator machine = (true, .allSatisfied) := by
  obtain ⟨h1, h2, h3, h4⟩ := h
  have hc : machine.capabilities.contains work_order.required_machine_capability = true :=
    List.elem_eq_true_of_mem h2
  unfold check_hard_constraints
  rw [skillsOK_iff_find_none.2 h1, hc, materialsCheck_eq_none.2 h3]
  simp [h4.1, h4.2]

/-- C8: `check_hard_constraints` evaluates its checks in the fixed order
(1) skills superset, (2) machine capability, (3) material existence and
unreserved quantity, (4) operator AVAILABLE and machine IDLE; it returns
failure with the corresponding reason at the first violated check (within
check 3, at the first violated requirement, with a missing material reported
by a different reason than insufficient quantity), and returns pass exactly
when all checks hold.  The function is pure: it takes the state and returns
only a verdict.  -/
theorem C8_check_hard_constraints_order (st : EngineState) (work_order : WorkOrder)
    (operator : Operator) (machine : Machine) :
    ((check_hard_constraints st work_order operator machine).1 = true ↔
      skillsOK work_order operator ∧ capabilityOK work_order machine ∧
        materialsOK st work_order ∧ statusesOK operator machine) ∧
    ((check_hard_constraints st work_order operator machine).1 = true →
      check_hard_constraints st work_order operator machine = (true, .allSatisfied)) ∧
    (¬ skillsOK work_order operator →
      ∃ s l₁ l₂, work_order.required_skills = l₁ ++ s :: l₂ ∧
        (∀ x ∈ l₁, x ∈ operator.skills) ∧ s ∉ operator.skills ∧
        check_hard_constraints st work_order operator machine = (false, .missingSkill s)) ∧
    (skillsOK work_order operator → ¬ capabilityOK work_order machine →
      check_hard_constraints st work_order operator machine = (false, .lacksCapability)) ∧
    (skillsOK work_order operator → capabilityOK work_order machine →
      ¬ materialsOK st work_order →
      ∃ l₁ req l₂, work_order.required_materials = l₁ ++ req :: l₂ ∧
        (∀ x ∈ l₁, materialReqOK st x) ∧
        ((findMaterial st req.material_id = none ∧
            check_hard_constraints st work_order operator machine =
              (false, .materialNotFound req.material_id)) ∨
         (∃ mat, findMaterial st req.material_id = some mat ∧
            mat.quantity_available - mat.quantity_reserved < req.quantity ∧
            check_hard_constraints st work_order operator machine =
              (false, .insufficientMaterial req.material_id req.quantity
                (mat.quantity_available - mat.quantity_reserved))))) ∧
    (skillsOK work_order operator → capabilityOK work_order machine →
      materialsOK st work_order → operator.current_status ≠ OperatorStatus.AVAILABLE →
      check_hard_constraints st work_order operator machine =
        (false, .operatorNotAvailable operator.current_status)) ∧
    (skillsOK work_order operator → capabilityOK work_order machine →
      materialsOK st work_order → operator.current_status = OperatorStatus.AVAILABLE →
      machine.current_status ≠ MachineStatus.IDLE →
      check_hard_constraints st work_order operator machine =
        (false, .machineNotIdle machine.current_status)) ∧
    (∀ i₁ i₂ n a, Reason.materialNotFound i₁ ≠ Reason.insufficientMaterial i₂ n a) := by
  refine ⟨check_pass_iff st work_order operator machine, ?_, ?_, ?_, ?_, ?_, ?_, ?_⟩
  · intro h
    exact check_of_all_pass ((check_pass_iff st work_order operator machine).1 h)
  · intro hns
    have hne : work_order.required_skills.find?
        (fun skill => !(operator.skills.contains skill)) ≠ none :=
      fun h => hns (skillsOK_iff_find_none.1 h)
    obtain ⟨s, hs⟩ := Option.ne_none_iff_exists'.1 hne
    obtain ⟨hps, as, bs, heq, hpre⟩ := List.find?_eq_some.1 hs
    refine ⟨s, as, bs, heq, ?_, ?_, check_of_skill_fail hs⟩
    · intro x hx
      have := hpre x hx
      simpa using this
    · simpa using hps
  · intro hsk hcap
    have hcf : machine.capabilities.contains work_order.required_machine_capability = false := by
      cases hco : machine.capabilities.contains work_order.required_machine_capability
      · rfl
      · exact absurd (List.elem_iff.1 hco) hcap
    exact check_of_cap_fail (skillsOK_iff_find_none.2 hsk) hcf
  · intro hsk hcap hnm
    have hne : materialsCheck st work_order.required_materials ≠ none :=
      fun h => hnm (materialsCheck_eq_none.1 h)
    obtain ⟨r, hr⟩ := Option.ne_none_iff_exists'.1 hne
    have hc : machine.capabilities.contains work_order.required_machine_capability = true :=
      List.elem_eq_true_of_mem hcap
    have hchk := check_of_materials_fail (skillsOK_iff_find_none.2 hsk) hc hr
    obtain ⟨l₁, req, l₂, heq, hpre, hfail⟩ := materialsCheck_eq_some hr
    refine ⟨l₁, req, l₂, heq, hpre, ?_⟩
    rcases hfail with ⟨hnone, rfl⟩ | ⟨mat, hmat, hlt, rfl⟩
    · exact Or.inl ⟨hnone, hchk⟩
    · exact Or.inr ⟨mat, hmat, hlt, hchk⟩
  · intro hsk hcap hm hop
    exact check_of_operator_busy (skillsOK_iff_find_none.2 hsk)
      (List.elem_eq_true_of_mem hcap) (materialsCheck_eq_none.2 hm) hop
  · intro hsk hcap hm hop hma
    exact check_of_machine_busy (skillsOK_iff_find_none.2 hsk)
      (List.elem_eq_true_of_mem hcap) (materialsCheck_eq_none.2 hm) hop hma
  · intro i₁ i₂ n a h
    cases h

/-! ## Bounds on the scoring terms -/

theorem calculate_distance_nonneg (a b : String) : 0 ≤ calculate_distance a b := by
  unfold calculate_distance
  split <;> norm_num

theorem one_sub_min_nonneg (x : ℚ) : 0 ≤ 1 - min x 1 := by
  have := min_le_right x 1
  linarith

theorem one_sub_min_le_one {x : ℚ} (hx : 0 ≤ x) : 1 - min x 1 ≤ 1 := by
  have : (0:ℚ) ≤ min x 1 := le_min hx (by norm_num)
  linarith

theorem proximity_factor_mem (work_order : WorkOrder) (operator : Operator)
    (machine : Machine) : 0 ≤ proximity_factor work_order operator machine ∧
      proximity_factor work_order operator machine ≤ 1 := by
  unfold proximity_factor
  have h1 := calculate_distance_nonneg operator.location machine.location
  have h2 := calculate_distance_nonneg machine.location work_order.location
  refine ⟨one_sub_min_nonneg _, one_sub_min_le_one ?_⟩
  have : (0:ℚ) ≤ (calculate_distance operator.location machine.location +
      calculate_distance machine.location work_order.location) / 2 := by linarith
  linarith [this, div_nonneg this (by norm_num : (0:ℚ) ≤ 100)]

theorem machine_efficiency_mem (machine : Machine) :
    0 ≤ machine_efficiency machine ∧ machine_efficiency machine ≤ 1 := by
  unfold machine_efficiency
  exact ⟨le_max_left _ _, max_le (by norm_num) (min_le_right _ _)⟩

theorem cost_optimization_nonneg (operator : Operator) (machine : Machine) :
    0 ≤ cost_optimization operator machine := by
  unfold cost_optimization
  exact one_sub_min_nonneg _

theorem cost_optimization_le_one {operator : Operator} {machine : Machine}
    (h1 : 0 ≤ operator.hourly_cost) (h2 : 0 ≤ machine.operating_cost_per_hour) :
    cost_optimization operator machine ≤ 1 := by
  unfold cost_optimization
  exact one_sub_min_le_one (by positivity)

theorem skill_match_quality_nonneg {work_order : WorkOrder} {operator : Operator}
    (h : ∀ s ∈ work_order.required_skills, 0 ≤ skillLevel operator.skill_levels s) :
    0 ≤ skill_match_quality work_order operator := by
  unfold skill_match_quality
  by_cases he : (work_order.required_skills.map
      (fun s => skillLevel operator.skill_levels s)).isEmpty
  · rw [if_pos he]
  · rw [if_neg he]
    have hsum : (0:ℚ) ≤ ((work_order.required_skills.map
        (fun s => skillLevel operator.skill_levels s)).map (fun l => (Int.cast l : ℚ))).sum := by
      apply List.sum_nonneg
      intro x hx
      rcases List.mem_map.1 hx with ⟨l, hl, rfl⟩
      rcases List.mem_map.1 hl with ⟨s, hs, rfl⟩
      exact_mod_cast h s hs
    positivity

theorem skill_match_quality_le_one {work_order : WorkOrder} {operator : Operator}
    (h : ∀ s ∈ work_order.required_skills, skillLevel operator.skill_levels s ≤ 5) :
    skill_match_quality work_order operator ≤ 1 := by
  unfold skill_match_quality
  by_cases he : (work_order.required_skills.map
      (fun s => skillLevel operator.skill_levels s)).isEmpty
  · rw [if_pos he]; norm_num
  · rw [if_neg he]
    set lv := work_order.required_skills.map (fun s => skillLevel operator.skill_levels s) with hlv
    have hlen : 0 < lv.length := by
      cases hl : lv with
      | nil => rw [hl] at he; simp at he
      | cons a l => simp [hl]
    have hsum : (lv.map (fun l => (Int.cast l : ℚ))).sum ≤ (lv.length : ℚ) * 5 := by
      have hb : ∀ x ∈ lv.map (fun l => (Int.cast l : ℚ)), x ≤ (5:ℚ) := by
        intro x hx
        rcases List.mem_map.1 hx with ⟨l, hl, rfl⟩
        rw [hlv] at hl
        rcases List.mem_map.1 hl with ⟨s, hs, rfl⟩
        exact_mod_cast h s hs
      calc (lv.map (fun l => (Int.cast l : ℚ))).sum
          ≤ (lv.map (fun l => (Int.cast l : ℚ))).length • (5:ℚ) :=
            List.sum_le_card_nsmul _ _ hb
        _ = (lv.length : ℚ) * 5 := by
            rw [List.length_map, nsmul_eq_mul]
    have hlenq : (0:ℚ) < (lv.length : ℚ) := by exact_mod_cast hlen
    rw [div_div]
    rw [div_le_one (by positivity)]
    linarith

theorem skillLevel_nonneg {levels : List (String × Int)}
    (h : ∀ p ∈ levels, 0 ≤ p.2) (s : String) : 0 ≤ skillLevel levels s := by
  unfold skillLevel
  cases hf : levels.find? (fun p => p.1 = s) with
  | none => norm_num
  | some p => exact h p (List.mem_of_find?_eq_some hf)

theorem score_nonneg {work_order : WorkOrder} {operator : Operator} {machine : Machine}
    (h : ∀ p ∈ operator.skill_levels, 0 ≤ p.2) :
    0 ≤ calculate_allocation_score work_order operator machine := by
  unfold calculate_allocation_score
  have h1 : 0 ≤ skill_match_quality work_order operator :=
    skill_match_quality_nonneg (fun s _ => skillLevel_nonneg h s)
  have h2 := (proximity_factor_mem work_order operator machine).1
  have h3 := (machine_efficiency_mem machine).1
  have h4 := cost_optimization_nonneg operator machine
  linarith

/-! ## Concrete fixtures (used by witnesses and counterexamples) -/

def opFix : Operator :=
  { operator_id := "OP1", name := "Alice", skills := ["welding", "assembly"],
    skill_levels := [("welding", 5), ("assembly", 4)],
    current_status := .AVAILABLE, location := "Z1", hourly_cost := 25 }

def machFix : Machine :=
  { machine_id := "M1", name := "Welder", capabilities := ["welding"],
    current_status := .IDLE, location := "Z1", cycle_time := 30,
    operating_cost_per_hour := 40 }

def matFix : Material :=
  { material_id := "MAT-001", name := "steel", quantity_available := 1000,
    quantity_reserved := 0, location := "Z1", unit_of_measure := "kg",
    reorder_point := 100 }

def woFix : WorkOrder :=
  { work_order_id := "WO1", priority := 8, required_skills := ["welding"],
    required_machine_capability := "welding",
    required_materials := [⟨"MAT-001", 50⟩],
    estimated_duration := 60, deadline := 1000, status := .PENDING,
    location := "Z1" }

def stFix : EngineState :=
  { operators := [opFix], machines := [machFix], materials := [matFix],
    work_orders := [woFix] }

/-- A work order whose required capability the fixture machine lacks. -/
def woCap : WorkOrder :=
  { woFix with work_order_id := "WO2", required_machine_capability := "milling" }

/-- An operator with proficiency level 10 in the one required skill. -/
def opHi : Operator :=
  { operator_id := "OPH", name := "Hera", skills := ["w"],
    skill_levels := [("w", 10)], current_status := .AVAILABLE,
    location := "L", hourly_cost := 0 }

def machNeutral : Machine :=
  { machine_id := "MH", name := "Mach", capabilities := ["w"],
    current_status := .IDLE, location := "L", cycle_time := 0,
    operating_cost_per_hour := 0 }

def woHi : WorkOrder :=
  { work_order_id := "WOH", priority := 5, required_skills := ["w"],
    required_machine_capability := "w", required_materials := [],
    estimated_duration := 10, deadline := 10, status := .PENDING,
    location := "L" }

/-! ## C8 -/

/-- Witness for C8: concrete run in which the skills check passes, the
capability check is the first to fail, and the reported reason is
`lacksCapability`. -/
theorem C8_check_hard_constraints_order_witness :
    skillsOK woCap opFix ∧ ¬ capabilityOK woCap machFix ∧
      check_hard_constraints stFix woCap opFix machFix = (false, .lacksCapability) := by
  have h1 : skillsOK woCap opFix := by decide
  have h2 : ¬ capabilityOK woCap machFix := by decide
  exact ⟨h1, h2, (C8_check_hard_constraints_order stFix woCap opFix machFix).2.2.2.1 h1 h2⟩

/-! ## C9 -/

/-- C9 as written is false: the skill-match term is not clamped to [0,1].
With proficiency level 10 in the single required skill (and otherwise neutral
inputs), the skill term is 2 and the returned score is 1.3 > 1. -/
theorem C9_counterexample : 1 < calculate_allocation_score woHi opHi machNeutral := by
  norm_num [calculate_allocation_score, skill_match_quality, proximity_factor,
    machine_efficiency, cost_optimization, calculate_distance, skillLevel,
    woHi, opHi, machNeutral, List.find?]

/-- C9 (amended): the proximity and machine-efficiency terms are clamped to
[0,1] by construction; the skill-match and cost terms are not clamped, but lie
in [0,1] whenever every required skill level lies in [0,5] and both hourly
costs are nonnegative; under those hypotheses the weighted sum with the fixed
weights 0.4, 0.3, 0.2, 0.1 lies in [0,1]. -/
theorem C9_score_in_unit_interval (work_order : WorkOrder) (operator : Operator)
    (machine : Machine)
    (hlev : ∀ s ∈ work_order.required_skills,
      0 ≤ skillLevel operator.skill_levels s ∧ skillLevel operator.skill_levels s ≤ 5)
    (hoc : 0 ≤ operator.hourly_cost) (hmc : 0 ≤ machine.operating_cost_per_hour) :
    (0 ≤ proximity_factor work_order operator machine ∧
      proximity_factor work_order operator machine ≤ 1) ∧
    (0 ≤ machine_efficiency machine ∧ machine_efficiency machine ≤ 1) ∧
    (0 ≤ skill_match_quality work_order operator ∧
      skill_match_quality work_order operator ≤ 1) ∧
    (0 ≤ cost_optimization operator machine ∧ cost_optimization operator machine ≤ 1) ∧
    calculate_allocation_score work_order operator machine =
      0.4 * skill_match_quality work_order operator +
      0.3 * proximity_factor work_order operator machine +
      0.2 * machine_efficiency machine + 0.1 * cost_optimization operator machine ∧
    0 ≤ calculate_allocation_score work_order operator machine ∧
    calculate_allocation_score work_order operator machine ≤ 1 := by
  have hp := proximity_factor_mem work_order operator machine
  have he := machine_efficiency_mem machine
  have hs1 : 0 ≤ skill_match_quality work_order operator :=
    skill_match_quality_nonneg (fun s hs => (hlev s hs).1)
  have hs2 : skill_match_quality work_order operator ≤ 1 :=
    skill_match_quality_le_one (fun s hs => (hlev s hs).2)
  have hc1 := cost_optimization_nonneg operator machine
  have hc2 := cost_optimization_le_one hoc hmc
  refine ⟨hp, he, ⟨hs1, hs2⟩, ⟨hc1, hc2⟩, rfl, ?_, ?_⟩
  · unfold calculate_allocation_score
    linarith [hp.1, he.1]
  · unfold calculate_allocation_score
    linarith [hp.2, he.2]

/-- Witness for C9 (amended) at the representative fixture: the score 0.885 of
the welding scenario lies in [0,1]. -/
theorem C9_score_in_unit_interval_witness :
    0 ≤ calculate_allocation_score woFix opFix machFix ∧
      calculate_allocation_score woFix opFix machFix ≤ 1 := by
  have h := C9_score_in_unit_interval woFix opFix machFix
    (by decide) (by norm_num [opFix]) (by norm_num [machFix])
  exact h.2.2.2.2.2

/-! ## C4 -/

/-- C4: `prioritize_work_orders` returns exactly the PENDING work orders
(a permutation of the PENDING filter, which preserves insertion order),
sorted by priority descending, then deadline ascending, then estimated
duration ascending; and the sort is stable: two orders agreeing on all three
keys keep their original relative (insertion) order. -/
theorem C4_prioritize_work_orders (st : EngineState) :
    List.Perm (prioritize_work_orders st)
        (st.work_orders.filter (fun wo => wo.status = WorkOrderStatus.PENDING)) ∧
    (prioritize_work_orders st).Pairwise (fun a b =>
      b.priority < a.priority ∨ (a.priority = b.priority ∧ (a.deadline < b.deadline ∨
        (a.deadline = b.deadline ∧ a.estimated_duration ≤ b.estimated_duration)))) ∧
    (∀ a b : WorkOrder, a.priority = b.priority → a.deadline = b.deadline →
      a.estimated_duration = b.estimated_duration →
      List.Sublist [a, b] (st.work_orders.filter (fun wo => wo.status = WorkOrderStatus.PENDING)) →
      List.Sublist [a, b] (prioritize_work_orders st)) := by
  refine ⟨List.perm_insertionSort woLE (pendingOrders st), ?_, ?_⟩
  · exact List.sorted_insertionSort woLE (pendingOrders st)
  · intro a b h1 h2 h3 hsub
    exact List.pair_sublist_insertionSort (by unfold woLE; omega) hsub

/-- Two PENDING work orders with identical priority, deadline and duration. -/
def woTieA : WorkOrder :=
  { work_order_id := "WA", priority := 5, required_skills := [],
    required_machine_capability := "c", required_materials := [],
    estimated_duration := 10, deadline := 100, status := .PENDING }

def woTieB : WorkOrder := { woTieA with work_order_id := "WB" }

def stTie : EngineState :=
  { operators := [], machines := [], materials := [], work_orders := [woTieA, woTieB] }

/-- Witness for C4: on a catalog with two key-equal PENDING orders the output
keeps their insertion order, and is a permutation of the PENDING filter. -/
theorem C4_prioritize_work_orders_witness :
    List.Sublist [woTieA, woTieB] (prioritize_work_orders stTie) ∧
    List.Perm (prioritize_work_orders stTie)
      (stTie.work_orders.filter (fun wo => wo.status = WorkOrderStatus.PENDING)) := by
  have h := C4_prioritize_work_orders stTie
  refine ⟨h.2.2 woTieA woTieB rfl rfl rfl ?_, h.1⟩
  have hf : stTie.work_orders.filter (fun wo => wo.status = WorkOrderStatus.PENDING) =
      [woTieA, woTieB] := rfl
  rw [hf]

/-! ## C5: characterization of `find_best_allocation` -/

def passingPairs (st : EngineState) (work_order : WorkOrder) : List (Operator × Machine) :=
  (candidatePairs st).filter (fun p => (check_hard_constraints st work_order p.1 p.2).1)

def scoreOf (work_order : WorkOrder) (p : Operator × Machine) : ℚ :=
  calculate_allocation_score work_order p.1 p.2

theorem mem_candidatePairs {st : EngineState} {o : Operator} {mch : Machine} :
    (o, mch) ∈ candidatePairs st ↔
      (o ∈ st.operators ∧ o.current_status = OperatorStatus.AVAILABLE ∧
       mch ∈ st.machines ∧ mch.current_status = MachineStatus.IDLE) := by
  unfold candidatePairs availableOperators idleMachines
  simp only [List.mem_flatMap, List.mem_map, List.mem_filter, decide_eq_true_eq,
    Prod.mk.injEq]
  constructor
  · rintro ⟨a, ⟨ha, hsa⟩, b, ⟨hb, hsb⟩, h1, h2⟩
    subst h1; subst h2
    exact ⟨ha, hsa, hb, hsb⟩
  · rintro ⟨ha, hsa, hb, hsb⟩
    exact ⟨o, ⟨ha, hsa⟩, mch, ⟨hb, hsb⟩, rfl, rfl⟩

theorem fbaLoop_nil (st : EngineState) (work_order : WorkOrder) (bs : ℚ)
    (acc : Option (Operator × Machine × ℚ)) :
    fbaLoop st work_order [] bs acc = acc := rfl

theorem fbaLoop_cons (st : EngineState) (work_order : WorkOrder) (o : Operator)
    (mch : Machine) (rest : List (Operator × Machine)) (bs : ℚ)
    (acc : Option (Operator × Machine × ℚ)) :
    fbaLoop st work_order ((o, mch) :: rest) bs acc =
      if (check_hard_constraints st work_order o mch).1 then
        (if bs < calculate_allocation_score work_order o mch then
          fbaLoop st work_order rest (calculate_allocation_score work_order o mch)
            (some (o, mch, calculate_allocation_score work_order o mch))
        else fbaLoop st work_order rest bs acc)
      else fbaLoop st work_order rest bs acc := rfl

theorem fbaLoop_filter (st : EngineState) (work_order : WorkOrder) :
    ∀ (l : List (Operator × Machine)) (bs : ℚ) (acc : Option (Operator × Machine × ℚ)),
      fbaLoop st work_order l bs acc =
        fbaLoop st work_order
          (l.filter (fun p => (check_hard_constraints st work_order p.1 p.2).1)) bs acc
  | [], _, _ => rfl
  | (o, mch) :: rest, bs, acc => by
    rw [fbaLoop_cons, List.filter_cons]
    by_cases hchk : (check_hard_constraints st work_order o mch).1 = true
    · rw [if_pos hchk,
        if_pos (show ((fun p : Operator × Machine =>
          (check_hard_constraints st work_order p.1 p.2).1) (o, mch)) = true from hchk),
        fbaLoop_cons, if_pos hchk]
      by_cases hs : bs < calculate_allocation_score work_order o mch
      · rw [if_pos hs, if_pos hs]
        exact fbaLoop_filter st work_order rest _ _
      · rw [if_neg hs, if_neg hs]
        exact fbaLoop_filter st work_order rest bs acc
    · rw [if_neg hchk,
        if_neg (show ¬ ((fun p : Operator × Machine =>
          (check_hard_constraints st work_order p.1 p.2).1) (o, mch)) = true from hchk)]
      exact fbaLoop_filter st work_order rest bs acc

/-- First-maximum specification: `p` attains the maximal score in `l` and every
pair strictly before it scores strictly less. -/
def IsFirstMax (work_order : WorkOrder) (l : List (Operator × Machine))
    (p : Operator × Machine) : Prop :=
  p ∈ l ∧ (∀ q ∈ l, scoreOf work_order q ≤ scoreOf work_order p) ∧
    ∃ l₁ l₂, l = l₁ ++ p :: l₂ ∧
      ∀ q ∈ l₁, scoreOf work_order q < scoreOf work_order p

theorem fbaLoop_running (st : EngineState) (work_order : WorkOrder) :
    ∀ (l : List (Operator × Machine)) (q : Operator × Machine),
      (∀ p ∈ l, (check_hard_constraints st work_order p.1 p.2).1 = true) →
      ∃ r, fbaLoop st work_order l (scoreOf work_order q)
          (some (q.1, q.2, scoreOf work_order q)) =
          some (r.1, r.2, scoreOf work_order r) ∧ IsFirstMax work_order (q :: l) r
  | [], q, _ => by
    refine ⟨q, rfl, List.mem_cons_self _ _, ?_, [], [], rfl, by simp⟩
    intro p hp
    rcases List.mem_cons.1 hp with rfl | h
    · exact le_refl _
    · cases h
  | (o, mch) :: rest, q, hall => by
    have hchk : (check_hard_constraints st work_order o mch).1 = true :=
      hall _ (List.mem_cons_self _ _)
    have hallr : ∀ p ∈ rest, (check_hard_constraints st work_order p.1 p.2).1 = true :=
      fun p hp => hall p (List.mem_cons_of_mem _ hp)
    rw [fbaLoop_cons, if_pos hchk]
    by_cases hs : scoreOf work_order q < calculate_allocation_score work_order o mch
    · rw [if_pos hs]
      obtain ⟨r, hr, hmem, hbound, l₁, l₂, hsplit, hpre⟩ :=
        fbaLoop_running st work_order rest (o, mch) hallr
      have hor : scoreOf work_order (o, mch) ≤ scoreOf work_order r :=
        hbound _ (List.mem_cons_self _ _)
      refine ⟨r, hr, List.mem_cons_of_mem _ hmem, ?_,
        (q :: l₁), l₂, by rw [List.cons_append, ← hsplit], ?_⟩
      · intro p hp
        rcases List.mem_cons.1 hp with rfl | hp'
        · exact le_trans (le_of_lt hs) hor
        · exact hbound p hp'
      · intro p hp
        rcases List.mem_cons.1 hp with rfl | hp'
        · exact lt_of_lt_of_le hs hor
        · exact hpre p hp'
    · rw [if_neg hs]
      obtain ⟨r, hr, hmem, hbound, l₁, l₂, hsplit, hpre⟩ :=
        fbaLoop_running st work_order rest q hallr
      have hqr : scoreOf work_order q ≤ scoreOf work_order r :=
        hbound _ (List.mem_cons_self _ _)
      have hom : scoreOf work_order (o, mch) ≤ scoreOf work_order r :=
        le_trans (not_lt.1 hs) hqr
      refine ⟨r, hr, ?_, ?_, ?_⟩
      · rcases List.mem_cons.1 hmem with rfl | hm
        · exact List.mem_cons_self _ _
        · exact List.mem_cons_of_mem _ (List.mem_cons_of_mem _ hm)
      · intro p hp
        rcases List.mem_cons.1 hp with rfl | hp'
        · exact hqr
        · rcases List.mem_cons.1 hp' with rfl | hp''
          · exact hom
          · exact hbound p (List.mem_cons_of_mem _ hp'')
      · cases l₁ with
        | nil =>
          rw [List.nil_append] at hsplit
          injection hsplit with h1 h2
          subst h1
          exact ⟨[], (o, mch) :: rest, by rw [h2]; rfl, by simp⟩
        | cons x l₁' =>
          rw [List.cons_append] at hsplit
          injection hsplit with h1 h2
          subst h1
          refine ⟨q :: (o, mch) :: l₁', l₂,
            by rw [List.cons_append, List.cons_append, ← h2], ?_⟩
          have hql : scoreOf work_order q < scoreOf work_order r :=
            hpre q (List.mem_cons_self _ _)
          intro p hp
          rcases List.mem_cons.1 hp with rfl | hp'
          · exact hql
          · rcases List.mem_cons.1 hp' with rfl | hp''
            · exact lt_of_le_of_lt (not_lt.1 hs) hql
            · exact hpre p (List.mem_cons_of_mem _ hp'')

/-- C5: `find_best_allocation` searches exactly the cross-product of AVAILABLE
operators and IDLE machines (in iteration order, operators outermost), discards
every pair failing `check_hard_constraints`, and returns a constraint-passing
pair of maximal score, the first such pair in iteration order winning ties;
it returns `none` iff no pair passes.  Skill levels are assumed nonnegative
(the data model's 1-5 range), which keeps every score above the `-1` sentinel. -/
theorem C5_find_best_allocation (st : EngineState) (work_order : WorkOrder)
    (hlev : ∀ op ∈ st.operators, ∀ p ∈ op.skill_levels, 0 ≤ p.2) :
    (∀ (o : Operator) (mch : Machine), (o, mch) ∈ candidatePairs st ↔
      (o ∈ st.operators ∧ o.current_status = OperatorStatus.AVAILABLE ∧
       mch ∈ st.machines ∧ mch.current_status = MachineStatus.IDLE)) ∧
    (find_best_allocation st work_order = none ↔
      ∀ p ∈ candidatePairs st, (check_hard_constraints st work_order p.1 p.2).1 = false) ∧
    (∀ (o : Operator) (mch : Machine) (s : ℚ),
      find_best_allocation st work_order = some (o, mch, s) →
      (o, mch) ∈ candidatePairs st ∧
      (check_hard_constraints st work_order o mch).1 = true ∧
      s = calculate_allocation_score work_order o mch ∧
      (∀ p ∈ passingPairs st work_order,
        calculate_allocation_score work_order p.1 p.2 ≤ s) ∧
      ∃ l₁ l₂, passingPairs st work_order = l₁ ++ (o, mch) :: l₂ ∧
        ∀ p ∈ l₁, calculate_allocation_score work_order p.1 p.2 < s) := by
  have hfb : find_best_allocation st work_order =
      fbaLoop st work_order (passingPairs st work_order) (-1) none :=
    fbaLoop_filter st work_order (candidatePairs st) (-1) none
  have hall : ∀ p ∈ passingPairs st work_order,
      (check_hard_constraints st work_order p.1 p.2).1 = true :=
    fun p hp => (List.mem_filter.1 hp).2
  have hscore : ∀ p ∈ passingPairs st work_order, (-1:ℚ) < scoreOf work_order p := by
    intro p hp
    have hc : p ∈ candidatePairs st := List.mem_of_mem_filter hp
    obtain ⟨o, mch⟩ := p
    have hop := (mem_candidatePairs.1 hc).1
    have h0 : 0 ≤ scoreOf work_order (o, mch) := score_nonneg (hlev o hop)
    linarith
  have hsome : ∀ p0 prest, passingPairs st work_order = p0 :: prest →
      ∃ r, find_best_allocation st work_order = some (r.1, r.2, scoreOf work_order r) ∧
        IsFirstMax work_order (passingPairs st work_order) r := by
    intro p0 prest hsplit
    obtain ⟨o0, m0⟩ := p0
    have hchk0 : (check_hard_constraints st work_order o0 m0).1 = true :=
      hall (o0, m0) (hsplit ▸ List.mem_cons_self _ _)
    have hs0 : (-1:ℚ) < calculate_allocation_score work_order o0 m0 :=
      hscore (o0, m0) (hsplit ▸ List.mem_cons_self _ _)
    have hallrest : ∀ p ∈ prest, (check_hard_constraints st work_order p.1 p.2).1 = true :=
      fun p hp => hall p (hsplit ▸ List.mem_cons_of_mem _ hp)
    obtain ⟨r, hr, hfm⟩ := fbaLoop_running st work_order prest (o0, m0) hallrest
    refine ⟨r, ?_, hsplit ▸ hfm⟩
    rw [hfb, hsplit, fbaLoop_cons, if_pos hchk0, if_pos hs0]
    exact hr
  refine ⟨fun o mch => mem_candidatePairs, ?_, ?_⟩
  · constructor
    · intro hnone p hp
      cases hps : passingPairs st work_order with
      | nil =>
        have : p ∉ passingPairs st work_order := by rw [hps]; exact List.not_mem_nil p
        cases hc : (check_hard_constraints st work_order p.1 p.2).1 with
        | false => rfl
        | true => exact absurd (List.mem_filter.2 ⟨hp, hc⟩) this
      | cons p0 prest =>
        obtain ⟨r, hr, _⟩ := hsome p0 prest hps
        rw [hnone] at hr
        cases hr
    · intro hfail
      have hnil : passingPairs st work_order = [] := by
        unfold passingPairs
        rw [List.filter_eq_nil_iff]
        intro p hp
        rw [hfail p hp]
        simp
      rw [hfb, hnil]
      rfl
  · intro o mch s heq
    have hne : passingPairs st work_order ≠ [] := by
      intro hnil
      rw [hfb, hnil, fbaLoop_nil] at heq
      cases heq
    obtain ⟨p0, prest, hps⟩ : ∃ p0 prest, passingPairs st work_order = p0 :: prest := by
      cases hps : passingPairs st work_order with
      | nil => exact absurd hps hne
      | cons a l => exact ⟨a, l, rfl⟩
    obtain ⟨r, hr, hmem, hbound, l₁, l₂, hsegs, hpre⟩ := hsome p0 prest hps
    rw [heq] at hr
    have hinj : (o, mch, s) = (r.1, r.2, scoreOf work_order r) :=
      Option.some_injective _ hr
    have h1 : o = r.1 := congrArg Prod.fst hinj
    have h23 := congrArg Prod.snd hinj
    have h2 : mch = r.2 := congrArg Prod.fst h23
    have h3 : s = scoreOf work_order r := congrArg Prod.snd h23
    subst h1; subst h2; subst h3
    refine ⟨List.mem_of_mem_filter hmem, hall r hmem, rfl, ?_, ?_⟩
    · intro p hp
      exact hbound p hp
    · exact ⟨l₁, l₂, hsegs, fun p hp => hpre p hp⟩

/-- Witness for C5: the candidate-pair characterization at the representative
fixture state. -/
theorem C5_find_best_allocation_witness :
    (opFix, machFix) ∈ candidatePairs stFix ↔
      (opFix ∈ stFix.operators ∧ opFix.current_status = OperatorStatus.AVAILABLE ∧
       machFix ∈ stFix.machines ∧ machFix.current_status = MachineStatus.IDLE) :=
  (C5_find_best_allocation stFix woFix (by decide)).1 opFix machFix

/-! ## Reservation and release loops: closed forms -/

/-- Total quantity that `reqs` demands of material `i` (summing duplicate
entries, though a `dict`-built requirement list has at most one per id). -/
def reqSum (reqs : List MaterialRequirement) (i : String) : ℚ :=
  ((reqs.filter (fun req => req.material_id = i)).map (fun req => req.quantity)).sum

theorem reqSum_nil (i : String) : reqSum [] i = 0 := rfl

theorem reqSum_cons (req : MaterialRequirement) (rest : List MaterialRequirement)
    (i : String) : reqSum (req :: rest) i =
      (if req.material_id = i then req.quantity else 0) + reqSum rest i := by
  unfold reqSum
  rw [List.filter_cons]
  by_cases h : req.material_id = i
  · simp [h]
  · simp [h]

theorem reserveLoop_cons (st : EngineState) (req : MaterialRequirement)
    (rest : List MaterialRequirement) :
    reserveLoop st (req :: rest) =
      match findMaterial st req.material_id with
      | none => .error ()
      | some _ => reserveLoop (updateMaterial st req.material_id (fun m =>
          { m with quantity_reserved := m.quantity_reserved + req.quantity })) rest := by
  show (do
    let _ ← getMaterialE st req.material_id
    reserveLoop (updateMaterial st req.material_id (fun m =>
      { m with quantity_reserved := m.quantity_reserved + req.quantity })) rest) = _
  unfold getMaterialE
  cases findMaterial st req.material_id <;> rfl

theorem releaseLoop_cons (st : EngineState) (req : MaterialRequirement)
    (rest : List MaterialRequirement) :
    releaseLoop st (req :: rest) =
      match findMaterial st req.material_id with
      | none => .error ()
      | some _ => releaseLoop (updateMaterial st req.material_id (fun m =>
          { m with quantity_reserved := m.quantity_reserved - req.quantity,
                   quantity_available := m.quantity_available - req.quantity })) rest := by
  show (do
    let _ ← getMaterialE st req.material_id
    releaseLoop (updateMaterial st req.material_id (fun m =>
      { m with quantity_reserved := m.quantity_reserved - req.quantity,
               quantity_available := m.quantity_available - req.quantity })) rest) = _
  unfold getMaterialE
  cases findMaterial st req.material_id <;> rfl

theorem map_bump_reqSum (l : List Material) (req : MaterialRequirement)
    (rest : List MaterialRequirement) :
    ((l.map (fun m => if m.material_id = req.material_id then
        { m with quantity_reserved := m.quantity_reserved + req.quantity } else m)).map
      (fun m => { m with quantity_reserved :=
        m.quantity_reserved + reqSum rest m.material_id })) =
    l.map (fun m => { m with quantity_reserved :=
      m.quantity_reserved + reqSum (req :: rest) m.material_id }) := by
  rw [List.map_map]
  apply List.map_congr_left
  intro m _
  by_cases hm : m.material_id = req.material_id
  · simp only [Function.comp, if_pos hm]
    show ({ m with quantity_reserved :=
      m.quantity_reserved + req.quantity + reqSum rest m.material_id } : Material) = _
    rw [reqSum_cons, if_pos hm.symm, add_assoc]
  · simp only [Function.comp, if_neg hm]
    show ({ m with quantity_reserved :=
      m.quantity_reserved + reqSum rest m.material_id } : Material) = _
    rw [reqSum_cons, if_neg (fun h => hm h.symm), zero_add]

theorem reserveLoop_ok : ∀ (l : List MaterialRequirement) (st : EngineState),
    (∀ req ∈ l, (findMaterial st req.material_id).isSome) →
    reserveLoop st l = .ok { st with materials := st.materials.map (fun m =>
      { m with quantity_reserved := m.quantity_reserved + reqSum l m.material_id }) }
  | [], st, _ => by
    show Except.ok st = _
    have hmap : st.materials.map (fun m =>
        { m with quantity_reserved := m.quantity_reserved + reqSum [] m.material_id }) =
        st.materials :=
      (List.map_congr_left (fun m _ => by rw [reqSum_nil, add_zero]; rfl)).trans (List.map_id _)
    rw [hmap]
  | req :: rest, st, hall => by
    obtain ⟨mat, hmat⟩ := Option.isSome_iff_exists.1 (hall req (List.mem_cons_self _ _))
    rw [reserveLoop_cons, hmat]
    have hrest : ∀ r ∈ rest,
        (findMaterial (updateMaterial st req.material_id (fun m =>
          { m with quantity_reserved := m.quantity_reserved + req.quantity }))
            r.material_id).isSome := by
      intro r hr
      rw [findMaterial_updateMaterial st req.material_id r.material_id
        (fun m => { m with quantity_reserved := m.quantity_reserved + req.quantity })
        (fun m => rfl)]
      split
      · obtain ⟨x, hx⟩ := Option.isSome_iff_exists.1 (hall r (List.mem_cons_of_mem _ hr))
        rw [hx]
        rfl
      · exact hall r (List.mem_cons_of_mem _ hr)
    rw [reserveLoop_ok rest _ hrest]
    simp only [Except.ok.injEq]
    show ({ st with materials := ((st.materials.map (fun m =>
      if m.material_id = req.material_id then
        { m with quantity_reserved := m.quantity_reserved + req.quantity } else m)).map
      (fun m => { m with quantity_reserved :=
        m.quantity_reserved + reqSum rest m.material_id })) } : EngineState) = _
    rw [map_bump_reqSum]

theorem map_drop_reqSum (l : List Material) (req : MaterialRequirement)
    (rest : List MaterialRequirement) :
    ((l.map (fun m => if m.material_id = req.material_id then
        { m with quantity_reserved := m.quantity_reserved - req.quantity,
                 quantity_available := m.quantity_available - req.quantity } else m)).map
      (fun m => { m with
        quantity_reserved := m.quantity_reserved - reqSum rest m.material_id,
        quantity_available := m.quantity_available - reqSum rest m.material_id })) =
    l.map (fun m => { m with
      quantity_reserved := m.quantity_reserved - reqSum (req :: rest) m.material_id,
      quantity_available := m.quantity_available - reqSum (req :: rest) m.material_id }) := by
  rw [List.map_map]
  apply List.map_congr_left
  intro m _
  by_cases hm : m.material_id = req.material_id
  · simp only [Function.comp, if_pos hm]
    show ({ m with
      quantity_reserved := m.quantity_reserved - req.quantity - reqSum rest m.material_id,
      quantity_available := m.quantity_available - req.quantity - reqSum rest m.material_id } :
        Material) = _
    rw [reqSum_cons, if_pos hm.symm, sub_sub, sub_sub]
  · simp only [Function.comp, if_neg hm]
    show ({ m with
      quantity_reserved := m.quantity_reserved - reqSum rest m.material_id,
      quantity_available := m.quantity_available - reqSum rest m.material_id } : Material) = _
    rw [reqSum_cons, if_neg (fun h => hm h.symm), zero_add]

theorem releaseLoop_ok : ∀ (l : List MaterialRequirement) (st : EngineState),
    (∀ req ∈ l, (findMaterial st req.material_id).isSome) →
    releaseLoop st l = .ok { st with materials := st.materials.map (fun m =>
      { m with quantity_reserved := m.quantity_reserved - reqSum l m.material_id,
               quantity_available := m.quantity_available - reqSum l m.material_id }) }
  | [], st, _ => by
    show Except.ok st = _
    have hmap : st.materials.map (fun m =>
        { m with quantity_reserved := m.quantity_reserved - reqSum [] m.material_id,
                 quantity_available := m.quantity_available - reqSum [] m.material_id }) =
        st.materials :=
      (List.map_congr_left (fun m _ => by rw [reqSum_nil, sub_zero, sub_zero]; rfl)).trans
        (List.map_id _)
    rw [hmap]
  | req :: rest, st, hall => by
    obtain ⟨mat, hmat⟩ := Option.isSome_iff_exists.1 (hall req (List.mem_cons_self _ _))
    rw [releaseLoop_cons, hmat]
    have hrest : ∀ r ∈ rest,
        (findMaterial (updateMaterial st req.material_id (fun m =>
          { m with quantity_reserved := m.quantity_reserved - req.quantity,
                   quantity_available := m.quantity_available - req.quantity }))
            r.material_id).isSome := by
      intro r hr
      rw [findMaterial_updateMaterial st req.material_id r.material_id
        (fun m => { m with quantity_reserved := m.quantity_reserved - req.quantity,
                           quantity_available := m.quantity_available - req.quantity })
        (fun m => rfl)]
      split
      · obtain ⟨x, hx⟩ := Option.isSome_iff_exists.1 (hall r (List.mem_cons_of_mem _ hr))
        rw [hx]
        rfl
      · exact hall r (List.mem_cons_of_mem _ hr)
    rw [releaseLoop_ok rest _ hrest]
    simp only [Except.ok.injEq]
    show ({ st with materials := ((st.materials.map (fun m =>
      if m.material_id = req.material_id then
        { m with quantity_reserved := m.quantity_reserved - req.quantity,
                 quantity_available := m.quantity_available - req.quantity } else m)).map
      (fun m => { m with
        quantity_reserved := m.quantity_reserved - reqSum rest m.material_id,
        quantity_available := m.quantity_available - reqSum rest m.material_id })) } :
          EngineState) = _
    rw [map_drop_reqSum]

/-! ## `allocate_resources`: branch lemmas -/

theorem fbaLoop_some_acc (st : EngineState) (work_order : WorkOrder) :
    ∀ (l : List (Operator × Machine)) (bs : ℚ) (acc : Option (Operator × Machine × ℚ))
      (r : Operator × Machine × ℚ), fbaLoop st work_order l bs acc = some r →
      (∃ p ∈ l, (check_hard_constraints st work_order p.1 p.2).1 = true ∧
        r = (p.1, p.2, scoreOf work_order p)) ∨ acc = some r
  | [], _, _, _, h => Or.inr h
  | (o, mch) :: rest, bs, acc, r, h => by
    rw [fbaLoop_cons] at h
    by_cases hchk : (check_hard_constraints st work_order o mch).1 = true
    · rw [if_pos hchk] at h
      by_cases hs : bs < calculate_allocation_score work_order o mch
      · rw [if_pos hs] at h
        rcases fbaLoop_some_acc st work_order rest _ _ r h with ⟨p, hp, hc, hr⟩ | hacc
        · exact Or.inl ⟨p, List.mem_cons_of_mem _ hp, hc, hr⟩
        · exact Or.inl ⟨(o, mch), List.mem_cons_self _ _, hchk,
            (Option.some_injective _ hacc).symm⟩
      · rw [if_neg hs] at h
        rcases fbaLoop_some_acc st work_order rest _ _ r h with ⟨p, hp, hc, hr⟩ | hacc
        · exact Or.inl ⟨p, List.mem_cons_of_mem _ hp, hc, hr⟩
        · exact Or.inr hacc
    · rw [if_neg hchk] at h
      rcases fbaLoop_some_acc st work_order rest _ _ r h with ⟨p, hp, hc, hr⟩ | hacc
      · exact Or.inl ⟨p, List.mem_cons_of_mem _ hp, hc, hr⟩
      · exact Or.inr hacc

theorem find_best_some_pass {st : EngineState} {work_order : WorkOrder}
    {o : Operator} {mch : Machine} {s : ℚ}
    (h : find_best_allocation st work_order = some (o, mch, s)) :
    (check_hard_constraints st work_order o mch).1 = true ∧
      s = calculate_allocation_score work_order o mch := by
  rcases fbaLoop_some_acc st work_order (candidatePairs st) (-1) none (o, mch, s) h with
    ⟨p, _, hc, hr⟩ | hacc
  · have h1 : o = p.1 := congrArg Prod.fst hr
    have h23 := congrArg Prod.snd hr
    have h2 : mch = p.2 := congrArg Prod.fst h23
    have h3 : s = scoreOf work_order p := congrArg Prod.snd h23
    subst h1; subst h2; subst h3
    exact ⟨hc, rfl⟩
  · cases hacc

theorem find_best_none_of_materials {st : EngineState} {work_order : WorkOrder}
    (h : ¬ materialsOK st work_order) :
    find_best_allocation st work_order = none := by
  have hpp : passingPairs st work_order = [] := by
    unfold passingPairs
    rw [List.filter_eq_nil_iff]
    intro p _ hc
    exact h ((check_pass_iff st work_order p.1 p.2).1 (by simpa using hc)).2.2.1
  unfold find_best_allocation
  rw [fbaLoop_filter st work_order (candidatePairs st) (-1) none]
  show fbaLoop st work_order (passingPairs st work_order) (-1) none = none
  rw [hpp]
  rfl

theorem allocate_resources_notfound {now : Nat} {st : EngineState} {work_order_id : String}
    (hwo : findWorkOrder st work_order_id = none) :
    allocate_resources now st work_order_id = .ok (st, false) := by
  unfold allocate_resources
  simp only [hwo]

theorem allocate_resources_blocked {now : Nat} {st : EngineState} {work_order_id : String}
    {wo : WorkOrder} (hwo : findWorkOrder st work_order_id = some wo)
    (hfb : find_best_allocation st wo = none) :
    allocate_resources now st work_order_id =
      .ok (updateWorkOrder st work_order_id (fun w => { w with status := .BLOCKED }), false) := by
  unfold allocate_resources
  simp only [hwo, hfb]

/-- The fully committed state of a successful allocation. -/
def commitState (now : Nat) (st : EngineState) (work_order_id : String) (wo : WorkOrder)
    (o : Operator) (mch : Machine) : EngineState :=
  setReallocTime
    (updateMachine
      (updateOperator
        (updateWorkOrder
          { st with materials := st.materials.map (fun m =>
              { m with quantity_reserved :=
                m.quantity_reserved + reqSum wo.required_materials m.material_id }) }
          work_order_id (fun w =>
            { w with assigned_operator := some o.operator_id,
                     assigned_machine := some mch.machine_id,
                     status := .IN_PROGRESS, start_time := some now }))
        o.operator_id (fun x =>
          { x with current_status := .ASSIGNED, current_work_order := some work_order_id }))
      mch.machine_id (fun x =>
        { x with current_status := .RUNNING, current_work_order := some work_order_id }))
    work_order_id now

theorem allocate_resources_success {now : Nat} {st : EngineState} {work_order_id : String}
    {wo : WorkOrder} {o : Operator} {mch : Machine} {s : ℚ}
    (hwo : findWorkOrder st work_order_id = some wo)
    (hfb : find_best_allocation st wo = some (o, mch, s)) :
    allocate_resources now st work_order_id =
      .ok (commitState now st work_order_id wo o mch, true) := by
  have hpass := (find_best_some_pass hfb).1
  have hmats : materialsOK st wo :=
    ((check_pass_iff st wo o mch).1 hpass).2.2.1
  have hpres : ∀ req ∈ wo.required_materials, (findMaterial st req.material_id).isSome := by
    intro req hreq
    obtain ⟨mat, hm, _⟩ := hmats req hreq
    rw [hm]
    rfl
  unfold allocate_resources
  simp only [hwo, hfb]
  show (do
    let st' ← reserveLoop st wo.required_materials
    let st' := updateWorkOrder st' work_order_id (fun w =>
      { w with assigned_operator := some o.operator_id,
               assigned_machine := some mch.machine_id,
               status := .IN_PROGRESS, start_time := some now })
    let st' := updateOperator st' o.operator_id (fun x =>
      { x with current_status := .ASSIGNED, current_work_order := some work_order_id })
    let st' := updateMachine st' mch.machine_id (fun x =>
      { x with current_status := .RUNNING, current_work_order := some work_order_id })
    let st' := setReallocTime st' work_order_id now
    Except.ok (st', true)) = _
  rw [reserveLoop_ok wo.required_materials st hpres]
  rfl

/-! ## C3 -/

def matShort : Material :=
  { material_id := "MS", name := "scarce", quantity_available := 10,
    quantity_reserved := 8, location := "L", unit_of_measure := "u",
    reorder_point := 0 }

def woShort : WorkOrder :=
  { work_order_id := "WOS", priority := 5, required_skills := ["w"],
    required_machine_capability := "w", required_materials := [⟨"MS", 5⟩],
    estimated_duration := 10, deadline := 10, status := .PENDING, location := "L" }

def stShort : EngineState :=
  { operators := [opHi], machines := [machNeutral], materials := [matShort],
    work_orders := [woShort] }

theorem stShort_not_materialsOK : ¬ materialsOK stShort woShort := by
  intro h
  obtain ⟨mat, hmat, hle⟩ := h ⟨"MS", 5⟩ (List.mem_singleton.2 rfl)
  have hfind : findMaterial stShort "MS" = some matShort := rfl
  rw [hfind] at hmat
  have hm : matShort = mat := Option.some_injective _ hmat
  rw [← hm] at hle
  norm_num [matShort] at hle

/-- C3 as written is false: on an allocation failure caused by insufficient
material, the work order's status does change (PENDING to BLOCKED). -/
theorem C3_counterexample :
    (∃ st', allocate_resources 0 stShort "WOS" = Except.ok (st', false) ∧
      (findWorkOrder st' "WOS").map (fun w => w.status) = some WorkOrderStatus.BLOCKED) ∧
    (findWorkOrder stShort "WOS").map (fun w => w.status) = some WorkOrderStatus.PENDING := by
  have hwo : findWorkOrder stShort "WOS" = some woShort := rfl
  exact ⟨⟨_, allocate_resources_blocked hwo
    (find_best_none_of_materials stShort_not_materialsOK), rfl⟩, rfl⟩

/-- C3 (amended): when some required material of an existing work order lacks
sufficient unreserved quantity, `allocate_resources` reserves nothing and
changes no operator, machine, other work order, or timestamp — its only
mutation is setting that work order's status to BLOCKED (contrary to the
claim's "no status of the work order changes") — and it returns False; when it
returns True the full commit effect (reservations, references, statuses, start
and allocation timestamps) is applied in one step with no other change. -/
theorem C3_allocate_resources_failure_atomic (now : Nat) (st : EngineState)
    (work_order_id : String) (wo : WorkOrder)
    (hwo : findWorkOrder st work_order_id = some wo) :
    (¬ materialsOK st wo →
      allocate_resources now st work_order_id =
        .ok (updateWorkOrder st work_order_id (fun w => { w with status := .BLOCKED }), false) ∧
      ∃ st', allocate_resources now st work_order_id = .ok (st', false) ∧
        st'.materials = st.materials ∧ st'.operators = st.operators ∧
        st'.machines = st.machines ∧
        st'.last_reallocation_time = st.last_reallocation_time ∧
        st'.work_orders = st.work_orders.map (fun w =>
          if w.work_order_id = work_order_id then { w with status := .BLOCKED } else w)) ∧
    (∀ st', allocate_resources now st work_order_id = .ok (st', true) →
      ∃ o mch s, find_best_allocation st wo = some (o, mch, s) ∧
        (check_hard_constraints st wo o mch).1 = true ∧
        st' = commitState now st work_order_id wo o mch) := by
  constructor
  · intro hmat
    have hblocked := @allocate_resources_blocked now st work_order_id wo hwo
      (find_best_none_of_materials hmat)
    exact ⟨hblocked, _, hblocked, rfl, rfl, rfl, rfl, rfl⟩
  · intro st' h
    cases hfb : find_best_allocation st wo with
    | none =>
      rw [allocate_resources_blocked hwo hfb] at h
      simp at h
    | some r =>
      obtain ⟨o, mch, s⟩ := r
      rw [allocate_resources_success hwo hfb] at h
      simp only [Except.ok.injEq, Prod.mk.injEq] at h
      exact ⟨o, mch, s, rfl, (find_best_some_pass hfb).1, h.1.symm⟩

/-- Witness for C3 (amended) at a state whose only material is short by 3
units: the failure branch applies, blocking the order and mutating nothing
else. -/
theorem C3_allocate_resources_failure_atomic_witness :
    allocate_resources 0 stShort "WOS" =
      .ok (updateWorkOrder stShort "WOS" (fun w => { w with status := .BLOCKED }), false) :=
  ((C3_allocate_resources_failure_atomic 0 stShort "WOS" woShort rfl).1
    stShort_not_materialsOK).1

/-! ## Cross-catalog find lemmas and handler equations -/

@[simp] theorem findMaterial_updateWorkOrder (st : EngineState) (i j : String)
    (f : WorkOrder → WorkOrder) : findMaterial (updateWorkOrder st i f) j = findMaterial st j := rfl

@[simp] theorem findMaterial_updateOperator (st : EngineState) (i j : String)
    (f : Operator → Operator) : findMaterial (updateOperator st i f) j = findMaterial st j := rfl

@[simp] theorem findMaterial_updateMachine (st : EngineState) (i j : String)
    (f : Machine → Machine) : findMaterial (updateMachine st i f) j = findMaterial st j := rfl

@[simp] theorem findMaterial_setReallocTime (st : EngineState) (s : String) (v : Nat)
    (j : String) : findMaterial (setReallocTime st s v) j = findMaterial st j := rfl

@[simp] theorem findOperator_updateWorkOrder (st : EngineState) (i j : String)
    (f : WorkOrder → WorkOrder) : findOperator (updateWorkOrder st i f) j = findOperator st j := rfl

@[simp] theorem findOperator_updateMachine (st : EngineState) (i j : String)
    (f : Machine → Machine) : findOperator (updateMachine st i f) j = findOperator st j := rfl

@[simp] theorem findOperator_updateMaterial (st : EngineState) (i j : String)
    (f : Material → Material) : findOperator (updateMaterial st i f) j = findOperator st j := rfl

@[simp] theorem findOperator_setReallocTime (st : EngineState) (s : String) (v : Nat)
    (j : String) : findOperator (setReallocTime st s v) j = findOperator st j := rfl

@[simp] theorem findMachine_updateWorkOrder (st : EngineState) (i j : String)
    (f : WorkOrder → WorkOrder) : findMachine (updateWorkOrder st i f) j = findMachine st j := rfl

@[simp] theorem findMachine_updateOperator (st : EngineState) (i j : String)
    (f : Operator → Operator) : findMachine (updateOperator st i f) j = findMachine st j := rfl

@[simp] theorem findMachine_updateMaterial (st : EngineState) (i j : String)
    (f : Material → Material) : findMachine (updateMaterial st i f) j = findMachine st j := rfl

@[simp] theorem findMachine_setReallocTime (st : EngineState) (s : String) (v : Nat)
    (j : String) : findMachine (setReallocTime st s v) j = findMachine st j := rfl

@[simp] theorem findWorkOrder_updateOperator (st : EngineState) (i j : String)
    (f : Operator → Operator) : findWorkOrder (updateOperator st i f) j = findWorkOrder st j := rfl

@[simp] theorem findWorkOrder_updateMachine (st : EngineState) (i j : String)
    (f : Machine → Machine) : findWorkOrder (updateMachine st i f) j = findWorkOrder st j := rfl

@[simp] theorem findWorkOrder_updateMaterial (st : EngineState) (i j : String)
    (f : Material → Material) : findWorkOrder (updateMaterial st i f) j = findWorkOrder st j := rfl

@[simp] theorem findWorkOrder_setReallocTime (st : EngineState) (s : String) (v : Nat)
    (j : String) : findWorkOrder (setReallocTime st s v) j = findWorkOrder st j := rfl

theorem completion_notfound (now : Nat) {st : EngineState} {work_order_id : String}
    (h : findWorkOrder st work_order_id = none) :
    handle_work_order_completion now st work_order_id = .ok st := by
  unfold handle_work_order_completion
  simp only [h]

theorem completion_found (now : Nat) {st : EngineState} {work_order_id : String}
    {wo : WorkOrder} (h : findWorkOrder st work_order_id = some wo) :
    handle_work_order_completion now st work_order_id = (do
      let st2 ← releaseLoop (updateWorkOrder st work_order_id (fun w =>
        { w with status := .COMPLETED, completion_time := some now, progress := 100 }))
        wo.required_materials
      let st3 ← match wo.assigned_operator with
        | some opId =>
          if opId.isEmpty then pure st2 else handle_operator_available now st2 opId
        | none => pure st2
      match wo.assigned_machine with
      | some mid =>
        if mid.isEmpty then pure st3
        else do
          let _ ← getMachineE st3 mid
          pure (updateMachine st3 mid (fun m =>
            { m with current_status := .IDLE, current_work_order := none }))
      | none => pure st3) := by
  unfold handle_work_order_completion
  simp only [h]

/-- `releaseLoop` succeeding determines the exact resulting state. -/
theorem releaseLoop_ok_inv : ∀ (l : List MaterialRequirement) (st st' : EngineState),
    releaseLoop st l = .ok st' →
    st' = { st with materials := st.materials.map (fun m =>
      { m with quantity_reserved := m.quantity_reserved - reqSum l m.material_id,
               quantity_available := m.quantity_available - reqSum l m.material_id }) }
  | [], st, st', h => by
    have h' : Except.ok (ε := Unit) st = Except.ok st' := h
    have hst : st = st' := by injection h'
    subst hst
    have hmap : st.materials.map (fun m =>
        { m with quantity_reserved := m.quantity_reserved - reqSum [] m.material_id,
                 quantity_available := m.quantity_available - reqSum [] m.material_id }) =
        st.materials :=
      (List.map_congr_left (fun m _ => by rw [reqSum_nil, sub_zero, sub_zero]; rfl)).trans
        (List.map_id _)
    rw [hmap]
  | req :: rest, st, st', h => by
    rw [releaseLoop_cons] at h
    cases hm : findMaterial st req.material_id with
    | none => rw [hm] at h; cases h
    | some mat =>
      rw [hm] at h
      have := releaseLoop_ok_inv rest _ st' h
      rw [this]
      show ({ st with materials := ((st.materials.map (fun m =>
        if m.material_id = req.material_id then
          { m with quantity_reserved := m.quantity_reserved - req.quantity,
                   quantity_available := m.quantity_available - req.quantity } else m)).map
        (fun m => { m with
          quantity_reserved := m.quantity_reserved - reqSum rest m.material_id,
          quantity_available := m.quantity_available - reqSum rest m.material_id })) } :
            EngineState) = _
      rw [map_drop_reqSum]

/-! ## C10 -/

/-- C10: `handle_work_order_completion` checks only that the work order exists,
never its status: for an order of ANY current status (PENDING and BLOCKED
included) holding no assignments, it sets status COMPLETED, progress 100,
completion timestamp `now`, and decrements each required material's reserved
and available quantities by the summed requirement quantity. -/
theorem C10_completion_ignores_status (now : Nat) (st : EngineState)
    (work_order_id : String) (wo : WorkOrder)
    (hwo : findWorkOrder st work_order_id = some wo)
    (hop : wo.assigned_operator = none) (hmach : wo.assigned_machine = none)
    (hpres : ∀ req ∈ wo.required_materials, (findMaterial st req.material_id).isSome) :
    handle_work_order_completion now st work_order_id = .ok
      { st with
        work_orders := st.work_orders.map (fun w =>
          if w.work_order_id = work_order_id then
            { w with status := .COMPLETED, completion_time := some now, progress := 100 }
          else w),
        materials := st.materials.map (fun m =>
          { m with
            quantity_reserved :=
              m.quantity_reserved - reqSum wo.required_materials m.material_id,
            quantity_available :=
              m.quantity_available - reqSum wo.required_materials m.material_id }) } := by
  rw [completion_found now hwo, hop, hmach]
  rw [releaseLoop_ok wo.required_materials
    (updateWorkOrder st work_order_id (fun w =>
      { w with status := .COMPLETED, completion_time := some now, progress := 100 })) hpres]
  rfl

/-- Witness for C10: completing the PENDING fixture order applies the full
effect even though it was never allocated. -/
theorem C10_completion_ignores_status_witness :
    handle_work_order_completion 7 stShort "WOS" = .ok
      { stShort with
        work_orders := stShort.work_orders.map (fun w =>
          if w.work_order_id = "WOS" then
            { w with status := .COMPLETED, completion_time := some 7, progress := 100 }
          else w),
        materials := stShort.materials.map (fun m =>
          { m with
            quantity_reserved :=
              m.quantity_reserved - reqSum woShort.required_materials m.material_id,
            quantity_available :=
              m.quantity_available - reqSum woShort.required_materials m.material_id }) } :=
  C10_completion_ignores_status 7 stShort "WOS" woShort rfl rfl rfl
    (by intro req hreq; rw [List.mem_singleton.1 hreq]; rfl)

/-! ## C7: material round-trip on completion -/

/-- The id / quantity_available view of the material catalog. -/
def availMap (st : EngineState) : List (String × ℚ) :=
  st.materials.map (fun m => (m.material_id, m.quantity_available))

theorem availMap_reserveLoop : ∀ (l : List MaterialRequirement) (st st' : EngineState),
    reserveLoop st l = .ok st' → availMap st' = availMap st
  | [], st, st', h => by
    have h' : Except.ok (ε := Unit) st = Except.ok st' := h
    have hst : st = st' := by injection h'
    rw [hst]
  | req :: rest, st, st', h => by
    rw [reserveLoop_cons] at h
    cases hm : findMaterial st req.material_id with
    | none => rw [hm] at h; cases h
    | some mat =>
      rw [hm] at h
      rw [availMap_reserveLoop rest _ st' h]
      unfold availMap updateMaterial
      show (st.materials.map _).map _ = _
      rw [List.map_map]
      apply List.map_congr_left
      intro m _
      by_cases hmm : m.material_id = req.material_id
      · simp [Function.comp, hmm]
      · simp [Function.comp, hmm]

theorem availMap_allocate {now : Nat} {st : EngineState} {wid : String}
    {st' : EngineState} {b : Bool} (h : allocate_resources now st wid = .ok (st', b)) :
    availMap st' = availMap st := by
  unfold allocate_resources at h
  cases hwo : findWorkOrder st wid with
  | none =>
    simp only [hwo] at h
    have hst : (st, false) = (st', b) := by injection h
    have hs : st = st' := congrArg Prod.fst hst
    rw [← hs]
  | some wo =>
    simp only [hwo] at h
    cases hfb : find_best_allocation st wo with
    | none =>
      simp only [hfb] at h
      have hst : (updateWorkOrder st wid (fun w => { w with status := .BLOCKED }), false) =
          (st', b) := by injection h
      have hs : updateWorkOrder st wid (fun w => { w with status := .BLOCKED }) = st' :=
        congrArg Prod.fst hst
      rw [← hs]
      rfl
    | some r =>
      obtain ⟨o, mch, s⟩ := r
      simp only [hfb] at h
      cases hrl : reserveLoop st wo.required_materials with
      | error e =>
        rw [hrl] at h
        simp [Bind.bind, Except.bind] at h
      | ok st2 =>
        rw [hrl] at h
        have h2 : Except.ok (ε := Unit)
            (setReallocTime
              (updateMachine
                (updateOperator
                  (updateWorkOrder st2 wid (fun w =>
                    { w with assigned_operator := some o.operator_id,
                             assigned_machine := some mch.machine_id,
                             status := .IN_PROGRESS, start_time := some now }))
                  o.operator_id (fun x =>
                    { x with current_status := .ASSIGNED, current_work_order := some wid }))
                mch.machine_id (fun x =>
                  { x with current_status := .RUNNING, current_work_order := some wid }))
              wid now, true) = .ok (st', b) := h
        have hst : (setReallocTime
              (updateMachine
                (updateOperator
                  (updateWorkOrder st2 wid (fun w =>
                    { w with assigned_operator := some o.operator_id,
                             assigned_machine := some mch.machine_id,
                             status := .IN_PROGRESS, start_time := some now }))
                  o.operator_id (fun x =>
                    { x with current_status := .ASSIGNED, current_work_order := some wid }))
                mch.machine_id (fun x =>
                  { x with current_status := .RUNNING, current_work_order := some wid }))
              wid now, true) = (st', b) := by injection h2
        have hs := congrArg Prod.fst hst
        have hs2 : setReallocTime
              (updateMachine
                (updateOperator
                  (updateWorkOrder st2 wid (fun w =>
                    { w with assigned_operator := some o.operator_id,
                             assigned_machine := some mch.machine_id,
                             status := .IN_PROGRESS, start_time := some now }))
                  o.operator_id (fun x =>
                    { x with current_status := .ASSIGNED, current_work_order := some wid }))
                mch.machine_id (fun x =>
                  { x with current_status := .RUNNING, current_work_order := some wid }))
              wid now = st' := hs
        rw [← hs2]
        show availMap st2 = availMap st
        exact availMap_reserveLoop wo.required_materials st st2 hrl

theorem allocLoop_cons (now : Nat) (st : EngineState) (wid : String) (rest : List String)
    (a b : Nat) :
    allocLoop now st (wid :: rest) a b =
      match allocate_resources now st wid with
      | .error e => .error e
      | .ok (st2, allocated) =>
        if allocated then allocLoop now st2 rest (a + 1) b
        else allocLoop now st2 rest a (b + 1) := by
  show (do
    let (st2, allocated) ← allocate_resources now st wid
    if allocated then allocLoop now st2 rest (a + 1) b
    else allocLoop now st2 rest a (b + 1)) = _
  cases allocate_resources now st wid with
  | error e => rfl
  | ok p =>
    obtain ⟨st2, allocated⟩ := p
    rfl

theorem availMap_allocLoop (now : Nat) : ∀ (ids : List String) (st : EngineState)
    (a b : Nat) (st' : EngineState) (a' b' : Nat),
    allocLoop now st ids a b = .ok (st', a', b') → availMap st' = availMap st
  | [], st, a, b, st', a', b', h => by
    have h' : Except.ok (ε := Unit) (st, a, b) = .ok (st', a', b') := h
    have hst : (st, a, b) = (st', a', b') := by injection h'
    have hs : st = st' := congrArg Prod.fst hst
    rw [hs]
  | wid :: rest, st, a, b, st', a', b', h => by
    rw [allocLoop_cons] at h
    cases har : allocate_resources now st wid with
    | error e => rw [har] at h; cases h
    | ok p =>
      obtain ⟨st2, allocated⟩ := p
      simp only [har] at h
      have h1 : availMap st2 = availMap st := availMap_allocate har
      cases allocated with
      | true =>
        rw [if_pos rfl] at h
        rw [availMap_allocLoop now rest st2 _ _ st' a' b' h, h1]
      | false =>
        rw [if_neg (by simp)] at h
        rw [availMap_allocLoop now rest st2 _ _ st' a' b' h, h1]

theorem availMap_process {now : Nat} {st : EngineState} {st' : EngineState}
    {r : Nat × Nat × Nat} (h : process_allocations now st = .ok (st', r)) :
    availMap st' = availMap st := by
  unfold process_allocations at h
  simp only [] at h
  cases hal : allocLoop now st
      ((prioritize_work_orders st).map (fun wo => wo.work_order_id)) 0 0 with
  | error e =>
    rw [hal] at h
    simp [Bind.bind, Except.bind] at h
  | ok p =>
    obtain ⟨st2, a, b⟩ := p
    rw [hal] at h
    have h' : Except.ok (ε := Unit) (st2, a, b, (prioritize_work_orders st).length) =
        .ok (st', r) := h
    have hst : (st2, a, b, (prioritize_work_orders st).length) = (st', r) := by injection h'
    have hs : st2 = st' := congrArg Prod.fst hst
    rw [← hs]
    exact availMap_allocLoop now _ st 0 0 st2 a b hal

theorem availMap_operator_available {now : Nat} {st : EngineState} {oid : String}
    {st' : EngineState} (h : handle_operator_available now st oid = .ok st') :
    availMap st' = availMap st := by
  unfold handle_operator_available at h
  cases hop : findOperator st oid with
  | none =>
    rw [hop] at h
    have hst : st = st' := by injection h
    rw [hst]
  | some o =>
    simp only [hop] at h
    by_cases hp : 0 < (pendingOrders (updateOperator st oid (fun o =>
        { o with current_status := .AVAILABLE, current_work_order := none }))).length
    · rw [if_pos hp] at h
      cases hpr : process_allocations now (updateOperator st oid (fun o =>
          { o with current_status := .AVAILABLE, current_work_order := none })) with
      | error e =>
        rw [hpr] at h
        simp [Bind.bind, Except.bind] at h
      | ok p =>
        obtain ⟨st2, a, b, c⟩ := p
        rw [hpr] at h
        have h' : Except.ok (ε := Unit) st2 = .ok st' := h
        have hst : st2 = st' := by injection h'
        rw [← hst]
        have h2 := availMap_process hpr
        rw [h2]
        rfl
    · rw [if_neg hp] at h
      have h' : Except.ok (ε := Unit) (updateOperator st oid (fun o =>
          { o with current_status := .AVAILABLE, current_work_order := none })) = .ok st' := h
      have hst : updateOperator st oid (fun o =>
          { o with current_status := .AVAILABLE, current_work_order := none }) = st' := by
        injection h'
      rw [← hst]
      rfl

/-- The final machine-freeing stage of `handle_work_order_completion` never
touches the material catalog. -/
theorem machineStage_materials {st3 st' : EngineState} {am : Option String}
    (h : (match am with
      | some mid =>
        if mid.isEmpty then pure st3
        else do
          let _ ← getMachineE st3 mid
          pure (updateMachine st3 mid (fun m =>
            { m with current_status := .IDLE, current_work_order := none }))
      | none => pure st3) = Except.ok st') :
    st'.materials = st3.materials := by
  cases am with
  | none =>
    have h' : Except.ok (ε := Unit) st3 = .ok st' := h
    have hst : st3 = st' := by injection h'
    rw [← hst]
  | some mid =>
    simp only [] at h
    by_cases hemp : mid.isEmpty
    · rw [if_pos hemp] at h
      have h' : Except.ok (ε := Unit) st3 = .ok st' := h
      have hst : st3 = st' := by injection h'
      rw [← hst]
    · rw [if_neg hemp] at h
      cases hg : getMachineE st3 mid with
      | error e =>
        rw [hg] at h
        simp [Bind.bind, Except.bind] at h
      | ok mach =>
        rw [hg] at h
        have h' : Except.ok (ε := Unit) (updateMachine st3 mid (fun m =>
            { m with current_status := .IDLE, current_work_order := none })) = .ok st' := h
        have hst : updateMachine st3 mid (fun m =>
            { m with current_status := .IDLE, current_work_order := none }) = st' := by
          injection h'
        rw [← hst]
        rfl

/-- C7 (amended): when `handle_work_order_completion` succeeds on an existing
work order, each material's `quantity_available` drops by exactly that
material's summed requirement quantity, through any cascaded reallocation;
`quantity_reserved` drops by exactly the same amount whenever no operator
cascade runs (`assigned_operator` absent) — with a cascade, a bulk pass may
re-reserve the same materials, so the reserved delta is not the sum in
general. -/
theorem C7_completion_material_roundtrip (now : Nat) (st : EngineState)
    (work_order_id : String) (wo : WorkOrder) (st' : EngineState)
    (hwo : findWorkOrder st work_order_id = some wo)
    (h : handle_work_order_completion now st work_order_id = .ok st') :
    availMap st' = st.materials.map (fun m =>
      (m.material_id, m.quantity_available - reqSum wo.required_materials m.material_id)) ∧
    (wo.assigned_operator = none →
      st'.materials = st.materials.map (fun m =>
        { m with
          quantity_reserved :=
            m.quantity_reserved - reqSum wo.required_materials m.material_id,
          quantity_available :=
            m.quantity_available - reqSum wo.required_materials m.material_id })) := by
  rw [completion_found now hwo] at h
  cases hrl : releaseLoop (updateWorkOrder st work_order_id (fun w =>
      { w with status := .COMPLETED, completion_time := some now, progress := 100 }))
      wo.required_materials with
  | error e =>
    rw [hrl] at h
    simp [Bind.bind, Except.bind] at h
  | ok st2 =>
    rw [hrl] at h
    simp only [Bind.bind, Except.bind] at h
    have hst2 := releaseLoop_ok_inv wo.required_materials _ st2 hrl
    have havail2 : availMap st2 = st.materials.map (fun m =>
        (m.material_id, m.quantity_available - reqSum wo.required_materials m.material_id)) := by
      rw [hst2]
      show ((st.materials.map _).map _ : List (String × ℚ)) = _
      rw [List.map_map]
      apply List.map_congr_left
      intro m _
      rfl
    have hmat2 : st2.materials = st.materials.map (fun m =>
        { m with
          quantity_reserved := m.quantity_reserved - reqSum wo.required_materials m.material_id,
          quantity_available :=
            m.quantity_available - reqSum wo.required_materials m.material_id }) := by
      rw [hst2]
      rfl
    constructor
    · cases hop : wo.assigned_operator with
      | none =>
        simp only [hop] at h
        have h2 : (match wo.assigned_machine with
          | some mid =>
            if mid.isEmpty then pure st2
            else do
              let _ ← getMachineE st2 mid
              pure (updateMachine st2 mid (fun m =>
                { m with current_status := .IDLE, current_work_order := none }))
          | none => pure st2) = Except.ok st' := h
        have hm := machineStage_materials h2
        rw [← havail2]
        unfold availMap
        rw [hm]
      | some opId =>
        simp only [hop] at h
        by_cases hemp : opId.isEmpty
        · rw [if_pos hemp] at h
          have h2 : (match wo.assigned_machine with
            | some mid =>
              if mid.isEmpty then pure st2
              else do
                let _ ← getMachineE st2 mid
                pure (updateMachine st2 mid (fun m =>
                  { m with current_status := .IDLE, current_work_order := none }))
            | none => pure st2) = Except.ok st' := h
          have hm := machineStage_materials h2
          rw [← havail2]
          unfold availMap
          rw [hm]
        · rw [if_neg hemp] at h
          cases hoa : handle_operator_available now st2 opId with
          | error e =>
            rw [hoa] at h
            simp [Bind.bind, Except.bind] at h
          | ok st3 =>
            rw [hoa] at h
            have h2 : (match wo.assigned_machine with
              | some mid =>
                if mid.isEmpty then pure st3
                else do
                  let _ ← getMachineE st3 mid
                  pure (updateMachine st3 mid (fun m =>
                    { m with current_status := .IDLE, current_work_order := none }))
              | none => pure st3) = Except.ok st' := h
            have hm := machineStage_materials h2
            have hao := availMap_operator_available hoa
            rw [← havail2, ← hao]
            unfold availMap
            rw [hm]
    · intro hop
      simp only [hop] at h
      have h2 : (match wo.assigned_machine with
        | some mid =>
          if mid.isEmpty then pure st2
          else do
            let _ ← getMachineE st2 mid
            pure (updateMachine st2 mid (fun m =>
              { m with current_status := .IDLE, current_work_order := none }))
        | none => pure st2) = Except.ok st' := h
      have hm := machineStage_materials h2
      rw [hm, hmat2]

/-! ### C7 counterexample fixtures: a completion that cascades into a bulk
pass which re-reserves material -/

def opC7 : Operator :=
  { operator_id := "OP1", name := "Cara", skills := ["w"],
    skill_levels := [("w", 3)], current_status := .ASSIGNED,
    current_work_order := some "WO1", location := "L", hourly_cost := 0 }

def machC7 : Machine :=
  { machine_id := "M2", name := "Mill", capabilities := ["w"],
    current_status := .IDLE, location := "L", cycle_time := 0,
    operating_cost_per_hour := 0 }

def matC7 : Material :=
  { material_id := "M", name := "stock", quantity_available := 100,
    quantity_reserved := 0, location := "L", unit_of_measure := "u",
    reorder_point := 0 }

def woC7a : WorkOrder :=
  { work_order_id := "WO1", priority := 5, required_skills := [],
    required_machine_capability := "w", required_materials := [],
    estimated_duration := 10, deadline := 10, status := .IN_PROGRESS,
    assigned_operator := some "OP1", assigned_machine := none, location := "L" }

def woC7b : WorkOrder :=
  { work_order_id := "WO2", priority := 4, required_skills := ["w"],
    required_machine_capability := "w", required_materials := [⟨"M", 3⟩],
    estimated_duration := 10, deadline := 10, status := .PENDING, location := "L" }

def stC7 : EngineState :=
  { operators := [opC7], machines := [machC7], materials := [matC7],
    work_orders := [woC7a, woC7b] }

def stC7run1 : EngineState := updateWorkOrder stC7 "WO1" (fun w =>
  { w with status := .COMPLETED, completion_time := some 0, progress := 100 })

def opC7A : Operator := { opC7 with current_status := .AVAILABLE, current_work_order := none }

def stC7run2 : EngineState := updateOperator stC7run1 "OP1" (fun o =>
  { o with current_status := .AVAILABLE, current_work_order := none })

def stC7commit : EngineState := commitState 0 stC7run2 "WO2" woC7b opC7A machC7

theorem stC7_materialsOK : materialsOK stC7run2 woC7b := by
  intro req hreq
  rw [List.mem_singleton.1 hreq]
  exact ⟨matC7, rfl, by norm_num [matC7]⟩

theorem stC7_check : check_hard_constraints stC7run2 woC7b opC7A machC7 =
    (true, .allSatisfied) :=
  check_of_all_pass ⟨by decide, by decide, stC7_materialsOK, by decide, by decide⟩

theorem stC7_score_pos : (-1 : ℚ) < calculate_allocation_score woC7b opC7A machC7 := by
  have h : 0 ≤ calculate_allocation_score woC7b opC7A machC7 := score_nonneg (by decide)
  linarith

theorem stC7_find_best : find_best_allocation stC7run2 woC7b =
    some (opC7A, machC7, calculate_allocation_score woC7b opC7A machC7) := by
  unfold find_best_allocation
  rw [show candidatePairs stC7run2 = [(opC7A, machC7)] from rfl]
  rw [fbaLoop_cons, if_pos (by rw [stC7_check]), if_pos stC7_score_pos]
  rfl

theorem stC7_alloc : allocate_resources 0 stC7run2 "WO2" = .ok (stC7commit, true) :=
  @allocate_resources_success 0 stC7run2 "WO2" woC7b opC7A machC7
    (calculate_allocation_score woC7b opC7A machC7) rfl stC7_find_best

theorem stC7_allocLoop : allocLoop 0 stC7run2 ["WO2"] 0 0 = .ok (stC7commit, 1, 0) := by
  rw [allocLoop_cons, stC7_alloc]
  rfl

theorem stC7_process : process_allocations 0 stC7run2 = .ok (stC7commit, 1, 0, 1) := by
  unfold process_allocations
  show (do
    let (st', a, b) ← allocLoop 0 stC7run2
      ((prioritize_work_orders stC7run2).map (fun wo : WorkOrder => wo.work_order_id)) 0 0
    Except.ok (st', a, b, (prioritize_work_orders stC7run2).length)) = _
  rw [show (prioritize_work_orders stC7run2).map (fun wo : WorkOrder => wo.work_order_id) = ["WO2"]
      from rfl, stC7_allocLoop]
  rfl

theorem stC7_opav : handle_operator_available 0 stC7run1 "OP1" = .ok stC7commit := by
  unfold handle_operator_available
  rw [show findOperator stC7run1 "OP1" = some opC7 from rfl]
  show (if 0 < (pendingOrders stC7run2).length then (do
      let (st', _, _, _) ← process_allocations 0 stC7run2
      Except.ok st')
    else Except.ok stC7run2) = _
  rw [if_pos (by decide), stC7_process]
  rfl

theorem stC7_run : handle_work_order_completion 0 stC7 "WO1" = .ok stC7commit := by
  rw [completion_found 0 (show findWorkOrder stC7 "WO1" = some woC7a from rfl)]
  show (do
    let st3 ← handle_operator_available 0 stC7run1 "OP1"
    (pure st3 : Except Unit EngineState)) = _
  rw [stC7_opav]
  rfl

/-- C7 as written is false: completing an order with no material requirements
(so the required decrement is 0) cascades through `operator_available` into a
bulk pass that allocates a pending order and re-reserves 3 units, so the
material's `quantity_reserved` rises from 0 to 3 instead of falling by the
completed order's requirement sum. -/
theorem C7_counterexample :
    ∃ st', handle_work_order_completion 0 stC7 "WO1" = .ok st' ∧
      reqSum woC7a.required_materials "M" = 0 ∧
      (findMaterial stC7 "M").map (fun m => m.quantity_reserved) = some 0 ∧
      (findMaterial st' "M").map (fun m => m.quantity_reserved) = some 3 := by
  refine ⟨stC7commit, stC7_run, rfl, rfl, ?_⟩
  show some (matC7.quantity_reserved + reqSum woC7b.required_materials "M") = some 3
  norm_num [matC7, reqSum, woC7b]

def woW : WorkOrder :=
  { work_order_id := "W", priority := 1, required_skills := [],
    required_machine_capability := "", required_materials := [],
    estimated_duration := 5, deadline := 10, status := .PENDING, location := "L" }

def stW : EngineState :=
  { operators := [], machines := [], materials := [matC7], work_orders := [woW] }

def stW2 : EngineState := updateWorkOrder stW "W" (fun w =>
  { w with status := .COMPLETED, completion_time := some 0, progress := 100 })

theorem C7_completion_material_roundtrip_witness :
    availMap stW2 = stW.materials.map (fun m =>
      (m.material_id, m.quantity_available - reqSum woW.required_materials m.material_id)) ∧
    (woW.assigned_operator = none →
      stW2.materials = stW.materials.map (fun m =>
        { m with
          quantity_reserved :=
            m.quantity_reserved - reqSum woW.required_materials m.material_id,
          quantity_available :=
            m.quantity_available - reqSum woW.required_materials m.material_id })) :=
  C7_completion_material_roundtrip 0 stW "W" woW stW2 rfl rfl

/-! ## C6: absent identifiers -/

def woM : WorkOrder :=
  { work_order_id := "WM", priority := 1, required_skills := [],
    required_machine_capability := "", required_materials := [⟨"GHOST", 1⟩],
    estimated_duration := 5, deadline := 10, status := .IN_PROGRESS, location := "L" }

def stM : EngineState :=
  { operators := [], machines := [], materials := [], work_orders := [woM] }

def stE : EngineState :=
  { operators := [], machines := [], materials := [], work_orders := [] }

/-- C6 as written is false for transitively referenced identifiers: completing
a work order whose requirement list names a material id absent from the
catalog hits the unguarded `self.engine.materials[mat_req.material_id]` and
raises `KeyError` (modeled `.error`), after having already mutated the order's
status; it is not a logged no-op. -/
theorem C6_counterexample :
    handle_work_order_completion 0 stM "WM" = .error () := rfl

/-- C6 (amended): the identifier carried directly in the event payload is
guarded in every handler via `.get`: when it is absent from the catalog the
handler returns with the state unchanged.  Identifiers reached transitively
(requirement material ids on completion, the work-order and operator ids held
by a broken-down machine, assignment ids on shortage) are accessed unguarded
and raise `KeyError` when absent. -/
theorem C6_missing_toplevel_id_noop (now : Nat) (st : EngineState) (i : String) (q : ℚ) :
    (findMachine st i = none →
      handle_machine_maintenance now st i = st ∧
      handle_machine_breakdown now st i = .ok st) ∧
    (findOperator st i = none → handle_operator_available now st i = .ok st) ∧
    (findWorkOrder st i = none → handle_work_order_completion now st i = .ok st) ∧
    (findMaterial st i = none →
      handle_material_shortage st i = .ok st ∧
      handle_material_delivered now st i q = .ok st) := by
  refine ⟨fun h => ⟨?_, ?_⟩, fun h => ?_, fun h => ?_, fun h => ⟨?_, ?_⟩⟩
  · simp only [handle_machine_maintenance, h]
  · simp only [handle_machine_breakdown, h]
  · simp only [handle_operator_available, h]
  · simp only [handle_work_order_completion, h]
  · simp only [handle_material_shortage, h]
  · simp only [handle_material_delivered, h]

/-- Witness for C6 (amended): on an empty catalog every handler is a no-op for
any identifier. -/
theorem C6_missing_toplevel_id_noop_witness :
    handle_machine_maintenance 0 stE "X" = stE ∧
    handle_machine_breakdown 0 stE "X" = .ok stE ∧
    handle_operator_available 0 stE "X" = .ok stE ∧
    handle_work_order_completion 0 stE "X" = .ok stE ∧
    handle_material_shortage stE "X" = .ok stE ∧
    handle_material_delivered 0 stE "X" 1 = .ok stE := by
  obtain ⟨h1, h2, h3, h4⟩ := C6_missing_toplevel_id_noop 0 stE "X" 1
  obtain ⟨a, b⟩ := h1 rfl
  obtain ⟨c, d⟩ := h4 rfl
  exact ⟨a, b, h2 rfl, h3 rfl, c, d⟩

/-! ## C1: the material-quantity invariant -/

/-- The spec's material invariant: `0 ≤ quantity_reserved ≤ quantity_available`
for every material in the catalog. -/
def InvQ (st : EngineState) : Prop :=
  ∀ m ∈ st.materials, 0 ≤ m.quantity_reserved ∧
    m.quantity_reserved ≤ m.quantity_available

/-- A well-formed requirement list: one entry per material id (as a
`dict`-built list has) and nonnegative quantities. -/
def WFreq (reqs : List MaterialRequirement) : Prop :=
  (reqs.map (fun req => req.material_id)).Nodup ∧ ∀ req ∈ reqs, 0 ≤ req.quantity

/-- The material-id column of the catalog. -/
def matIds (st : EngineState) : List String :=
  st.materials.map (fun m => m.material_id)

/-- The requirement lists of all work orders, in catalog order. -/
def reqLists (st : EngineState) : List (List MaterialRequirement) :=
  st.work_orders.map (fun wo => wo.required_materials)

/-- Catalog well-formedness: distinct material ids (the materials live in a
`dict` keyed by id) and well-formed requirement lists. -/
def WF (st : EngineState) : Prop :=
  (matIds st).Nodup ∧ ∀ reqs ∈ reqLists st, WFreq reqs

/-- The conjunction carried through every step. -/
def Good (st : EngineState) : Prop := WF st ∧ InvQ st

/-- The completion side condition: existing reservations cover the quantities
about to be released. -/
def ReservedCovers (st : EngineState) (wo : WorkOrder) : Prop :=
  ∀ m ∈ st.materials, reqSum wo.required_materials m.material_id ≤ m.quantity_reserved

theorem reqSum_nonneg {reqs : List MaterialRequirement} {i : String}
    (h : ∀ req ∈ reqs, 0 ≤ req.quantity) : 0 ≤ reqSum reqs i := by
  unfold reqSum
  apply List.sum_nonneg
  intro x hx
  obtain ⟨req, hreq, rfl⟩ := List.mem_map.1 hx
  exact h req (List.mem_of_mem_filter hreq)

theorem reqSum_eq_zero {reqs : List MaterialRequirement} {i : String}
    (h : ∀ req ∈ reqs, ¬ req.material_id = i) : reqSum reqs i = 0 := by
  unfold reqSum
  rw [List.filter_eq_nil_iff.2 (fun req hreq => by simpa using h req hreq)]
  rfl

theorem reqSum_of_mem_nodup : ∀ (reqs : List MaterialRequirement)
    (req : MaterialRequirement) (i : String),
    (reqs.map (fun r => r.material_id)).Nodup → req ∈ reqs → req.material_id = i →
    reqSum reqs i = req.quantity
  | [], req, _, _, hmem, _ => absurd hmem (List.not_mem_nil req)
  | r :: rest, req, i, hnd, hmem, hi => by
    rw [List.map_cons, List.nodup_cons] at hnd
    rcases List.mem_cons.1 hmem with rfl | hmem'
    · have hrest : rest.filter (fun x => x.material_id = i) = [] :=
        List.filter_eq_nil_iff.2 (fun x hx => by
          simp only [decide_eq_true_eq]
          intro hxi
          exact hnd.1 (hi ▸ hxi ▸ List.mem_map_of_mem _ hx))
      unfold reqSum
      simp [List.filter_cons, hi, hrest]
    · have hri : ¬ r.material_id = i := by
        intro hr
        exact hnd.1 (hr.trans hi.symm ▸ List.mem_map_of_mem _ hmem')
      unfold reqSum
      simp [List.filter_cons, hri]
      exact reqSum_of_mem_nodup rest req i hnd.2 hmem' hi

/-- Mapping a projection unchanged by the update function across a keyed
update leaves the projected column unchanged. -/
theorem map_proj_map_ite {α β : Type} (c : α → Prop) [DecidablePred c] (g : α → β)
    (f : α → α) (hf : ∀ a, g (f a) = g a) (l : List α) :
    (l.map (fun a => if c a then f a else a)).map g = l.map g := by
  induction l with
  | nil => rfl
  | cons a l ih => by_cases ha : c a <;> simp [ha, hf, ih]

theorem good_transfer {st st' : EngineState} (hm : st'.materials = st.materials)
    (hr : reqLists st' = reqLists st) (hg : Good st) : Good st' := by
  obtain ⟨⟨hnd, hq⟩, hi⟩ := hg
  refine ⟨⟨?_, ?_⟩, ?_⟩
  · show (matIds st').Nodup
    unfold matIds
    rw [hm]
    exact hnd
  · rw [hr]
    exact hq
  · intro m hmem
    rw [hm] at hmem
    exact hi m hmem

theorem good_updateWorkOrder {st : EngineState} {i : String} {f : WorkOrder → WorkOrder}
    (hf : ∀ w, (f w).required_materials = w.required_materials) (hg : Good st) :
    Good (updateWorkOrder st i f) := by
  refine good_transfer ?_ ?_ hg
  · rfl
  · exact map_proj_map_ite (fun w => w.work_order_id = i) (fun w => w.required_materials)
      f hf st.work_orders

/-- The material bump a successful allocation commits. -/
def bumpFn (wo : WorkOrder) (m : Material) : Material :=
  { m with quantity_reserved :=
      m.quantity_reserved + reqSum wo.required_materials m.material_id }

/-- The work-order assignment a successful allocation commits. -/
def assignFn (now : Nat) (o : Operator) (mch : Machine) (w : WorkOrder) : WorkOrder :=
  { w with assigned_operator := some o.operator_id,
           assigned_machine := some mch.machine_id,
           status := .IN_PROGRESS, start_time := some now }

theorem good_commitState {now : Nat} {st : EngineState} {wid : String} {wo : WorkOrder}
    {o : Operator} {mch : Machine} (hgs : Good st) (hwo : wo ∈ st.work_orders)
    (hmok : materialsOK st wo) : Good (commitState now st wid wo o mch) := by
  obtain ⟨⟨hnd, hreq⟩, hq⟩ := hgs
  have hwf : WFreq wo.required_materials :=
    hreq _ (List.mem_map_of_mem _ hwo)
  refine ⟨⟨?_, ?_⟩, ?_⟩
  · have hids : matIds (commitState now st wid wo o mch) = matIds st := by
      unfold matIds
      rw [show (commitState now st wid wo o mch).materials =
        st.materials.map (bumpFn wo) from rfl]
      rw [List.map_map]
      exact List.map_congr_left (fun m _ => rfl)
    rw [hids]
    exact hnd
  · have hrl : reqLists (commitState now st wid wo o mch) = reqLists st := by
      unfold reqLists
      rw [show (commitState now st wid wo o mch).work_orders = st.work_orders.map
        (fun w => if w.work_order_id = wid then assignFn now o mch w else w) from rfl]
      refine map_proj_map_ite (fun w => w.work_order_id = wid)
        (fun w => w.required_materials) (assignFn now o mch) (fun w => ?_) st.work_orders
      rfl
    rw [hrl]
    exact hreq
  · intro m' hm'
    rw [show (commitState now st wid wo o mch).materials =
      st.materials.map (bumpFn wo) from rfl] at hm'
    obtain ⟨m, hm, rfl⟩ := List.mem_map.1 hm'
    obtain ⟨h0, h1⟩ := hq m hm
    have hS : 0 ≤ reqSum wo.required_materials m.material_id := reqSum_nonneg hwf.2
    constructor
    · show 0 ≤ m.quantity_reserved + reqSum wo.required_materials m.material_id
      linarith
    · show m.quantity_reserved + reqSum wo.required_materials m.material_id ≤
        m.quantity_available
      by_cases hex : ∃ req ∈ wo.required_materials, req.material_id = m.material_id
      · obtain ⟨req, hreqm, hreqi⟩ := hex
        have hSs : reqSum wo.required_materials m.material_id = req.quantity :=
          reqSum_of_mem_nodup _ _ _ hwf.1 hreqm hreqi
        obtain ⟨mat, hfind, hle⟩ := hmok req hreqm
        have hfm : findMaterial st m.material_id = some m :=
          find?_key_of_mem hm rfl hnd
        rw [hreqi, hfm] at hfind
        have hmm : mat = m := (Option.some_injective _ hfind).symm
        rw [hmm] at hle
        rw [hSs]
        linarith
      · push_neg at hex
        rw [reqSum_eq_zero (fun req hr => hex req hr)]
        linarith

theorem good_allocate {now : Nat} {st : EngineState} {wid : String} {st' : EngineState}
    {b : Bool} (h : allocate_resources now st wid = .ok (st', b)) (hg : Good st) :
    Good st' := by
  cases hwo : findWorkOrder st wid with
  | none =>
    rw [allocate_resources_notfound hwo] at h
    have hst : (st, false) = (st', b) := by injection h
    have hs : st = st' := congrArg Prod.fst hst
    rw [← hs]
    exact hg
  | some wo =>
    cases hfb : find_best_allocation st wo with
    | none =>
      rw [allocate_resources_blocked hwo hfb] at h
      have hst : (updateWorkOrder st wid (fun w => { w with status := .BLOCKED }), false) =
          (st', b) := by injection h
      have hs : updateWorkOrder st wid (fun w => { w with status := .BLOCKED }) = st' :=
        congrArg Prod.fst hst
      rw [← hs]
      exact good_updateWorkOrder (fun w => rfl) hg
    | some r =>
      obtain ⟨o, mch, s⟩ := r
      rw [allocate_resources_success hwo hfb] at h
      have hst : (commitState now st wid wo o mch, true) = (st', b) := by injection h
      have hs : commitState now st wid wo o mch = st' := congrArg Prod.fst hst
      rw [← hs]
      have hpass := (find_best_some_pass hfb).1
      have hmok := ((check_pass_iff st wo o mch).1 hpass).2.2.1
      exact good_commitState hg (findWorkOrder_mem hwo) hmok

theorem good_allocLoop {now : Nat} : ∀ (ids : List String) (st : EngineState) (a b : Nat)
    (st' : EngineState) (a' b' : Nat),
    allocLoop now st ids a b = .ok (st', a', b') → Good st → Good st'
  | [], st, a, b, st', a', b', h, hg => by
    have h' : Except.ok (ε := Unit) (st, a, b) = .ok (st', a', b') := h
    have hst : (st, a, b) = (st', a', b') := by injection h'
    have hs : st = st' := congrArg Prod.fst hst
    rw [← hs]
    exact hg
  | wid :: rest, st, a, b, st', a', b', h, hg => by
    rw [allocLoop_cons] at h
    cases har : allocate_resources now st wid with
    | error e => rw [har] at h; cases h
    | ok p =>
      obtain ⟨st2, allocated⟩ := p
      rw [har] at h
      have hg2 := good_allocate har hg
      cases allocated with
      | true => exact good_allocLoop rest st2 (a + 1) b st' a' b' h hg2
      | false => exact good_allocLoop rest st2 a (b + 1) st' a' b' h hg2

theorem good_process {now : Nat} {st st' : EngineState} {r : Nat × Nat × Nat}
    (h : process_allocations now st = .ok (st', r)) (hg : Good st) : Good st' := by
  unfold process_allocations at h
  simp only [] at h
  cases hal : allocLoop now st
      ((prioritize_work_orders st).map (fun wo => wo.work_order_id)) 0 0 with
  | error e =>
    rw [hal] at h
    simp [Bind.bind, Except.bind] at h
  | ok p =>
    obtain ⟨st2, a, b⟩ := p
    rw [hal] at h
    have h' : Except.ok (ε := Unit) (st2, a, b, (prioritize_work_orders st).length) =
        .ok (st', r) := h
    have hst : (st2, a, b, (prioritize_work_orders st).length) = (st', r) := by injection h'
    have hs : st2 = st' := congrArg Prod.fst hst
    rw [← hs]
    exact good_allocLoop _ st 0 0 st2 a b hal hg

theorem good_operator_available {now : Nat} {st : EngineState} {oid : String}
    {st' : EngineState} (h : handle_operator_available now st oid = .ok st')
    (hg : Good st) : Good st' := by
  unfold handle_operator_available at h
  cases hop : findOperator st oid with
  | none =>
    rw [hop] at h
    have hst : st = st' := by injection h
    rw [← hst]
    exact hg
  | some o =>
    simp only [hop] at h
    have hg1 : Good (updateOperator st oid (fun o =>
        { o with current_status := .AVAILABLE, current_work_order := none })) := by
      refine good_transfer ?_ ?_ hg <;> rfl
    by_cases hp : 0 < (pendingOrders (updateOperator st oid (fun o =>
        { o with current_status := .AVAILABLE, current_work_order := none }))).length
    · rw [if_pos hp] at h
      cases hpr : process_allocations now (updateOperator st oid (fun o =>
          { o with current_status := .AVAILABLE, current_work_order := none })) with
      | error e =>
        rw [hpr] at h
        simp [Bind.bind, Except.bind] at h
      | ok p =>
        obtain ⟨st2, a, b, c⟩ := p
        rw [hpr] at h
        have h' : Except.ok (ε := Unit) st2 = .ok st' := h
        have hst : st2 = st' := by injection h'
        rw [← hst]
        exact good_process hpr hg1
    · rw [if_neg hp] at h
      have h' : Except.ok (ε := Unit) (updateOperator st oid (fun o =>
          { o with current_status := .AVAILABLE, current_work_order := none })) = .ok st' := h
      have hst : updateOperator st oid (fun o =>
          { o with current_status := .AVAILABLE, current_work_order := none }) = st' := by
        injection h'
      rw [← hst]
      exact hg1

theorem good_maintenance {now : Nat} {st : EngineState} {mid : String} (hg : Good st) :
    Good (handle_machine_maintenance now st mid) := by
  unfold handle_machine_maintenance
  cases hfm : findMachine st mid with
  | none => exact hg
  | some m =>
    simp only []
    refine good_transfer ?_ ?_ hg <;> rfl

theorem bind_ok {α β : Type} {x : Except Unit α} {f : α → Except Unit β} {b : β}
    (h : Bind.bind x f = .ok b) : ∃ a, x = .ok a ∧ f a = .ok b := by
  cases x with
  | error e => simp [Bind.bind, Except.bind] at h
  | ok a =>
    refine ⟨a, rfl, ?_⟩
    simpa [Bind.bind, Except.bind] using h

theorem good_mapMaterials {st : EngineState} {f : Material → Material}
    (hid : ∀ m, (f m).material_id = m.material_id)
    (hinv : ∀ m ∈ st.materials, 0 ≤ (f m).quantity_reserved ∧
      (f m).quantity_reserved ≤ (f m).quantity_available)
    (hg : Good st) : Good { st with materials := st.materials.map f } := by
  obtain ⟨⟨hnd, hreq⟩, _⟩ := hg
  refine ⟨⟨?_, ?_⟩, ?_⟩
  · unfold matIds
    show ((st.materials.map f).map (fun m => m.material_id)).Nodup
    rw [List.map_map]
    have he : st.materials.map ((fun m => m.material_id) ∘ f) =
        st.materials.map (fun m => m.material_id) :=
      List.map_congr_left (fun m _ => hid m)
    rw [he]
    exact hnd
  · exact hreq
  · intro m' hm'
    obtain ⟨m, hm, rfl⟩ := List.mem_map.1 hm'
    exact hinv m hm

theorem good_updateMaterial {st : EngineState} {i : String} {f : Material → Material}
    (hid : ∀ m, (f m).material_id = m.material_id)
    (hinv : ∀ m ∈ st.materials, 0 ≤ (f m).quantity_reserved ∧
      (f m).quantity_reserved ≤ (f m).quantity_available)
    (hg : Good st) : Good (updateMaterial st i f) := by
  obtain ⟨⟨hnd, hreq⟩, hqq⟩ := hg
  refine ⟨⟨?_, ?_⟩, ?_⟩
  · unfold matIds
    show ((st.materials.map (fun m => if m.material_id = i then f m else m)).map
      (fun m => m.material_id)).Nodup
    rw [map_proj_map_ite (fun m => m.material_id = i) (fun m => m.material_id)
      f hid st.materials]
    exact hnd
  · exact hreq
  · intro m' hm'
    obtain ⟨m, hm, rfl⟩ := List.mem_map.1 hm'
    by_cases hmi : m.material_id = i
    · rw [if_pos hmi]
      exact hinv m hm
    · rw [if_neg hmi]
      exact hqq m hm

/-- The operator-freeing stage of `handle_work_order_completion` preserves the
well-formedness and quantity invariants. -/
theorem good_opStage {now : Nat} {st2 st3 : EngineState} {opo : Option String}
    (h : (match opo with
      | some opId =>
        if opId.isEmpty then pure st2 else handle_operator_available now st2 opId
      | none => pure st2) = Except.ok st3) (hg : Good st2) : Good st3 := by
  cases opo with
  | none =>
    have h' : Except.ok (ε := Unit) st2 = .ok st3 := h
    have hst : st2 = st3 := by injection h'
    rw [← hst]
    exact hg
  | some opId =>
    simp only [] at h
    by_cases hemp : opId.isEmpty
    · rw [if_pos hemp] at h
      have h' : Except.ok (ε := Unit) st2 = .ok st3 := h
      have hst : st2 = st3 := by injection h'
      rw [← hst]
      exact hg
    · rw [if_neg hemp] at h
      exact good_operator_available h hg

/-- The operator-freeing stage shared by breakdown and shortage handling. -/
theorem good_freeOpStage {st st2 : EngineState} {opo : Option String}
    (h : (match opo with
      | some opid =>
        if opid.isEmpty then pure st
        else do
          let _ ← getOperatorE st opid
          pure (updateOperator st opid (fun o =>
            { o with current_status := .AVAILABLE, current_work_order := none }))
      | none => pure st) = Except.ok st2) (hg : Good st) : Good st2 := by
  cases opo with
  | none =>
    have h' : Except.ok (ε := Unit) st = .ok st2 := h
    have hst : st = st2 := by injection h'
    rw [← hst]
    exact hg
  | some opid =>
    simp only [] at h
    by_cases hemp : opid.isEmpty
    · rw [if_pos hemp] at h
      have h' : Except.ok (ε := Unit) st = .ok st2 := h
      have hst : st = st2 := by injection h'
      rw [← hst]
      exact hg
    · rw [if_neg hemp] at h
      cases hge : getOperatorE st opid with
      | error e =>
        rw [hge] at h
        simp [Bind.bind, Except.bind] at h
      | ok o =>
        rw [hge] at h
        have h' : Except.ok (ε := Unit) (updateOperator st opid (fun o =>
            { o with current_status := .AVAILABLE, current_work_order := none })) =
            .ok st2 := h
        have hst : updateOperator st opid (fun o =>
            { o with current_status := .AVAILABLE, current_work_order := none }) = st2 := by
          injection h'
        rw [← hst]
        refine good_transfer ?_ ?_ hg <;> rfl

/-- The machine-freeing stage shared by completion and shortage handling. -/
theorem good_machineStage {st3 st' : EngineState} {am : Option String}
    (h : (match am with
      | some mid =>
        if mid.isEmpty then pure st3
        else do
          let _ ← getMachineE st3 mid
          pure (updateMachine st3 mid (fun m =>
            { m with current_status := .IDLE, current_work_order := none }))
      | none => pure st3) = Except.ok st') (hg : Good st3) : Good st' := by
  cases am with
  | none =>
    have h' : Except.ok (ε := Unit) st3 = .ok st' := h
    have hst : st3 = st' := by injection h'
    rw [← hst]
    exact hg
  | some mid =>
    simp only [] at h
    by_cases hemp : mid.isEmpty
    · rw [if_pos hemp] at h
      have h' : Except.ok (ε := Unit) st3 = .ok st' := h
      have hst : st3 = st' := by injection h'
      rw [← hst]
      exact hg
    · rw [if_neg hemp] at h
      cases hge : getMachineE st3 mid with
      | error e =>
        rw [hge] at h
        simp [Bind.bind, Except.bind] at h
      | ok mach =>
        rw [hge] at h
        have h' : Except.ok (ε := Unit) (updateMachine st3 mid (fun m =>
            { m with current_status := .IDLE, current_work_order := none })) = .ok st' := h
        have hst : updateMachine st3 mid (fun m =>
            { m with current_status := .IDLE, current_work_order := none }) = st' := by
          injection h'
        rw [← hst]
        refine good_transfer ?_ ?_ hg <;> rfl

theorem good_freeOpE {st st2 : EngineState} {opo : Option String}
    (h : freeOpE st opo = .ok st2) (hg : Good st) : Good st2 := by
  cases opo with
  | none =>
    have h' : Except.ok (ε := Unit) st = .ok st2 := h
    have hst : st = st2 := by injection h'
    rw [← hst]
    exact hg
  | some opid =>
    have h1 : (if opid.isEmpty then pure st
      else do
        let _ ← getOperatorE st opid
        pure (updateOperator st opid (fun o =>
          { o with current_status := .AVAILABLE, current_work_order := none }))) =
        Except.ok st2 := h
    by_cases hemp : opid.isEmpty
    · rw [if_pos hemp] at h1
      have h' : Except.ok (ε := Unit) st = .ok st2 := h1
      have hst : st = st2 := by injection h'
      rw [← hst]
      exact hg
    · rw [if_neg hemp] at h1
      cases hge : getOperatorE st opid with
      | error e =>
        rw [hge] at h1
        simp [Bind.bind, Except.bind] at h1
      | ok o =>
        rw [hge] at h1
        have h' : Except.ok (ε := Unit) (updateOperator st opid (fun o =>
            { o with current_status := .AVAILABLE, current_work_order := none })) =
            .ok st2 := h1
        have hst : updateOperator st opid (fun o =>
            { o with current_status := .AVAILABLE, current_work_order := none }) = st2 := by
          injection h'
        rw [← hst]
        refine good_transfer ?_ ?_ hg <;> rfl

theorem good_freeMachE {st st2 : EngineState} {am : Option String}
    (h : freeMachE st am = .ok st2) (hg : Good st) : Good st2 := by
  cases am with
  | none =>
    have h' : Except.ok (ε := Unit) st = .ok st2 := h
    have hst : st = st2 := by injection h'
    rw [← hst]
    exact hg
  | some mid =>
    have h1 : (if mid.isEmpty then pure st
      else do
        let _ ← getMachineE st mid
        pure (updateMachine st mid (fun m =>
          { m with current_status := .IDLE, current_work_order := none }))) =
        Except.ok st2 := h
    by_cases hemp : mid.isEmpty
    · rw [if_pos hemp] at h1
      have h' : Except.ok (ε := Unit) st = .ok st2 := h1
      have hst : st = st2 := by injection h'
      rw [← hst]
      exact hg
    · rw [if_neg hemp] at h1
      cases hge : getMachineE st mid with
      | error e =>
        rw [hge] at h1
        simp [Bind.bind, Except.bind] at h1
      | ok mach =>
        rw [hge] at h1
        have h' : Except.ok (ε := Unit) (updateMachine st mid (fun m =>
            { m with current_status := .IDLE, current_work_order := none })) =
            .ok st2 := h1
        have hst : updateMachine st mid (fun m =>
            { m with current_status := .IDLE, current_work_order := none }) = st2 := by
          injection h'
        rw [← hst]
        refine good_transfer ?_ ?_ hg <;> rfl

theorem shortageLoop_cons (st : EngineState) (wo : WorkOrder) (rest : List WorkOrder) :
    shortageLoop st (wo :: rest) =
      if wo.status = WorkOrderStatus.IN_PROGRESS then do
        let st := updateWorkOrder st wo.work_order_id (fun w => { w with status := .BLOCKED })
        let st ← freeOpE st wo.assigned_operator
        let st ← freeMachE st wo.assigned_machine
        shortageLoop st rest
      else shortageLoop st rest := rfl

theorem good_shortageLoop : ∀ (l : List WorkOrder) (st st' : EngineState),
    shortageLoop st l = .ok st' → Good st → Good st'
  | [], st, st', h, hg => by
    have h' : Except.ok (ε := Unit) st = .ok st' := h
    have hst : st = st' := by injection h'
    rw [← hst]
    exact hg
  | wo :: rest, st, st', h, hg => by
    rw [shortageLoop_cons] at h
    by_cases hin : wo.status = WorkOrderStatus.IN_PROGRESS
    · rw [if_pos hin] at h
      simp only [] at h
      obtain ⟨stA, hA, h⟩ := bind_ok h
      obtain ⟨stB, hB, h⟩ := bind_ok h
      have hg1 : Good (updateWorkOrder st wo.work_order_id
          (fun w => { w with status := .BLOCKED })) :=
        good_updateWorkOrder (fun w => rfl) hg
      exact good_shortageLoop rest stB st' h
        (good_freeMachE hB (good_freeOpE hA hg1))
    · rw [if_neg hin] at h
      exact good_shortageLoop rest st st' h hg

theorem good_shortage {st : EngineState} {mid : String} {st' : EngineState}
    (h : handle_material_shortage st mid = .ok st') (hg : Good st) : Good st' := by
  unfold handle_material_shortage at h
  cases hfm : findMaterial st mid with
  | none =>
    rw [hfm] at h
    have hst : st = st' := by injection h
    rw [← hst]
    exact hg
  | some mat =>
    simp only [hfm] at h
    exact good_shortageLoop _ st st' h hg

theorem good_completion {now : Nat} {st : EngineState} {wid : String} {st' : EngineState}
    (hcov : ∀ wo, findWorkOrder st wid = some wo → ReservedCovers st wo)
    (h : handle_work_order_completion now st wid = .ok st') (hg : Good st) : Good st' := by
  cases hwo : findWorkOrder st wid with
  | none =>
    rw [completion_notfound now hwo] at h
    have hst : st = st' := by injection h
    rw [← hst]
    exact hg
  | some wo =>
    rw [completion_found now hwo] at h
    cases hrl : releaseLoop (updateWorkOrder st wid (fun w =>
        { w with status := .COMPLETED, completion_time := some now, progress := 100 }))
        wo.required_materials with
    | error e =>
      rw [hrl] at h
      simp [Bind.bind, Except.bind] at h
    | ok st2 =>
      rw [hrl] at h
      simp only [Bind.bind, Except.bind] at h
      have hgW : Good (updateWorkOrder st wid (fun w =>
          { w with status := .COMPLETED, completion_time := some now, progress := 100 })) :=
        good_updateWorkOrder (fun w => rfl) hg
      have hst2 := releaseLoop_ok_inv wo.required_materials _ st2 hrl
      have hg2 : Good st2 := by
        rw [hst2]
        refine good_mapMaterials (fun m => rfl) ?_ hgW
        intro m hm
        have hcv : reqSum wo.required_materials m.material_id ≤ m.quantity_reserved :=
          hcov wo hwo m hm
        obtain ⟨h0, h1⟩ := hgW.2 m hm
        constructor
        · show 0 ≤ m.quantity_reserved - reqSum wo.required_materials m.material_id
          linarith
        · show m.quantity_reserved - reqSum wo.required_materials m.material_id ≤
            m.quantity_available - reqSum wo.required_materials m.material_id
          linarith
      cases hop : wo.assigned_operator with
      | none =>
        simp only [hop] at h
        have h2 : (match wo.assigned_machine with
          | some mid =>
            if mid.isEmpty then pure st2
            else do
              let _ ← getMachineE st2 mid
              pure (updateMachine st2 mid (fun m =>
                { m with current_status := .IDLE, current_work_order := none }))
          | none => pure st2) = Except.ok st' := h
        exact good_machineStage h2 hg2
      | some opId =>
        simp only [hop] at h
        by_cases hemp : opId.isEmpty
        · rw [if_pos hemp] at h
          have h2 : (match wo.assigned_machine with
            | some mid =>
              if mid.isEmpty then pure st2
              else do
                let _ ← getMachineE st2 mid
                pure (updateMachine st2 mid (fun m =>
                  { m with current_status := .IDLE, current_work_order := none }))
            | none => pure st2) = Except.ok st' := h
          exact good_machineStage h2 hg2
        · rw [if_neg hemp] at h
          cases hoa : handle_operator_available now st2 opId with
          | error e =>
            rw [hoa] at h
            simp [Bind.bind, Except.bind] at h
          | ok st3 =>
            rw [hoa] at h
            have h2 : (match wo.assigned_machine with
              | some mid =>
                if mid.isEmpty then pure st3
                else do
                  let _ ← getMachineE st3 mid
                  pure (updateMachine st3 mid (fun m =>
                    { m with current_status := .IDLE, current_work_order := none }))
              | none => pure st3) = Except.ok st' := h
            exact good_machineStage h2 (good_operator_available hoa hg2)

theorem good_delivered {now : Nat} {st : EngineState} {mid : String} {q : ℚ}
    {st' : EngineState} (hq0 : 0 ≤ q)
    (h : handle_material_delivered now st mid q = .ok st') (hg : Good st) : Good st' := by
  unfold handle_material_delivered at h
  cases hfm : findMaterial st mid with
  | none =>
    rw [hfm] at h
    have hst : st = st' := by injection h
    rw [← hst]
    exact hg
  | some mat =>
    simp only [hfm] at h
    have hg1 : Good (updateMaterial st mid (fun m =>
        { m with quantity_available := m.quantity_available + q })) := by
      refine good_updateMaterial (fun m => rfl) ?_ hg
      intro m hm
      obtain ⟨h0, h1⟩ := hg.2 m hm
      constructor
      · exact h0
      · show m.quantity_reserved ≤ m.quantity_available + q
        linarith
    split at h
    · obtain ⟨p, hpr, h⟩ := bind_ok h
      obtain ⟨st3, a, b, c⟩ := p
      have h' : Except.ok (ε := Unit) st3 = .ok st' := h
      have hst : st3 = st' := by injection h'
      rw [← hst]
      refine good_process hpr ?_
      refine good_transfer ?_ ?_ hg1
      · rfl
      · unfold reqLists
        show List.map (fun wo => wo.required_materials)
          ((updateMaterial st mid (fun m =>
            { m with quantity_available := m.quantity_available + q })).work_orders.map
              (fun wo => if wo.status = WorkOrderStatus.BLOCKED ∧
                  wo.required_materials.any (fun req => req.material_id = mid)
                then { wo with status := .PENDING } else wo)) = _
        refine map_proj_map_ite
          (fun wo : WorkOrder => wo.status = WorkOrderStatus.BLOCKED ∧
            wo.required_materials.any (fun req => req.material_id = mid))
          (fun wo : WorkOrder => wo.required_materials)
          (fun wo : WorkOrder => { wo with status := WorkOrderStatus.PENDING })
          (fun w => ?_)
          ((updateMaterial st mid (fun m =>
            { m with quantity_available := m.quantity_available + q })).work_orders)
        rfl
    · have h' : Except.ok (ε := Unit) _ = .ok st' := h
      rw [← (by injection h' : _ = st')]
      refine good_transfer ?_ ?_ hg1
      · rfl
      · unfold reqLists
        show List.map (fun wo => wo.required_materials)
          ((updateMaterial st mid (fun m =>
            { m with quantity_available := m.quantity_available + q })).work_orders.map
              (fun wo => if wo.status = WorkOrderStatus.BLOCKED ∧
                  wo.required_materials.any (fun req => req.material_id = mid)
                then { wo with status := .PENDING } else wo)) = _
        refine map_proj_map_ite
          (fun wo : WorkOrder => wo.status = WorkOrderStatus.BLOCKED ∧
            wo.required_materials.any (fun req => req.material_id = mid))
          (fun wo : WorkOrder => wo.required_materials)
          (fun wo : WorkOrder => { wo with status := WorkOrderStatus.PENDING })
          (fun w => ?_)
          ((updateMaterial st mid (fun m =>
            { m with quantity_available := m.quantity_available + q })).work_orders)
        rfl

theorem good_freeOpIfDifferent {st st2 : EngineState} {newId : String} {opo : Option String}
    (h : freeOpIfDifferent st newId opo = .ok st2) (hg : Good st) : Good st2 := by
  cases opo with
  | none =>
    have h' : Except.ok (ε := Unit) st = .ok st2 := h
    have hst : st = st2 := by injection h'
    rw [← hst]
    exact hg
  | some opid =>
    have h1 : (if opid.isEmpty then pure st
      else if opid ≠ newId then do
        let _ ← getOperatorE st opid
        pure (updateOperator st opid (fun o =>
          { o with current_status := .AVAILABLE, current_work_order := none }))
      else pure st) = Except.ok st2 := h
    by_cases hemp : opid.isEmpty
    · rw [if_pos hemp] at h1
      have h' : Except.ok (ε := Unit) st = .ok st2 := h1
      have hst : st = st2 := by injection h'
      rw [← hst]
      exact hg
    · rw [if_neg hemp] at h1
      by_cases hne : opid ≠ newId
      · rw [if_pos hne] at h1
        cases hge : getOperatorE st opid with
        | error e =>
          rw [hge] at h1
          simp [Bind.bind, Except.bind] at h1
        | ok o =>
          rw [hge] at h1
          have h' : Except.ok (ε := Unit) (updateOperator st opid (fun o =>
              { o with current_status := .AVAILABLE, current_work_order := none })) =
              .ok st2 := h1
          have hst : updateOperator st opid (fun o =>
              { o with current_status := .AVAILABLE, current_work_order := none }) = st2 := by
            injection h'
          rw [← hst]
          refine good_transfer ?_ ?_ hg <;> rfl
      · rw [if_neg hne] at h1
        have h' : Except.ok (ε := Unit) st = .ok st2 := h1
        have hst : st = st2 := by injection h'
        rw [← hst]
        exact hg

theorem good_freeAndRealloc {now : Nat} {st st2 : EngineState} {opo : Option String}
    (h : freeAndRealloc now st opo = .ok st2) (hg : Good st) : Good st2 := by
  cases opo with
  | none =>
    have h' : Except.ok (ε := Unit) st = .ok st2 := h
    have hst : st = st2 := by injection h'
    rw [← hst]
    exact hg
  | some opid =>
    have h1 : (if opid.isEmpty then pure st
      else do
        let _ ← getOperatorE st opid
        let st := updateOperator st opid (fun o =>
          { o with current_status := .AVAILABLE, current_work_order := none })
        let (st', _, _, _) ← process_allocations now st
        pure st') = Except.ok st2 := h
    by_cases hemp : opid.isEmpty
    · rw [if_pos hemp] at h1
      have h' : Except.ok (ε := Unit) st = .ok st2 := h1
      have hst : st = st2 := by injection h'
      rw [← hst]
      exact hg
    · rw [if_neg hemp] at h1
      cases hge : getOperatorE st opid with
      | error e =>
        rw [hge] at h1
        simp [Bind.bind, Except.bind] at h1
      | ok o =>
        rw [hge] at h1
        obtain ⟨o2, _, h1⟩ := bind_ok h1
        simp only [] at h1
        obtain ⟨p, hpr, h1⟩ := bind_ok h1
        obtain ⟨st3, a, b, c⟩ := p
        have h' : Except.ok (ε := Unit) st3 = .ok st2 := h1
        have hst : st3 = st2 := by injection h'
        rw [← hst]
        refine good_process hpr ?_
        refine good_transfer ?_ ?_ hg <;> rfl

theorem good_breakdown {now : Nat} {st : EngineState} {mid : String} {st' : EngineState}
    (h : handle_machine_breakdown now st mid = .ok st') (hg : Good st) : Good st' := by
  unfold handle_machine_breakdown at h
  cases hfm : findMachine st mid with
  | none =>
    rw [hfm] at h
    have hst : st = st' := by injection h
    rw [← hst]
    exact hg
  | some machine =>
    simp only [hfm] at h
    have hg1 : Good (updateMachine st mid (fun m =>
        { m with current_status := .BREAKDOWN })) := by
      refine good_transfer ?_ ?_ hg <;> rfl
    cases hcw : machine.current_work_order with
    | none =>
      simp only [hcw] at h
      have h' : Except.ok (ε := Unit) (updateMachine st mid (fun m =>
          { m with current_status := .BREAKDOWN })) = .ok st' := h
      have hst : updateMachine st mid (fun m =>
          { m with current_status := .BREAKDOWN }) = st' := by injection h'
      rw [← hst]
      exact hg1
    | some woId =>
      simp only [hcw] at h
      by_cases hemp : woId.isEmpty
      · rw [if_pos hemp] at h
        have h' : Except.ok (ε := Unit) (updateMachine st mid (fun m =>
            { m with current_status := .BREAKDOWN })) = .ok st' := h
        have hst : updateMachine st mid (fun m =>
            { m with current_status := .BREAKDOWN }) = st' := by injection h'
        rw [← hst]
        exact hg1
      · rw [if_neg hemp] at h
        obtain ⟨work_order, hgw, h⟩ := bind_ok h
        have hg2 : Good (updateWorkOrder (updateMachine st mid (fun m =>
            { m with current_status := .BREAKDOWN })) woId (fun w =>
            { w with assigned_machine := none, status := .BLOCKED })) :=
          good_updateWorkOrder (fun w => rfl) hg1
        cases hfb : find_best_allocation
            (updateWorkOrder (updateMachine st mid (fun m =>
              { m with current_status := .BREAKDOWN })) woId (fun w =>
              { w with assigned_machine := none, status := .BLOCKED }))
            { work_order with assigned_machine := none, status := WorkOrderStatus.BLOCKED }
            with
        | some r =>
          obtain ⟨new_op, new_mach, score⟩ := r
          simp only [hfb] at h
          obtain ⟨st3, hfo, h⟩ := bind_ok h
          obtain ⟨p, hal, h⟩ := bind_ok h
          obtain ⟨st4, bb⟩ := p
          have h' : Except.ok (ε := Unit) st4 = .ok st' := h
          have hst : st4 = st' := by injection h'
          rw [← hst]
          exact good_allocate hal (good_freeOpIfDifferent hfo hg2)
        | none =>
          simp only [hfb] at h
          exact good_freeAndRealloc h hg2

/-- One engine operation or event-handler step, as the amended claim
constrains it: work-order completion only fires when the current reservations
cover the completed order's requirement quantities, and a delivery carries a
nonnegative quantity.  All other steps are unrestricted. -/
inductive MatStep : EngineState → EngineState → Prop where
  | alloc (now : Nat) (wid : String) (st st' : EngineState) (b : Bool) :
      allocate_resources now st wid = .ok (st', b) → MatStep st st'
  | bulk (now : Nat) (st st' : EngineState) (r : Nat × Nat × Nat) :
      process_allocations now st = .ok (st', r) → MatStep st st'
  | maintenance (now : Nat) (mid : String) (st : EngineState) :
      MatStep st (handle_machine_maintenance now st mid)
  | operator_available (now : Nat) (oid : String) (st st' : EngineState) :
      handle_operator_available now st oid = .ok st' → MatStep st st'
  | completion (now : Nat) (wid : String) (st st' : EngineState) :
      (∀ wo, findWorkOrder st wid = some wo → ReservedCovers st wo) →
      handle_work_order_completion now st wid = .ok st' → MatStep st st'
  | breakdown (now : Nat) (mid : String) (st st' : EngineState) :
      handle_machine_breakdown now st mid = .ok st' → MatStep st st'
  | shortage (mid : String) (st st' : EngineState) :
      handle_material_shortage st mid = .ok st' → MatStep st st'
  | delivered (now : Nat) (mid : String) (q : ℚ) (st st' : EngineState) :
      0 ≤ q → handle_material_delivered now st mid q = .ok st' → MatStep st st'

theorem good_step {st st' : EngineState} (h : MatStep st st') (hg : Good st) : Good st' := by
  cases h with
  | alloc now wid _ _ b hh => exact good_allocate hh hg
  | bulk now _ _ r hh => exact good_process hh hg
  | maintenance now mid _ => exact good_maintenance hg
  | operator_available now oid _ _ hh => exact good_operator_available hh hg
  | completion now wid _ _ hcov hh => exact good_completion hcov hh hg
  | breakdown now mid _ _ hh => exact good_breakdown hh hg
  | shortage mid _ _ hh => exact good_shortage hh hg
  | delivered now mid q _ _ hq hh => exact good_delivered hq hh hg

def matC1 : Material :=
  { material_id := "MC", name := "c", quantity_available := 10,
    quantity_reserved := 0, location := "L", unit_of_measure := "u",
    reorder_point := 0 }

def woC1 : WorkOrder :=
  { work_order_id := "WC", priority := 1, required_skills := [],
    required_machine_capability := "", required_materials := [⟨"MC", 5⟩],
    estimated_duration := 1, deadline := 10, status := .PENDING, location := "L" }

def stC1 : EngineState :=
  { operators := [], machines := [], materials := [matC1], work_orders := [woC1] }

def stC1done : EngineState :=
  { stC1 with
    work_orders := stC1.work_orders.map (fun w =>
      if w.work_order_id = "WC" then
        { w with status := .COMPLETED, completion_time := some 0, progress := 100 }
      else w),
    materials := stC1.materials.map (fun m =>
      { m with
        quantity_reserved :=
          m.quantity_reserved - reqSum woC1.required_materials m.material_id,
        quantity_available :=
          m.quantity_available - reqSum woC1.required_materials m.material_id }) }

def mC1done : Material :=
  { matC1 with
    quantity_reserved :=
      matC1.quantity_reserved - reqSum woC1.required_materials matC1.material_id,
    quantity_available :=
      matC1.quantity_available - reqSum woC1.required_materials matC1.material_id }

theorem stC1_run : handle_work_order_completion 0 stC1 "WC" = .ok stC1done := by
  rw [completion_found 0 (show findWorkOrder stC1 "WC" = some woC1 from rfl)]
  rw [releaseLoop_ok woC1.required_materials _ (by
    intro req hreq
    rw [List.mem_singleton.1 hreq]
    rfl)]
  rfl

/-- C1 as written is false: the completion handler performs no rejection check
before mutating reservations, so completing a PENDING order that was never
allocated (holding no reservation) drives its material's `quantity_reserved`
from 0 to −5, violating `0 ≤ quantity_reserved` in a state reachable by one
event from an invariant-satisfying initial state. -/
theorem C1_counterexample :
    InvQ stC1 ∧ handle_work_order_completion 0 stC1 "WC" = .ok stC1done ∧
      (findMaterial stC1done "MC").map (fun m => m.quantity_reserved) = some (-5) ∧
      ¬ InvQ stC1done := by
  refine ⟨?_, stC1_run, ?_, ?_⟩
  · intro m hm
    have hm1 : m = matC1 := List.mem_singleton.1 hm
    subst hm1
    constructor <;> norm_num [matC1]
  · show some mC1done.quantity_reserved = some (-5)
    norm_num [mC1done, matC1, woC1, reqSum]
  · intro hinv
    have hm := findMaterial_mem (show findMaterial stC1done "MC" = some mC1done from rfl)
    obtain ⟨h0, _⟩ := hinv mC1done hm
    norm_num [mC1done, matC1, woC1, reqSum] at h0

/-- C1 (amended): `0 ≤ quantity_reserved ≤ quantity_available` for every
material is preserved by every sequence of engine operations and event-handler
steps — allocation commit, bulk pass, maintenance, operator-available,
breakdown reallocation, shortage, nonnegative delivery, and completion of
orders whose reservations cover their requirements — from any state with
distinct material ids and well-formed requirement lists; allocation rejects a
violating reservation before mutating (contrary to the claim, the completion
handler does not: it releases unconditionally, so an uncovered completion
breaks the invariant, as the counterexample shows).  Catalog well-formedness
is preserved as well. -/
theorem C1_material_invariant (st st' : EngineState)
    (h : Relation.ReflTransGen MatStep st st') (hwf : WF st) (hinv : InvQ st) :
    WF st' ∧ InvQ st' := by
  induction h with
  | refl => exact ⟨hwf, hinv⟩
  | tail hs hstep ih => exact good_step hstep ih

/-- Witness for C1 (amended): one maintenance step from the empty catalog. -/
theorem C1_material_invariant_witness :
    WF (handle_machine_maintenance 0 stE "X") ∧
      InvQ (handle_machine_maintenance 0 stE "X") :=
  C1_material_invariant stE _
    (Relation.ReflTransGen.single (MatStep.maintenance 0 "X" stE))
    ⟨List.nodup_nil, fun r hr => absurd hr (List.not_mem_nil r)⟩
    (fun m hm => absurd hm (List.not_mem_nil m))

/-! ## C2: the reference invariant for in-progress work orders -/

def opIds (st : EngineState) : List String := st.operators.map (fun o => o.operator_id)

def machIds (st : EngineState) : List String := st.machines.map (fun m => m.machine_id)

def woIds (st : EngineState) : List String := st.work_orders.map (fun w => w.work_order_id)

/-- Distinct identifiers in each catalog (they live in `dict`s keyed by id). -/
def WFids (st : EngineState) : Prop :=
  (opIds st).Nodup ∧ (machIds st).Nodup ∧ (woIds st).Nodup

/-- The claim's consistency requirement for one in-progress work order. -/
def RefOk (st : EngineState) (wo : WorkOrder) : Prop :=
  (∃ oid o, wo.assigned_operator = some oid ∧ findOperator st oid = some o ∧
    o.current_status = OperatorStatus.ASSIGNED ∧
    o.current_work_order = some wo.work_order_id) ∧
  (∃ mid m, wo.assigned_machine = some mid ∧ findMachine st mid = some m ∧
    m.current_status = MachineStatus.RUNNING ∧
    m.current_work_order = some wo.work_order_id)

/-- The claim's invariant: every IN_PROGRESS order is fully cross-referenced. -/
def RefInv (st : EngineState) : Prop :=
  ∀ wo ∈ st.work_orders, wo.status = WorkOrderStatus.IN_PROGRESS → RefOk st wo

def GoodR (st : EngineState) : Prop := WFids st ∧ RefInv st

/-- No in-progress order references operator `oid`. -/
def NoOpRef (st : EngineState) (oid : String) : Prop :=
  ∀ w ∈ st.work_orders, w.status = WorkOrderStatus.IN_PROGRESS →
    w.assigned_operator ≠ some oid

/-- No in-progress order references machine `mid`. -/
def NoMachRef (st : EngineState) (mid : String) : Prop :=
  ∀ w ∈ st.work_orders, w.status = WorkOrderStatus.IN_PROGRESS →
    w.assigned_machine ≠ some mid

theorem op_backref_unique {st : EngineState} (hids : (woIds st).Nodup) (href : RefInv st)
    {w1 w2 : WorkOrder} {oid : String}
    (m1 : w1 ∈ st.work_orders) (s1 : w1.status = WorkOrderStatus.IN_PROGRESS)
    (a1 : w1.assigned_operator = some oid)
    (m2 : w2 ∈ st.work_orders) (s2 : w2.status = WorkOrderStatus.IN_PROGRESS)
    (a2 : w2.assigned_operator = some oid) : w1 = w2 := by
  obtain ⟨⟨oid1, o1, ha1, hf1, _, hc1⟩, _⟩ := href w1 m1 s1
  obtain ⟨⟨oid2, o2, ha2, hf2, _, hc2⟩, _⟩ := href w2 m2 s2
  rw [a1] at ha1
  rw [a2] at ha2
  have e1 : oid = oid1 := Option.some_injective _ ha1
  have e2 : oid = oid2 := Option.some_injective _ ha2
  rw [← e1] at hf1
  rw [← e2] at hf2
  rw [hf1] at hf2
  have eo : o1 = o2 := Option.some_injective _ hf2
  rw [eo, hc2] at hc1
  have hkeq : w2.work_order_id = w1.work_order_id := Option.some_injective _ hc1
  exact (eq_of_mem_key_nodup m2 m1 hkeq hids).symm

theorem mach_backref_unique {st : EngineState} (hids : (woIds st).Nodup) (href : RefInv st)
    {w1 w2 : WorkOrder} {mid : String}
    (m1 : w1 ∈ st.work_orders) (s1 : w1.status = WorkOrderStatus.IN_PROGRESS)
    (a1 : w1.assigned_machine = some mid)
    (m2 : w2 ∈ st.work_orders) (s2 : w2.status = WorkOrderStatus.IN_PROGRESS)
    (a2 : w2.assigned_machine = some mid) : w1 = w2 := by
  obtain ⟨_, ⟨mid1, x1, ha1, hf1, _, hc1⟩⟩ := href w1 m1 s1
  obtain ⟨_, ⟨mid2, x2, ha2, hf2, _, hc2⟩⟩ := href w2 m2 s2
  rw [a1] at ha1
  rw [a2] at ha2
  have e1 : mid = mid1 := Option.some_injective _ ha1
  have e2 : mid = mid2 := Option.some_injective _ ha2
  rw [← e1] at hf1
  rw [← e2] at hf2
  rw [hf1] at hf2
  have eo : x1 = x2 := Option.some_injective _ hf2
  rw [eo, hc2] at hc1
  have hkeq : w2.work_order_id = w1.work_order_id := Option.some_injective _ hc1
  exact (eq_of_mem_key_nodup m2 m1 hkeq hids).symm

theorem noOpRef_of_status {st : EngineState} (hop : (opIds st).Nodup) (href : RefInv st)
    {o : Operator} (ho : o ∈ st.operators)
    (hstat : ¬ o.current_status = OperatorStatus.ASSIGNED) : NoOpRef st o.operator_id := by
  intro w hw hs ha
  obtain ⟨⟨oid, o2, ha2, hf2, hst2, _⟩, _⟩ := href w hw hs
  rw [ha] at ha2
  have e : o.operator_id = oid := Option.some_injective _ ha2
  have hfo : findOperator st o.operator_id = some o := find?_key_of_mem ho rfl hop
  rw [← e, hfo] at hf2
  have eo : o = o2 := Option.some_injective _ hf2
  rw [← eo] at hst2
  exact hstat hst2

theorem noMachRef_of_status {st : EngineState} (hmn : (machIds st).Nodup) (href : RefInv st)
    {m : Machine} (hm : m ∈ st.machines)
    (hstat : ¬ m.current_status = MachineStatus.RUNNING) : NoMachRef st m.machine_id := by
  intro w hw hs ha
  obtain ⟨_, ⟨mid, m2, ha2, hf2, hst2, _⟩⟩ := href w hw hs
  rw [ha] at ha2
  have e : m.machine_id = mid := Option.some_injective _ ha2
  have hfm : findMachine st m.machine_id = some m := find?_key_of_mem hm rfl hmn
  rw [← e, hfm] at hf2
  have eo : m = m2 := Option.some_injective _ hf2
  rw [← eo] at hst2
  exact hstat hst2

theorem goodR_woMap {st : EngineState} {c : WorkOrder → Prop} [DecidablePred c]
    {f : WorkOrder → WorkOrder}
    (hkid : ∀ w, (f w).work_order_id = w.work_order_id)
    (hnot : ∀ w, ¬ (f w).status = WorkOrderStatus.IN_PROGRESS)
    (hg : GoodR st) :
    GoodR { st with work_orders := st.work_orders.map (fun w => if c w then f w else w) } := by
  obtain ⟨⟨ho, hm, hw⟩, href⟩ := hg
  refine ⟨⟨ho, hm, ?_⟩, ?_⟩
  · unfold woIds
    show ((st.work_orders.map (fun w => if c w then f w else w)).map
      (fun w => w.work_order_id)).Nodup
    rw [map_proj_map_ite c (fun w => w.work_order_id) f hkid st.work_orders]
    exact hw
  · intro w' hw' hs'
    obtain ⟨w, hwm, rfl⟩ := List.mem_map.1 hw'
    by_cases hc : c w
    · rw [if_pos hc] at hs'
      exact absurd hs' (hnot w)
    · rw [if_neg hc] at hs' ⊢
      exact href w hwm hs'

theorem goodR_updateOp_noref {st : EngineState} {oid : String} {f : Operator → Operator}
    (hid : ∀ o, (f o).operator_id = o.operator_id)
    (hno : NoOpRef st oid) (hg : GoodR st) : GoodR (updateOperator st oid f) := by
  obtain ⟨⟨ho, hm, hw⟩, href⟩ := hg
  refine ⟨⟨?_, hm, hw⟩, ?_⟩
  · unfold opIds
    show ((st.operators.map (fun o => if o.operator_id = oid then f o else o)).map
      (fun o => o.operator_id)).Nodup
    rw [map_proj_map_ite (fun o => o.operator_id = oid) (fun o => o.operator_id)
      f hid st.operators]
    exact ho
  · intro w hwm hs
    obtain ⟨⟨oid2, o2, ha2, hf2, hst2, hc2⟩, hmach⟩ := href w hwm hs
    refine ⟨⟨oid2, o2, ha2, ?_, hst2, hc2⟩, hmach⟩
    rw [findOperator_updateOperator st oid oid2 f hid]
    have hne : ¬ oid = oid2 := by
      intro he
      rw [← he] at ha2
      exact hno w hwm hs ha2
    rw [if_neg hne]
    exact hf2

theorem goodR_updateMach_noref {st : EngineState} {mid : String} {f : Machine → Machine}
    (hid : ∀ m, (f m).machine_id = m.machine_id)
    (hno : NoMachRef st mid) (hg : GoodR st) : GoodR (updateMachine st mid f) := by
  obtain ⟨⟨ho, hm, hw⟩, href⟩ := hg
  refine ⟨⟨ho, ?_, hw⟩, ?_⟩
  · unfold machIds
    show ((st.machines.map (fun m => if m.machine_id = mid then f m else m)).map
      (fun m => m.machine_id)).Nodup
    rw [map_proj_map_ite (fun m => m.machine_id = mid) (fun m => m.machine_id)
      f hid st.machines]
    exact hm
  · intro w hwm hs
    obtain ⟨hopart, ⟨mid2, m2, ha2, hf2, hst2, hc2⟩⟩ := href w hwm hs
    refine ⟨hopart, ⟨mid2, m2, ha2, ?_, hst2, hc2⟩⟩
    rw [findMachine_updateMachine st mid mid2 f hid]
    have hne : ¬ mid = mid2 := by
      intro he
      rw [← he] at ha2
      exact hno w hwm hs ha2
    rw [if_neg hne]
    exact hf2

/-- The operator record update a successful allocation commits. -/
def opAssign (wid : String) (x : Operator) : Operator :=
  { x with current_status := .ASSIGNED, current_work_order := some wid }

/-- The machine record update a successful allocation commits. -/
def machAssign (wid : String) (x : Machine) : Machine :=
  { x with current_status := .RUNNING, current_work_order := some wid }

/-- The state on which a commit's record updates are performed. -/
def commitBase (st : EngineState) (wo : WorkOrder) : EngineState :=
  { st with materials := st.materials.map (bumpFn wo) }

theorem findOperator_commitState (now : Nat) (st : EngineState) (wid : String)
    (wo : WorkOrder) (o : Operator) (mch : Machine) (j : String) :
    findOperator (commitState now st wid wo o mch) j =
      if o.operator_id = j then (findOperator st j).map (opAssign wid)
      else findOperator st j :=
  findOperator_updateOperator (updateWorkOrder (commitBase st wo) wid
    (assignFn now o mch)) o.operator_id j (opAssign wid) (fun x => rfl)

theorem findMachine_commitState (now : Nat) (st : EngineState) (wid : String)
    (wo : WorkOrder) (o : Operator) (mch : Machine) (j : String) :
    findMachine (commitState now st wid wo o mch) j =
      if mch.machine_id = j then (findMachine st j).map (machAssign wid)
      else findMachine st j :=
  findMachine_updateMachine (updateOperator (updateWorkOrder (commitBase st wo) wid
    (assignFn now o mch)) o.operator_id (opAssign wid)) mch.machine_id j
    (machAssign wid) (fun x => rfl)

theorem findWorkOrder_commitState (now : Nat) (st : EngineState) (wid : String)
    (wo : WorkOrder) (o : Operator) (mch : Machine) (j : String) :
    findWorkOrder (commitState now st wid wo o mch) j =
      if wid = j then (findWorkOrder st j).map (assignFn now o mch)
      else findWorkOrder st j :=
  findWorkOrder_updateWorkOrder (commitBase st wo) wid j (assignFn now o mch)
    (fun w => rfl)

theorem goodR_commitState {now : Nat} {st : EngineState} {wid : String} {wo : WorkOrder}
    {o : Operator} {mch : Machine}
    (ho : o ∈ st.operators) (hoav : o.current_status = OperatorStatus.AVAILABLE)
    (hmm : mch ∈ st.machines) (hmidl : mch.current_status = MachineStatus.IDLE)
    (hg : GoodR st) : GoodR (commitState now st wid wo o mch) := by
  obtain ⟨⟨hoid, hmid2, hwid⟩, href⟩ := hg
  have hfo : findOperator st o.operator_id = some o := find?_key_of_mem ho rfl hoid
  have hfm : findMachine st mch.machine_id = some mch := find?_key_of_mem hmm rfl hmid2
  constructor
  · refine ⟨?_, ?_, ?_⟩
    · unfold opIds
      rw [show (commitState now st wid wo o mch).operators =
        st.operators.map (fun x => if x.operator_id = o.operator_id
          then opAssign wid x else x) from rfl]
      have hmp : (st.operators.map (fun x => if x.operator_id = o.operator_id
          then opAssign wid x else x)).map (fun x => x.operator_id) =
          st.operators.map (fun x => x.operator_id) := by
        refine map_proj_map_ite _ _ _ (fun x => ?_) _
        rfl
      rw [hmp]
      exact hoid
    · unfold machIds
      rw [show (commitState now st wid wo o mch).machines =
        st.machines.map (fun x => if x.machine_id = mch.machine_id
          then machAssign wid x else x) from rfl]
      have hmp : (st.machines.map (fun x => if x.machine_id = mch.machine_id
          then machAssign wid x else x)).map (fun x => x.machine_id) =
          st.machines.map (fun x => x.machine_id) := by
        refine map_proj_map_ite _ _ _ (fun x => ?_) _
        rfl
      rw [hmp]
      exact hmid2
    · unfold woIds
      rw [show (commitState now st wid wo o mch).work_orders =
        st.work_orders.map (fun w => if w.work_order_id = wid
          then assignFn now o mch w else w) from rfl]
      have hmp : (st.work_orders.map (fun w => if w.work_order_id = wid
          then assignFn now o mch w else w)).map (fun w => w.work_order_id) =
          st.work_orders.map (fun w => w.work_order_id) := by
        refine map_proj_map_ite _ _ _ (fun w => ?_) _
        rfl
      rw [hmp]
      exact hwid
  · intro w' hw' hs'
    rw [show (commitState now st wid wo o mch).work_orders =
      st.work_orders.map (fun w => if w.work_order_id = wid
        then assignFn now o mch w else w) from rfl] at hw'
    obtain ⟨w, hwm, rfl⟩ := List.mem_map.1 hw'
    by_cases hc : w.work_order_id = wid
    · rw [if_pos hc] at hs' ⊢
      constructor
      · refine ⟨o.operator_id, opAssign wid o, rfl, ?_, rfl, ?_⟩
        · rw [findOperator_commitState, if_pos rfl, hfo]
          rfl
        · show some wid = some (assignFn now o mch w).work_order_id
          rw [show (assignFn now o mch w).work_order_id = w.work_order_id from rfl, hc]
      · refine ⟨mch.machine_id, machAssign wid mch, rfl, ?_, rfl, ?_⟩
        · rw [findMachine_commitState, if_pos rfl, hfm]
          rfl
        · show some wid = some (assignFn now o mch w).work_order_id
          rw [show (assignFn now o mch w).work_order_id = w.work_order_id from rfl, hc]
    · rw [if_neg hc] at hs' ⊢
      obtain ⟨⟨oid2, o2, ha2, hf2, hst2, hc2⟩, ⟨mid2, m2, hb2, hg2, hr2, hd2⟩⟩ :=
        href w hwm hs'
      constructor
      · refine ⟨oid2, o2, ha2, ?_, hst2, hc2⟩
        rw [findOperator_commitState]
        have hne : ¬ o.operator_id = oid2 := by
          intro he
          rw [← he, hfo] at hf2
          have eo : o = o2 := Option.some_injective _ hf2
          rw [← eo, hoav] at hst2
          exact absurd hst2 (by decide)
        rw [if_neg hne]
        exact hf2
      · refine ⟨mid2, m2, hb2, ?_, hr2, hd2⟩
        rw [findMachine_commitState]
        have hne : ¬ mch.machine_id = mid2 := by
          intro he
          rw [← he, hfm] at hg2
          have em : mch = m2 := Option.some_injective _ hg2
          rw [← em, hmidl] at hr2
          exact absurd hr2 (by decide)
        rw [if_neg hne]
        exact hg2

theorem find_best_some_mem {st : EngineState} {work_order : WorkOrder}
    {o : Operator} {mch : Machine} {s : ℚ}
    (h : find_best_allocation st work_order = some (o, mch, s)) :
    (o, mch) ∈ candidatePairs st := by
  rcases fbaLoop_some_acc st work_order (candidatePairs st) (-1) none (o, mch, s) h with
    ⟨p, hp, hc, hr⟩ | hacc
  · have h1 : o = p.1 := congrArg Prod.fst hr
    have h23 := congrArg Prod.snd hr
    have h2 : mch = p.2 := congrArg Prod.fst h23
    rw [h1, h2]
    simpa using hp
  · exact Option.noConfusion hacc

theorem goodR_allocate {now : Nat} {st : EngineState} {wid : String} {st' : EngineState}
    {b : Bool} (h : allocate_resources now st wid = .ok (st', b)) (hg : GoodR st) :
    GoodR st' := by
  cases hwo : findWorkOrder st wid with
  | none =>
    rw [allocate_resources_notfound hwo] at h
    have hst : (st, false) = (st', b) := by injection h
    have hs : st = st' := congrArg Prod.fst hst
    rw [← hs]
    exact hg
  | some wo =>
    cases hfb : find_best_allocation st wo with
    | none =>
      rw [allocate_resources_blocked hwo hfb] at h
      have hst : (updateWorkOrder st wid (fun w => { w with status := .BLOCKED }), false) =
          (st', b) := by injection h
      have hs : updateWorkOrder st wid (fun w => { w with status := .BLOCKED }) = st' :=
        congrArg Prod.fst hst
      rw [← hs]
      exact goodR_woMap (fun w => rfl) (fun w h => WorkOrderStatus.noConfusion h) hg
    | some r =>
      obtain ⟨o, mch, s⟩ := r
      rw [allocate_resources_success hwo hfb] at h
      have hst : (commitState now st wid wo o mch, true) = (st', b) := by injection h
      have hs : commitState now st wid wo o mch = st' := congrArg Prod.fst hst
      rw [← hs]
      have hmem := mem_candidatePairs.1 (find_best_some_mem hfb)
      exact goodR_commitState hmem.1 hmem.2.1 hmem.2.2.1 hmem.2.2.2 hg

theorem goodR_allocLoop {now : Nat} : ∀ (ids : List String) (st : EngineState) (a b : Nat)
    (st' : EngineState) (a' b' : Nat),
    allocLoop now st ids a b = .ok (st', a', b') → GoodR st → GoodR st'
  | [], st, a, b, st', a', b', h, hg => by
    have h' : Except.ok (ε := Unit) (st, a, b) = .ok (st', a', b') := h
    have hst : (st, a, b) = (st', a', b') := by injection h'
    have hs : st = st' := congrArg Prod.fst hst
    rw [← hs]
    exact hg
  | wid :: rest, st, a, b, st', a', b', h, hg => by
    rw [allocLoop_cons] at h
    cases har : allocate_resources now st wid with
    | error e => rw [har] at h; cases h
    | ok p =>
      obtain ⟨st2, allocated⟩ := p
      rw [har] at h
      have hg2 := goodR_allocate har hg
      cases allocated with
      | true => exact goodR_allocLoop rest st2 (a + 1) b st' a' b' h hg2
      | false => exact goodR_allocLoop rest st2 a (b + 1) st' a' b' h hg2

theorem goodR_process {now : Nat} {st st' : EngineState} {r : Nat × Nat × Nat}
    (h : process_allocations now st = .ok (st', r)) (hg : GoodR st) : GoodR st' := by
  unfold process_allocations at h
  simp only [] at h
  cases hal : allocLoop now st
      ((prioritize_work_orders st).map (fun wo => wo.work_order_id)) 0 0 with
  | error e =>
    rw [hal] at h
    simp [Bind.bind, Except.bind] at h
  | ok p =>
    obtain ⟨st2, a, b⟩ := p
    rw [hal] at h
    have h' : Except.ok (ε := Unit) (st2, a, b, (prioritize_work_orders st).length) =
        .ok (st', r) := h
    have hst : (st2, a, b, (prioritize_work_orders st).length) = (st', r) := by injection h'
    have hs : st2 = st' := congrArg Prod.fst hst
    rw [← hs]
    exact goodR_allocLoop _ st 0 0 st2 a b hal hg

theorem goodR_operator_available {now : Nat} {st : EngineState} {oid : String}
    {st' : EngineState} (hno : NoOpRef st oid)
    (h : handle_operator_available now st oid = .ok st') (hg : GoodR st) : GoodR st' := by
  unfold handle_operator_available at h
  cases hop : findOperator st oid with
  | none =>
    rw [hop] at h
    have hst : st = st' := by injection h
    rw [← hst]
    exact hg
  | some o =>
    simp only [hop] at h
    have hg1 : GoodR (updateOperator st oid (fun o =>
        { o with current_status := .AVAILABLE, current_work_order := none })) :=
      goodR_updateOp_noref (fun o => rfl) hno hg
    by_cases hp : 0 < (pendingOrders (updateOperator st oid (fun o =>
        { o with current_status := .AVAILABLE, current_work_order := none }))).length
    · rw [if_pos hp] at h
      cases hpr : process_allocations now (updateOperator st oid (fun o =>
          { o with current_status := .AVAILABLE, current_work_order := none })) with
      | error e =>
        rw [hpr] at h
        simp [Bind.bind, Except.bind] at h
      | ok p =>
        obtain ⟨st2, a, b, c⟩ := p
        rw [hpr] at h
        have h' : Except.ok (ε := Unit) st2 = .ok st' := h
        have hst : st2 = st' := by injection h'
        rw [← hst]
        exact goodR_process hpr hg1
    · rw [if_neg hp] at h
      have h' : Except.ok (ε := Unit) (updateOperator st oid (fun o =>
          { o with current_status := .AVAILABLE, current_work_order := none })) = .ok st' := h
      have hst : updateOperator st oid (fun o =>
          { o with current_status := .AVAILABLE, current_work_order := none }) = st' := by
        injection h'
      rw [← hst]
      exact hg1

theorem goodR_maintenance {now : Nat} {st : EngineState} {mid : String}
    (hno : NoMachRef st mid) (hg : GoodR st) :
    GoodR (handle_machine_maintenance now st mid) := by
  unfold handle_machine_maintenance
  cases hfm : findMachine st mid with
  | none => exact hg
  | some m =>
    simp only []
    exact goodR_updateMach_noref (fun m => rfl) hno hg

theorem machine_stable_allocate {now : Nat} {st : EngineState} {wid : String}
    {st' : EngineState} {b : Bool} (h : allocate_resources now st wid = .ok (st', b))
    (hids : (machIds st).Nodup) {j : String} {m : Machine}
    (hm : findMachine st j = some m) (hni : ¬ m.current_status = MachineStatus.IDLE) :
    findMachine st' j = some m := by
  cases hwo : findWorkOrder st wid with
  | none =>
    rw [allocate_resources_notfound hwo] at h
    have hst : (st, false) = (st', b) := by injection h
    have hs : st = st' := congrArg Prod.fst hst
    rw [← hs]
    exact hm
  | some wo =>
    cases hfb : find_best_allocation st wo with
    | none =>
      rw [allocate_resources_blocked hwo hfb] at h
      have hst : (updateWorkOrder st wid (fun w => { w with status := .BLOCKED }), false) =
          (st', b) := by injection h
      have hs : updateWorkOrder st wid (fun w => { w with status := .BLOCKED }) = st' :=
        congrArg Prod.fst hst
      rw [← hs]
      exact hm
    | some r =>
      obtain ⟨o, mch, s⟩ := r
      rw [allocate_resources_success hwo hfb] at h
      have hst : (commitState now st wid wo o mch, true) = (st', b) := by injection h
      have hs : commitState now st wid wo o mch = st' := congrArg Prod.fst hst
      rw [← hs]
      rw [findMachine_commitState]
      have hmem := mem_candidatePairs.1 (find_best_some_mem hfb)
      have hne : ¬ mch.machine_id = j := by
        intro he
        have hfm : findMachine st mch.machine_id = some mch :=
          find?_key_of_mem hmem.2.2.1 rfl hids
        rw [he, hm] at hfm
        have em : m = mch := Option.some_injective _ hfm
        rw [em] at hni
        exact hni hmem.2.2.2
      rw [if_neg hne]
      exact hm

theorem order_stable_allocate {now : Nat} {st : EngineState} {wid : String}
    {st' : EngineState} {b : Bool} (h : allocate_resources now st wid = .ok (st', b))
    {j : String} {w : WorkOrder} (hj : ¬ wid = j)
    (hw : findWorkOrder st j = some w) : findWorkOrder st' j = some w := by
  cases hwo : findWorkOrder st wid with
  | none =>
    rw [allocate_resources_notfound hwo] at h
    have hst : (st, false) = (st', b) := by injection h
    have hs : st = st' := congrArg Prod.fst hst
    rw [← hs]
    exact hw
  | some wo =>
    cases hfb : find_best_allocation st wo with
    | none =>
      rw [allocate_resources_blocked hwo hfb] at h
      have hst : (updateWorkOrder st wid (fun x => { x with status := .BLOCKED }), false) =
          (st', b) := by injection h
      have hs : updateWorkOrder st wid (fun x => { x with status := .BLOCKED }) = st' :=
        congrArg Prod.fst hst
      rw [← hs]
      rw [findWorkOrder_updateWorkOrder st wid j (fun x => { x with status := .BLOCKED })
        (fun x => rfl), if_neg hj]
      exact hw
    | some r =>
      obtain ⟨o, mch, s⟩ := r
      rw [allocate_resources_success hwo hfb] at h
      have hst : (commitState now st wid wo o mch, true) = (st', b) := by injection h
      have hs : commitState now st wid wo o mch = st' := congrArg Prod.fst hst
      rw [← hs]
      rw [findWorkOrder_commitState, if_neg hj]
      exact hw

theorem machine_stable_allocLoop {now : Nat} {j : String} {m : Machine}
    (hni : ¬ m.current_status = MachineStatus.IDLE) :
    ∀ (ids : List String) (st : EngineState) (a b : Nat) (st' : EngineState) (a' b' : Nat),
    allocLoop now st ids a b = .ok (st', a', b') → GoodR st →
    findMachine st j = some m → findMachine st' j = some m
  | [], st, a, b, st', a', b', h, _, hm => by
    have h' : Except.ok (ε := Unit) (st, a, b) = .ok (st', a', b') := h
    have hst : (st, a, b) = (st', a', b') := by injection h'
    have hs : st = st' := congrArg Prod.fst hst
    rw [← hs]
    exact hm
  | wid :: rest, st, a, b, st', a', b', h, hg, hm => by
    rw [allocLoop_cons] at h
    cases har : allocate_resources now st wid with
    | error e => rw [har] at h; cases h
    | ok p =>
      obtain ⟨st2, allocated⟩ := p
      rw [har] at h
      have hg2 := goodR_allocate har hg
      have hm2 := machine_stable_allocate har hg.1.2.1 hm hni
      cases allocated with
      | true => exact machine_stable_allocLoop hni rest st2 (a + 1) b st' a' b' h hg2 hm2
      | false => exact machine_stable_allocLoop hni rest st2 a (b + 1) st' a' b' h hg2 hm2

theorem order_stable_allocLoop {now : Nat} {j : String} {w : WorkOrder} :
    ∀ (ids : List String) (st : EngineState) (a b : Nat) (st' : EngineState) (a' b' : Nat),
    allocLoop now st ids a b = .ok (st', a', b') → (∀ i ∈ ids, ¬ i = j) →
    findWorkOrder st j = some w → findWorkOrder st' j = some w
  | [], st, a, b, st', a', b', h, _, hw => by
    have h' : Except.ok (ε := Unit) (st, a, b) = .ok (st', a', b') := h
    have hst : (st, a, b) = (st', a', b') := by injection h'
    have hs : st = st' := congrArg Prod.fst hst
    rw [← hs]
    exact hw
  | wid :: rest, st, a, b, st', a', b', h, hout, hw => by
    rw [allocLoop_cons] at h
    cases har : allocate_resources now st wid with
    | error e => rw [har] at h; cases h
    | ok p =>
      obtain ⟨st2, allocated⟩ := p
      rw [har] at h
      have hnj : ¬ wid = j := hout wid (List.mem_cons_self _ _)
      have hw2 := order_stable_allocate har hnj hw
      have hout2 : ∀ i ∈ rest, ¬ i = j := fun i hi => hout i (List.mem_cons_of_mem _ hi)
      cases allocated with
      | true => exact order_stable_allocLoop rest st2 (a + 1) b st' a' b' h hout2 hw2
      | false => exact order_stable_allocLoop rest st2 a (b + 1) st' a' b' h hout2 hw2

theorem not_pending_not_prioritized {st : EngineState} {j : String} {w : WorkOrder}
    (hnd : (woIds st).Nodup) (hw : findWorkOrder st j = some w)
    (hnp : ¬ w.status = WorkOrderStatus.PENDING) :
    ∀ i ∈ (prioritize_work_orders st).map (fun wo => wo.work_order_id), ¬ i = j := by
  intro i hi hij
  obtain ⟨w2, hw2, rfl⟩ := List.mem_map.1 hi
  have hw2p : w2 ∈ pendingOrders st :=
    (List.perm_insertionSort woLE (pendingOrders st)).mem_iff.1 hw2
  have hw2m : w2 ∈ st.work_orders := List.mem_of_mem_filter hw2p
  have hpend : w2.status = WorkOrderStatus.PENDING := by
    simpa using (List.mem_filter.1 hw2p).2
  have hfind : findWorkOrder st j = some w2 := find?_key_of_mem hw2m hij hnd
  rw [hw] at hfind
  have e : w = w2 := Option.some_injective _ hfind
  rw [← e] at hpend
  exact hnp hpend

theorem machine_stable_process {now : Nat} {st st' : EngineState} {r : Nat × Nat × Nat}
    (h : process_allocations now st = .ok (st', r)) (hg : GoodR st) {j : String}
    {m : Machine} (hm : findMachine st j = some m)
    (hni : ¬ m.current_status = MachineStatus.IDLE) : findMachine st' j = some m := by
  unfold process_allocations at h
  simp only [] at h
  cases hal : allocLoop now st
      ((prioritize_work_orders st).map (fun wo => wo.work_order_id)) 0 0 with
  | error e =>
    rw [hal] at h
    simp [Bind.bind, Except.bind] at h
  | ok p =>
    obtain ⟨st2, a, b⟩ := p
    rw [hal] at h
    have h' : Except.ok (ε := Unit) (st2, a, b, (prioritize_work_orders st).length) =
        .ok (st', r) := h
    have hst : (st2, a, b, (prioritize_work_orders st).length) = (st', r) := by injection h'
    have hs : st2 = st' := congrArg Prod.fst hst
    rw [← hs]
    exact machine_stable_allocLoop hni _ st 0 0 st2 a b hal hg hm

theorem order_stable_process {now : Nat} {st st' : EngineState} {r : Nat × Nat × Nat}
    (h : process_allocations now st = .ok (st', r)) (hg : GoodR st) {j : String}
    {w : WorkOrder} (hw : findWorkOrder st j = some w)
    (hnp : ¬ w.status = WorkOrderStatus.PENDING) : findWorkOrder st' j = some w := by
  unfold process_allocations at h
  simp only [] at h
  cases hal : allocLoop now st
      ((prioritize_work_orders st).map (fun wo => wo.work_order_id)) 0 0 with
  | error e =>
    rw [hal] at h
    simp [Bind.bind, Except.bind] at h
  | ok p =>
    obtain ⟨st2, a, b⟩ := p
    rw [hal] at h
    have h' : Except.ok (ε := Unit) (st2, a, b, (prioritize_work_orders st).length) =
        .ok (st', r) := h
    have hst : (st2, a, b, (prioritize_work_orders st).length) = (st', r) := by injection h'
    have hs : st2 = st' := congrArg Prod.fst hst
    rw [← hs]
    exact order_stable_allocLoop _ st 0 0 st2 a b hal
      (not_pending_not_prioritized hg.1.2.2 hw hnp) hw

theorem machine_stable_opav {now : Nat} {st : EngineState} {oid : String}
    {st' : EngineState} (hno : NoOpRef st oid)
    (h : handle_operator_available now st oid = .ok st') (hg : GoodR st) {j : String}
    {m : Machine} (hm : findMachine st j = some m)
    (hni : ¬ m.current_status = MachineStatus.IDLE) : findMachine st' j = some m := by
  unfold handle_operator_available at h
  cases hop : findOperator st oid with
  | none =>
    rw [hop] at h
    have hst : st = st' := by injection h
    rw [← hst]
    exact hm
  | some o =>
    simp only [hop] at h
    have hg1 : GoodR (updateOperator st oid (fun o =>
        { o with current_status := .AVAILABLE, current_work_order := none })) :=
      goodR_updateOp_noref (fun o => rfl) hno hg
    by_cases hp : 0 < (pendingOrders (updateOperator st oid (fun o =>
        { o with current_status := .AVAILABLE, current_work_order := none }))).length
    · rw [if_pos hp] at h
      cases hpr : process_allocations now (updateOperator st oid (fun o =>
          { o with current_status := .AVAILABLE, current_work_order := none })) with
      | error e =>
        rw [hpr] at h
        simp [Bind.bind, Except.bind] at h
      | ok p =>
        obtain ⟨st2, a, b, c⟩ := p
        rw [hpr] at h
        have h' : Except.ok (ε := Unit) st2 = .ok st' := h
        have hst : st2 = st' := by injection h'
        rw [← hst]
        exact machine_stable_process hpr hg1 hm hni
    · rw [if_neg hp] at h
      have h' : Except.ok (ε := Unit) (updateOperator st oid (fun o =>
          { o with current_status := .AVAILABLE, current_work_order := none })) = .ok st' := h
      have hst : updateOperator st oid (fun o =>
          { o with current_status := .AVAILABLE, current_work_order := none }) = st' := by
        injection h'
      rw [← hst]
      exact hm

theorem order_stable_opav {now : Nat} {st : EngineState} {oid : String}
    {st' : EngineState} (hno : NoOpRef st oid)
    (h : handle_operator_available now st oid = .ok st') (hg : GoodR st) {j : String}
    {w : WorkOrder} (hw : findWorkOrder st j = some w)
    (hnp : ¬ w.status = WorkOrderStatus.PENDING) : findWorkOrder st' j = some w := by
  unfold handle_operator_available at h
  cases hop : findOperator st oid with
  | none =>
    rw [hop] at h
    have hst : st = st' := by injection h
    rw [← hst]
    exact hw
  | some o =>
    simp only [hop] at h
    have hg1 : GoodR (updateOperator st oid (fun o =>
        { o with current_status := .AVAILABLE, current_work_order := none })) :=
      goodR_updateOp_noref (fun o => rfl) hno hg
    by_cases hp : 0 < (pendingOrders (updateOperator st oid (fun o =>
        { o with current_status := .AVAILABLE, current_work_order := none }))).length
    · rw [if_pos hp] at h
      cases hpr : process_allocations now (updateOperator st oid (fun o =>
          { o with current_status := .AVAILABLE, current_work_order := none })) with
      | error e =>
        rw [hpr] at h
        simp [Bind.bind, Except.bind] at h
      | ok p =>
        obtain ⟨st2, a, b, c⟩ := p
        rw [hpr] at h
        have h' : Except.ok (ε := Unit) st2 = .ok st' := h
        have hst : st2 = st' := by injection h'
        rw [← hst]
        exact order_stable_process hpr hg1 hw hnp
    · rw [if_neg hp] at h
      have h' : Except.ok (ε := Unit) (updateOperator st oid (fun o =>
          { o with current_status := .AVAILABLE, current_work_order := none })) = .ok st' := h
      have hst : updateOperator st oid (fun o =>
          { o with current_status := .AVAILABLE, current_work_order := none }) = st' := by
        injection h'
      rw [← hst]
      exact hw

/-- The work-order record update completion commits. -/
def completeFn (now : Nat) (w : WorkOrder) : WorkOrder :=
  { w with status := .COMPLETED, completion_time := some now, progress := 100 }

theorem goodR_machineStage {st3 st' : EngineState} {am : Option String}
    (hno : ∀ mid, am = some mid → NoMachRef st3 mid)
    (h : (match am with
      | some mid =>
        if mid.isEmpty then pure st3
        else do
          let _ ← getMachineE st3 mid
          pure (updateMachine st3 mid (fun m =>
            { m with current_status := .IDLE, current_work_order := none }))
      | none => pure st3) = Except.ok st') (hg : GoodR st3) : GoodR st' := by
  cases am with
  | none =>
    have h' : Except.ok (ε := Unit) st3 = .ok st' := h
    have hst : st3 = st' := by injection h'
    rw [← hst]
    exact hg
  | some mid =>
    simp only [] at h
    by_cases hemp : mid.isEmpty
    · rw [if_pos hemp] at h
      have h' : Except.ok (ε := Unit) st3 = .ok st' := h
      have hst : st3 = st' := by injection h'
      rw [← hst]
      exact hg
    · rw [if_neg hemp] at h
      cases hge : getMachineE st3 mid with
      | error e =>
        rw [hge] at h
        simp [Bind.bind, Except.bind] at h
      | ok mach =>
        rw [hge] at h
        have h' : Except.ok (ε := Unit) (updateMachine st3 mid (fun m =>
            { m with current_status := .IDLE, current_work_order := none })) = .ok st' := h
        have hst : updateMachine st3 mid (fun m =>
            { m with current_status := .IDLE, current_work_order := none }) = st' := by
          injection h'
        rw [← hst]
        exact goodR_updateMach_noref (fun m => rfl) (hno mid rfl) hg

theorem noMachRef_of_completed {stX : EngineState} {michId wid : String} {mchR : Machine}
    {wC : WorkOrder} (hg : GoodR stX)
    (hfm : findMachine stX michId = some mchR)
    (hcwo : mchR.current_work_order = some wid)
    (hfw : findWorkOrder stX wid = some wC)
    (hnc : ¬ wC.status = WorkOrderStatus.IN_PROGRESS) : NoMachRef stX michId := by
  intro w' hw' hs' ha'
  obtain ⟨_, ⟨mid2, m2, hb2, hgm2, hr2, hd2⟩⟩ := hg.2 w' hw' hs'
  rw [ha'] at hb2
  have e2 : michId = mid2 := Option.some_injective _ hb2
  rw [← e2, hfm] at hgm2
  have em : mchR = m2 := Option.some_injective _ hgm2
  rw [← em, hcwo] at hd2
  have ew : wid = w'.work_order_id := Option.some_injective _ hd2
  have hfw' : findWorkOrder stX wid = some w' := find?_key_of_mem hw' ew.symm hg.1.2.2
  rw [hfw] at hfw'
  have e3 : wC = w' := Option.some_injective _ hfw'
  rw [← e3] at hs'
  exact hnc hs'

theorem goodR_completion {now : Nat} {st : EngineState} {wid : String} {st' : EngineState}
    (hip : ∀ wo, findWorkOrder st wid = some wo → wo.status = WorkOrderStatus.IN_PROGRESS)
    (h : handle_work_order_completion now st wid = .ok st') (hg : GoodR st) : GoodR st' := by
  cases hwo : findWorkOrder st wid with
  | none =>
    rw [completion_notfound now hwo] at h
    have hst : st = st' := by injection h
    rw [← hst]
    exact hg
  | some wo =>
    have hwoIP : wo.status = WorkOrderStatus.IN_PROGRESS := hip wo hwo
    have hwomem : wo ∈ st.work_orders := findWorkOrder_mem hwo
    have hwoid : wo.work_order_id = wid := findWorkOrder_id hwo
    rw [completion_found now hwo] at h
    cases hrl : releaseLoop (updateWorkOrder st wid (fun w =>
        { w with status := .COMPLETED, completion_time := some now, progress := 100 }))
        wo.required_materials with
    | error e =>
      rw [hrl] at h
      simp [Bind.bind, Except.bind] at h
    | ok st2 =>
      rw [hrl] at h
      simp only [Bind.bind, Except.bind] at h
      have hgW : GoodR (updateWorkOrder st wid (fun w =>
          { w with status := .COMPLETED, completion_time := some now, progress := 100 })) :=
        goodR_woMap (fun w => rfl) (fun w hcon => WorkOrderStatus.noConfusion hcon) hg
      have hst2 := releaseLoop_ok_inv wo.required_materials _ st2 hrl
      have hg2 : GoodR st2 := by
        rw [hst2]
        exact hgW
      have hfW : findWorkOrder st2 wid = some (completeFn now wo) := by
        rw [hst2]
        show findWorkOrder (updateWorkOrder st wid (fun w =>
          { w with status := .COMPLETED, completion_time := some now, progress := 100 }))
          wid = some (completeFn now wo)
        rw [findWorkOrder_updateWorkOrder st wid wid (fun w =>
          { w with status := .COMPLETED, completion_time := some now, progress := 100 })
          (fun w => rfl), if_pos rfl, hwo]
        rfl
      obtain ⟨⟨opId0, oR, haop, hfop, hopst, hopc⟩,
        ⟨michId, mchR, hamach, hfmch, hmchst, hmchc⟩⟩ := hg.2 wo hwomem hwoIP
      rw [hwoid] at hmchc
      have hfmch2 : findMachine st2 michId = some mchR := by
        rw [hst2]
        exact hfmch
      have hncW : ¬ (completeFn now wo).status = WorkOrderStatus.IN_PROGRESS :=
        fun hcon => WorkOrderStatus.noConfusion hcon
      cases hop : wo.assigned_operator with
      | none =>
        rw [hop] at haop
        exact Option.noConfusion haop
      | some opId =>
        simp only [hop] at h
        rw [hop] at haop
        have heq : opId = opId0 := Option.some_injective _ haop
        subst heq
        have hnoOp : NoOpRef st2 opId := by
          intro w' hw' hs' ha'
          have hw'W : w' ∈ (updateWorkOrder st wid (completeFn now)).work_orders := by
            rw [hst2] at hw'
            exact hw'
          obtain ⟨w0, hw0m, rfl⟩ := List.mem_map.1 hw'W
          by_cases hc : w0.work_order_id = wid
          · rw [if_pos hc] at hs'
            exact WorkOrderStatus.noConfusion hs'
          · rw [if_neg hc] at hs' ha'
            have hw0wo : w0 = wo :=
              op_backref_unique hg.1.2.2 hg.2 hw0m hs' ha' hwomem hwoIP hop
            rw [hw0wo] at hc
            exact hc hwoid
        by_cases hemp : opId.isEmpty
        · rw [if_pos hemp] at h
          have h2 : (match wo.assigned_machine with
            | some mid =>
              if mid.isEmpty then pure st2
              else do
                let _ ← getMachineE st2 mid
                pure (updateMachine st2 mid (fun m =>
                  { m with current_status := .IDLE, current_work_order := none }))
            | none => pure st2) = Except.ok st' := h
          refine goodR_machineStage ?_ h2 hg2
          intro mid hsome
          rw [hamach] at hsome
          have e : michId = mid := Option.some_injective _ hsome
          rw [← e]
          exact noMachRef_of_completed hg2 hfmch2 hmchc hfW hncW
        · rw [if_neg hemp] at h
          cases hoa : handle_operator_available now st2 opId with
          | error e =>
            rw [hoa] at h
            simp [Bind.bind, Except.bind] at h
          | ok st3 =>
            rw [hoa] at h
            have hg3 : GoodR st3 := goodR_operator_available hnoOp hoa hg2
            have hmni : ¬ mchR.current_status = MachineStatus.IDLE := by
              rw [hmchst]
              decide
            have hfm3 : findMachine st3 michId = some mchR :=
              machine_stable_opav hnoOp hoa hg2 hfmch2 hmni
            have hfW3 : findWorkOrder st3 wid = some (completeFn now wo) :=
              order_stable_opav hnoOp hoa hg2 hfW
                (fun hcon => WorkOrderStatus.noConfusion hcon)
            have h2 : (match wo.assigned_machine with
              | some mid =>
                if mid.isEmpty then pure st3
                else do
                  let _ ← getMachineE st3 mid
                  pure (updateMachine st3 mid (fun m =>
                    { m with current_status := .IDLE, current_work_order := none }))
              | none => pure st3) = Except.ok st' := h
            refine goodR_machineStage ?_ h2 hg3
            intro mid hsome
            rw [hamach] at hsome
            have e : michId = mid := Option.some_injective _ hsome
            rw [← e]
            exact noMachRef_of_completed hg3 hfm3 hmchc hfW3 hncW

theorem goodR_delivered {now : Nat} {st : EngineState} {mid : String} {q : ℚ}
    {st' : EngineState} (h : handle_material_delivered now st mid q = .ok st')
    (hg : GoodR st) : GoodR st' := by
  unfold handle_material_delivered at h
  cases hfm : findMaterial st mid with
  | none =>
    rw [hfm] at h
    have hst : st = st' := by injection h
    rw [← hst]
    exact hg
  | some mat =>
    simp only [hfm] at h
    have hg1 : GoodR (updateMaterial st mid (fun m =>
        { m with quantity_available := m.quantity_available + q })) := hg
    split at h
    · obtain ⟨p, hpr, h⟩ := bind_ok h
      obtain ⟨st3, a, b, c⟩ := p
      have h' : Except.ok (ε := Unit) st3 = .ok st' := h
      have hst : st3 = st' := by injection h'
      rw [← hst]
      refine goodR_process hpr ?_
      exact goodR_woMap (fun w => rfl) (fun w hcon => WorkOrderStatus.noConfusion hcon) hg1
    · have h' : Except.ok (ε := Unit) _ = .ok st' := h
      rw [← (by injection h' : _ = st')]
      exact goodR_woMap (fun w => rfl) (fun w hcon => WorkOrderStatus.noConfusion hcon) hg1

theorem freeOpE_frame {st st2 : EngineState} {opo : Option String}
    (h : freeOpE st opo = .ok st2) :
    st2.work_orders = st.work_orders ∧ st2.machines = st.machines := by
  cases opo with
  | none =>
    have h' : Except.ok (ε := Unit) st = .ok st2 := h
    have hst : st = st2 := by injection h'
    rw [← hst]
    exact ⟨rfl, rfl⟩
  | some opid =>
    have h1 : (if opid.isEmpty then pure st
      else do
        let _ ← getOperatorE st opid
        pure (updateOperator st opid (fun o =>
          { o with current_status := .AVAILABLE, current_work_order := none }))) =
        Except.ok st2 := h
    by_cases hemp : opid.isEmpty
    · rw [if_pos hemp] at h1
      have h' : Except.ok (ε := Unit) st = .ok st2 := h1
      have hst : st = st2 := by injection h'
      rw [← hst]
      exact ⟨rfl, rfl⟩
    · rw [if_neg hemp] at h1
      cases hge : getOperatorE st opid with
      | error e =>
        rw [hge] at h1
        simp [Bind.bind, Except.bind] at h1
      | ok o =>
        rw [hge] at h1
        have h' : Except.ok (ε := Unit) (updateOperator st opid (fun o =>
            { o with current_status := .AVAILABLE, current_work_order := none })) =
            .ok st2 := h1
        have hst : updateOperator st opid (fun o =>
            { o with current_status := .AVAILABLE, current_work_order := none }) = st2 := by
          injection h'
        rw [← hst]
        exact ⟨rfl, rfl⟩

theorem freeMachE_frame {st st2 : EngineState} {am : Option String}
    (h : freeMachE st am = .ok st2) :
    st2.work_orders = st.work_orders ∧ st2.operators = st.operators := by
  cases am with
  | none =>
    have h' : Except.ok (ε := Unit) st = .ok st2 := h
    have hst : st = st2 := by injection h'
    rw [← hst]
    exact ⟨rfl, rfl⟩
  | some mid =>
    have h1 : (if mid.isEmpty then pure st
      else do
        let _ ← getMachineE st mid
        pure (updateMachine st mid (fun m =>
          { m with current_status := .IDLE, current_work_order := none }))) =
        Except.ok st2 := h
    by_cases hemp : mid.isEmpty
    · rw [if_pos hemp] at h1
      have h' : Except.ok (ε := Unit) st = .ok st2 := h1
      have hst : st = st2 := by injection h'
      rw [← hst]
      exact ⟨rfl, rfl⟩
    · rw [if_neg hemp] at h1
      cases hge : getMachineE st mid with
      | error e =>
        rw [hge] at h1
        simp [Bind.bind, Except.bind] at h1
      | ok mach =>
        rw [hge] at h1
        have h' : Except.ok (ε := Unit) (updateMachine st mid (fun m =>
            { m with current_status := .IDLE, current_work_order := none })) =
            .ok st2 := h1
        have hst : updateMachine st mid (fun m =>
            { m with current_status := .IDLE, current_work_order := none }) = st2 := by
          injection h'
        rw [← hst]
        exact ⟨rfl, rfl⟩

theorem goodR_freeOpE {st st2 : EngineState} {opo : Option String}
    (hno : ∀ opid, opo = some opid → NoOpRef st opid)
    (h : freeOpE st opo = .ok st2) (hg : GoodR st) : GoodR st2 := by
  cases opo with
  | none =>
    have h' : Except.ok (ε := Unit) st = .ok st2 := h
    have hst : st = st2 := by injection h'
    rw [← hst]
    exact hg
  | some opid =>
    have h1 : (if opid.isEmpty then pure st
      else do
        let _ ← getOperatorE st opid
        pure (updateOperator st opid (fun o =>
          { o with current_status := .AVAILABLE, current_work_order := none }))) =
        Except.ok st2 := h
    by_cases hemp : opid.isEmpty
    · rw [if_pos hemp] at h1
      have h' : Except.ok (ε := Unit) st = .ok st2 := h1
      have hst : st = st2 := by injection h'
      rw [← hst]
      exact hg
    · rw [if_neg hemp] at h1
      cases hge : getOperatorE st opid with
      | error e =>
        rw [hge] at h1
        simp [Bind.bind, Except.bind] at h1
      | ok o =>
        rw [hge] at h1
        have h' : Except.ok (ε := Unit) (updateOperator st opid (fun o =>
            { o with current_status := .AVAILABLE, current_work_order := none })) =
            .ok st2 := h1
        have hst : updateOperator st opid (fun o =>
            { o with current_status := .AVAILABLE, current_work_order := none }) = st2 := by
          injection h'
        rw [← hst]
        exact goodR_updateOp_noref (fun o => rfl) (hno opid rfl) hg

theorem goodR_freeMachE {st st2 : EngineState} {am : Option String}
    (hno : ∀ mid, am = some mid → NoMachRef st mid)
    (h : freeMachE st am = .ok st2) (hg : GoodR st) : GoodR st2 := by
  cases am with
  | none =>
    have h' : Except.ok (ε := Unit) st = .ok st2 := h
    have hst : st = st2 := by injection h'
    rw [← hst]
    exact hg
  | some mid =>
    have h1 : (if mid.isEmpty then pure st
      else do
        let _ ← getMachineE st mid
        pure (updateMachine st mid (fun m =>
          { m with current_status := .IDLE, current_work_order := none }))) =
        Except.ok st2 := h
    by_cases hemp : mid.isEmpty
    · rw [if_pos hemp] at h1
      have h' : Except.ok (ε := Unit) st = .ok st2 := h1
      have hst : st = st2 := by injection h'
      rw [← hst]
      exact hg
    · rw [if_neg hemp] at h1
      cases hge : getMachineE st mid with
      | error e =>
        rw [hge] at h1
        simp [Bind.bind, Except.bind] at h1
      | ok mach =>
        rw [hge] at h1
        have h' : Except.ok (ε := Unit) (updateMachine st mid (fun m =>
            { m with current_status := .IDLE, current_work_order := none })) =
            .ok st2 := h1
        have hst : updateMachine st mid (fun m =>
            { m with current_status := .IDLE, current_work_order := none }) = st2 := by
          injection h'
        rw [← hst]
        exact goodR_updateMach_noref (fun m => rfl) (hno mid rfl) hg

theorem goodR_shortageLoop : ∀ (l : List WorkOrder) (st st' : EngineState),
    shortageLoop st l = .ok st' →
    (l.map (fun w => w.work_order_id)).Nodup →
    (∀ wo ∈ l, wo ∈ st.work_orders) →
    GoodR st → GoodR st'
  | [], st, st', h, _, _, hg => by
    have h' : Except.ok (ε := Unit) st = .ok st' := h
    have hst : st = st' := by injection h'
    rw [← hst]
    exact hg
  | wo :: rest, st, st', h, hnd, hsync, hg => by
    rw [shortageLoop_cons] at h
    rw [List.map_cons, List.nodup_cons] at hnd
    by_cases hin : wo.status = WorkOrderStatus.IN_PROGRESS
    · rw [if_pos hin] at h
      simp only [] at h
      obtain ⟨stA, hA, h⟩ := bind_ok h
      obtain ⟨stB, hB, h⟩ := bind_ok h
      have hwomem : wo ∈ st.work_orders := hsync wo (List.mem_cons_self _ _)
      have hg1 : GoodR (updateWorkOrder st wo.work_order_id
          (fun w => { w with status := .BLOCKED })) :=
        goodR_woMap (fun w => rfl) (fun w hcon => WorkOrderStatus.noConfusion hcon) hg
      have hnoop : ∀ opid, wo.assigned_operator = some opid →
          NoOpRef (updateWorkOrder st wo.work_order_id
            (fun w => { w with status := .BLOCKED })) opid := by
        intro opid hsome w' hw' hs' ha'
        obtain ⟨w0, hw0m, rfl⟩ := List.mem_map.1 hw'
        by_cases hc : w0.work_order_id = wo.work_order_id
        · rw [if_pos hc] at hs'
          exact WorkOrderStatus.noConfusion hs'
        · rw [if_neg hc] at hs' ha'
          have hw0wo : w0 = wo :=
            op_backref_unique hg.1.2.2 hg.2 hw0m hs' ha' hwomem hin hsome
          rw [hw0wo] at hc
          exact hc rfl
      have hgA : GoodR stA := goodR_freeOpE hnoop hA hg1
      have hfrA := freeOpE_frame hA
      have hnomach : ∀ mid, wo.assigned_machine = some mid → NoMachRef stA mid := by
        intro mid hsome w' hw' hs' ha'
        rw [hfrA.1] at hw'
        obtain ⟨w0, hw0m, rfl⟩ := List.mem_map.1 hw'
        by_cases hc : w0.work_order_id = wo.work_order_id
        · rw [if_pos hc] at hs'
          exact WorkOrderStatus.noConfusion hs'
        · rw [if_neg hc] at hs' ha'
          have hw0wo : w0 = wo :=
            mach_backref_unique hg.1.2.2 hg.2 hw0m hs' ha' hwomem hin hsome
          rw [hw0wo] at hc
          exact hc rfl
      have hgB : GoodR stB := goodR_freeMachE hnomach hB hgA
      have hfrB := freeMachE_frame hB
      have hsyncB : ∀ woT ∈ rest, woT ∈ stB.work_orders := by
        intro woT hT
        have hTm : woT ∈ st.work_orders := hsync woT (List.mem_cons_of_mem _ hT)
        have hne : ¬ woT.work_order_id = wo.work_order_id := by
          intro he
          exact hnd.1 (he ▸ List.mem_map_of_mem _ hT)
        have hmem1 : woT ∈ (updateWorkOrder st wo.work_order_id
            (fun w => { w with status := .BLOCKED })).work_orders := by
          have hmm := List.mem_map_of_mem (fun w =>
            if w.work_order_id = wo.work_order_id
            then { w with status := WorkOrderStatus.BLOCKED } else w) hTm
          simp only [] at hmm
          rw [if_neg hne] at hmm
          exact hmm
        rw [hfrB.1, hfrA.1]
        exact hmem1
      exact goodR_shortageLoop rest stB st' h hnd.2 hsyncB hgB
    · rw [if_neg hin] at h
      exact goodR_shortageLoop rest st st' h hnd.2
        (fun woT hT => hsync woT (List.mem_cons_of_mem _ hT)) hg

theorem goodR_shortage {st : EngineState} {mid : String} {st' : EngineState}
    (h : handle_material_shortage st mid = .ok st') (hg : GoodR st) : GoodR st' := by
  unfold handle_material_shortage at h
  cases hfm : findMaterial st mid with
  | none =>
    rw [hfm] at h
    have hst : st = st' := by injection h
    rw [← hst]
    exact hg
  | some mat =>
    simp only [hfm] at h
    refine goodR_shortageLoop _ st st' h ?_ (fun wo hw => List.mem_of_mem_filter hw) hg
    exact List.Nodup.sublist (List.Sublist.map _ (List.filter_sublist _)) hg.1.2.2

theorem getWorkOrderE_ok {st : EngineState} {i : String} {w : WorkOrder}
    (h : getWorkOrderE st i = .ok w) : findWorkOrder st i = some w := by
  unfold getWorkOrderE at h
  cases hf : findWorkOrder st i with
  | none =>
    rw [hf] at h
    exact Except.noConfusion h
  | some w2 =>
    rw [hf] at h
    have e : w2 = w := by injection h
    rw [e]

theorem goodR_freeOpIfDifferent {st st2 : EngineState} {newId : String}
    {opo : Option String} (hno : ∀ opid, opo = some opid → NoOpRef st opid)
    (h : freeOpIfDifferent st newId opo = .ok st2) (hg : GoodR st) : GoodR st2 := by
  cases opo with
  | none =>
    have h' : Except.ok (ε := Unit) st = .ok st2 := h
    have hst : st = st2 := by injection h'
    rw [← hst]
    exact hg
  | some opid =>
    have h1 : (if opid.isEmpty then pure st
      else if opid ≠ newId then do
        let _ ← getOperatorE st opid
        pure (updateOperator st opid (fun o =>
          { o with current_status := .AVAILABLE, current_work_order := none }))
      else pure st) = Except.ok st2 := h
    by_cases hemp : opid.isEmpty
    · rw [if_pos hemp] at h1
      have h' : Except.ok (ε := Unit) st = .ok st2 := h1
      have hst : st = st2 := by injection h'
      rw [← hst]
      exact hg
    · rw [if_neg hemp] at h1
      by_cases hne : opid ≠ newId
      · rw [if_pos hne] at h1
        cases hge : getOperatorE st opid with
        | error e =>
          rw [hge] at h1
          simp [Bind.bind, Except.bind] at h1
        | ok o =>
          rw [hge] at h1
          have h' : Except.ok (ε := Unit) (updateOperator st opid (fun o =>
              { o with current_status := .AVAILABLE, current_work_order := none })) =
              .ok st2 := h1
          have hst : updateOperator st opid (fun o =>
              { o with current_status := .AVAILABLE, current_work_order := none }) = st2 := by
            injection h'
          rw [← hst]
          exact goodR_updateOp_noref (fun o => rfl) (hno opid rfl) hg
      · rw [if_neg hne] at h1
        have h' : Except.ok (ε := Unit) st = .ok st2 := h1
        have hst : st = st2 := by injection h'
        rw [← hst]
        exact hg

theorem goodR_freeAndRealloc {now : Nat} {st st2 : EngineState} {opo : Option String}
    (hno : ∀ opid, opo = some opid → NoOpRef st opid)
    (h : freeAndRealloc now st opo = .ok st2) (hg : GoodR st) : GoodR st2 := by
  cases opo with
  | none =>
    have h' : Except.ok (ε := Unit) st = .ok st2 := h
    have hst : st = st2 := by injection h'
    rw [← hst]
    exact hg
  | some opid =>
    have h1 : (if opid.isEmpty then pure st
      else do
        let _ ← getOperatorE st opid
        let st := updateOperator st opid (fun o =>
          { o with current_status := .AVAILABLE, current_work_order := none })
        let (st', _, _, _) ← process_allocations now st
        pure st') = Except.ok st2 := h
    by_cases hemp : opid.isEmpty
    · rw [if_pos hemp] at h1
      have h' : Except.ok (ε := Unit) st = .ok st2 := h1
      have hst : st = st2 := by injection h'
      rw [← hst]
      exact hg
    · rw [if_neg hemp] at h1
      cases hge : getOperatorE st opid with
      | error e =>
        rw [hge] at h1
        simp [Bind.bind, Except.bind] at h1
      | ok o =>
        rw [hge] at h1
        obtain ⟨o2, _, h1⟩ := bind_ok h1
        simp only [] at h1
        obtain ⟨p, hpr, h1⟩ := bind_ok h1
        obtain ⟨st3, a, b, c⟩ := p
        have h' : Except.ok (ε := Unit) st3 = .ok st2 := h1
        have hst : st3 = st2 := by injection h'
        rw [← hst]
        exact goodR_process hpr (goodR_updateOp_noref (fun o => rfl) (hno opid rfl) hg)

/-- The side condition under which a breakdown preserves the reference
invariant: the broken machine's `current_work_order` back-pointer, when
present, is consistent — an empty id only when no in-progress order references
the machine, and a real id only naming an IN_PROGRESS order. -/
def BreakdownSafe (st : EngineState) (mid : String) : Prop :=
  ∀ m, findMachine st mid = some m → ∀ woId, m.current_work_order = some woId →
    (woId.isEmpty = true → NoMachRef st mid) ∧
    (∀ wo, findWorkOrder st woId = some wo → wo.status = WorkOrderStatus.IN_PROGRESS)

theorem goodR_breakdown {now : Nat} {st : EngineState} {mid : String} {st' : EngineState}
    (hsafe : BreakdownSafe st mid)
    (h : handle_machine_breakdown now st mid = .ok st') (hg : GoodR st) : GoodR st' := by
  unfold handle_machine_breakdown at h
  cases hfm : findMachine st mid with
  | none =>
    rw [hfm] at h
    have hst : st = st' := by injection h
    rw [← hst]
    exact hg
  | some machine =>
    simp only [hfm] at h
    cases hcw : machine.current_work_order with
    | none =>
      simp only [hcw] at h
      have hno : NoMachRef st mid := by
        intro w hw hs ha
        obtain ⟨_, ⟨mid2, m2, hb2, hf2, _, hd2⟩⟩ := hg.2 w hw hs
        rw [ha] at hb2
        have e : mid = mid2 := Option.some_injective _ hb2
        rw [← e, hfm] at hf2
        have em : machine = m2 := Option.some_injective _ hf2
        rw [← em, hcw] at hd2
        exact Option.noConfusion hd2
      have h' : Except.ok (ε := Unit) (updateMachine st mid (fun m =>
          { m with current_status := .BREAKDOWN })) = .ok st' := h
      have hst : updateMachine st mid (fun m =>
          { m with current_status := .BREAKDOWN }) = st' := by injection h'
      rw [← hst]
      exact goodR_updateMach_noref (fun m => rfl) hno hg
    | some woId =>
      simp only [hcw] at h
      by_cases hemp : woId.isEmpty
      · rw [if_pos hemp] at h
        have hno : NoMachRef st mid := (hsafe machine hfm woId hcw).1 hemp
        have h' : Except.ok (ε := Unit) (updateMachine st mid (fun m =>
            { m with current_status := .BREAKDOWN })) = .ok st' := h
        have hst : updateMachine st mid (fun m =>
            { m with current_status := .BREAKDOWN }) = st' := by injection h'
        rw [← hst]
        exact goodR_updateMach_noref (fun m => rfl) hno hg
      · rw [if_neg hemp] at h
        obtain ⟨work_order, hgw, h⟩ := bind_ok h
        have hfind : findWorkOrder st woId = some work_order := getWorkOrderE_ok hgw
        have hIP : work_order.status = WorkOrderStatus.IN_PROGRESS :=
          (hsafe machine hfm woId hcw).2 work_order hfind
        have hwomem : work_order ∈ st.work_orders := findWorkOrder_mem hfind
        have hwoid2 : work_order.work_order_id = woId := findWorkOrder_id hfind
        have hg2 : GoodR (updateWorkOrder (updateMachine st mid (fun m =>
            { m with current_status := .BREAKDOWN })) woId (fun w =>
            { w with assigned_machine := none, status := .BLOCKED })) := by
          constructor
          · refine ⟨hg.1.1, ?_, ?_⟩
            · have hmp : (st.machines.map (fun x => if x.machine_id = mid
                  then { x with current_status := MachineStatus.BREAKDOWN } else x)).map
                  (fun x => x.machine_id) = st.machines.map (fun x => x.machine_id) := by
                refine map_proj_map_ite _ _ _ (fun x => ?_) _
                rfl
              show ((st.machines.map (fun x => if x.machine_id = mid
                then { x with current_status := MachineStatus.BREAKDOWN } else x)).map
                (fun x => x.machine_id)).Nodup
              rw [hmp]
              exact hg.1.2.1
            · have hmp : (st.work_orders.map (fun w => if w.work_order_id = woId
                  then { w with assigned_machine := none, status := WorkOrderStatus.BLOCKED }
                  else w)).map (fun w => w.work_order_id) =
                  st.work_orders.map (fun w => w.work_order_id) := by
                refine map_proj_map_ite _ _ _ (fun w => ?_) _
                rfl
              show ((st.work_orders.map (fun w => if w.work_order_id = woId
                then { w with assigned_machine := none, status := WorkOrderStatus.BLOCKED }
                else w)).map (fun w => w.work_order_id)).Nodup
              rw [hmp]
              exact hg.1.2.2
          · intro w' hw' hs'
            obtain ⟨w0, hw0m, rfl⟩ := List.mem_map.1 hw'
            by_cases hc : w0.work_order_id = woId
            · rw [if_pos hc] at hs'
              exact WorkOrderStatus.noConfusion hs'
            · rw [if_neg hc] at hs' ⊢
              have hw0st : w0 ∈ st.work_orders := hw0m
              obtain ⟨⟨oid2, o2, ha2, hf2, hsto, hc2⟩, ⟨mid2, m2, hb2, hfm2, hr2, hd2⟩⟩ :=
                hg.2 w0 hw0st hs'
              refine ⟨⟨oid2, o2, ha2, hf2, hsto, hc2⟩, ⟨mid2, m2, hb2, ?_, hr2, hd2⟩⟩
              show findMachine (updateMachine st mid (fun m =>
                { m with current_status := .BREAKDOWN })) mid2 = some m2
              rw [findMachine_updateMachine st mid mid2 (fun m =>
                { m with current_status := MachineStatus.BREAKDOWN }) (fun m => rfl)]
              have hne : ¬ mid = mid2 := by
                intro he
                rw [← he, hfm] at hfm2
                have em : machine = m2 := Option.some_injective _ hfm2
                rw [← em, hcw] at hd2
                have e2 : woId = w0.work_order_id := Option.some_injective _ hd2
                exact hc e2.symm
              rw [if_neg hne]
              exact hfm2
        have hnoOp2 : ∀ opid, work_order.assigned_operator = some opid →
            NoOpRef (updateWorkOrder (updateMachine st mid (fun m =>
              { m with current_status := .BREAKDOWN })) woId (fun w =>
              { w with assigned_machine := none, status := .BLOCKED })) opid := by
          intro opid hsome w' hw' hs' ha'
          obtain ⟨w0, hw0m, rfl⟩ := List.mem_map.1 hw'
          by_cases hc : w0.work_order_id = woId
          · rw [if_pos hc] at hs'
            exact WorkOrderStatus.noConfusion hs'
          · rw [if_neg hc] at hs' ha'
            have hw0st : w0 ∈ st.work_orders := hw0m
            have hw0wo : w0 = work_order :=
              op_backref_unique hg.1.2.2 hg.2 hw0st hs' ha' hwomem hIP hsome
            rw [hw0wo, hwoid2] at hc
            exact hc rfl
        cases hfb : find_best_allocation
            (updateWorkOrder (updateMachine st mid (fun m =>
              { m with current_status := .BREAKDOWN })) woId (fun w =>
              { w with assigned_machine := none, status := .BLOCKED }))
            { work_order with assigned_machine := none, status := WorkOrderStatus.BLOCKED }
            with
        | some r =>
          obtain ⟨new_op, new_mach, score⟩ := r
          simp only [hfb] at h
          obtain ⟨st3, hfo, h⟩ := bind_ok h
          obtain ⟨p, hal, h⟩ := bind_ok h
          obtain ⟨st4, bb⟩ := p
          have h' : Except.ok (ε := Unit) st4 = .ok st' := h
          have hst : st4 = st' := by injection h'
          rw [← hst]
          exact goodR_allocate hal (goodR_freeOpIfDifferent hnoOp2 hfo hg2)
        | none =>
          simp only [hfb] at h
          exact goodR_freeAndRealloc hnoOp2 h hg2

/-- One engine operation or event-handler step, as the amended claim
constrains it: maintenance only on machines no in-progress order references,
`operator_available` only for operators no in-progress order references,
completion only of IN_PROGRESS orders, and breakdown only of machines whose
`current_work_order` back-pointer is consistent.  Allocation, the bulk pass,
shortage and delivery are unrestricted. -/
inductive RefStep : EngineState → EngineState → Prop where
  | alloc (now : Nat) (wid : String) (st st' : EngineState) (b : Bool) :
      allocate_resources now st wid = .ok (st', b) → RefStep st st'
  | bulk (now : Nat) (st st' : EngineState) (r : Nat × Nat × Nat) :
      process_allocations now st = .ok (st', r) → RefStep st st'
  | maintenance (now : Nat) (mid : String) (st : EngineState) :
      NoMachRef st mid → RefStep st (handle_machine_maintenance now st mid)
  | operator_available (now : Nat) (oid : String) (st st' : EngineState) :
      NoOpRef st oid → handle_operator_available now st oid = .ok st' → RefStep st st'
  | completion (now : Nat) (wid : String) (st st' : EngineState) :
      (∀ wo, findWorkOrder st wid = some wo → wo.status = WorkOrderStatus.IN_PROGRESS) →
      handle_work_order_completion now st wid = .ok st' → RefStep st st'
  | breakdown (now : Nat) (mid : String) (st st' : EngineState) :
      BreakdownSafe st mid →
      handle_machine_breakdown now st mid = .ok st' → RefStep st st'
  | shortage (mid : String) (st st' : EngineState) :
      handle_material_shortage st mid = .ok st' → RefStep st st'
  | delivered (now : Nat) (mid : String) (q : ℚ) (st st' : EngineState) :
      handle_material_delivered now st mid q = .ok st' → RefStep st st'

theorem goodR_step {st st' : EngineState} (h : RefStep st st') (hg : GoodR st) :
    GoodR st' := by
  cases h with
  | alloc now wid _ _ b hh => exact goodR_allocate hh hg
  | bulk now _ _ r hh => exact goodR_process hh hg
  | maintenance now mid _ hno => exact goodR_maintenance hno hg
  | operator_available now oid _ _ hno hh => exact goodR_operator_available hno hh hg
  | completion now wid _ _ hip hh => exact goodR_completion hip hh hg
  | breakdown now mid _ _ hsafe hh => exact goodR_breakdown hsafe hh hg
  | shortage mid _ _ hh => exact goodR_shortage hh hg
  | delivered now mid q _ _ hh => exact goodR_delivered hh hg

def opR : Operator :=
  { operator_id := "OR", name := "r", skills := [], skill_levels := [],
    current_status := .ASSIGNED, current_work_order := some "WR" }

def machR : Machine :=
  { machine_id := "MR", name := "m", capabilities := [],
    current_status := .RUNNING, current_work_order := some "WR" }

def woR : WorkOrder :=
  { work_order_id := "WR", priority := 1, required_skills := [],
    required_machine_capability := "", required_materials := [],
    estimated_duration := 1, deadline := 10, status := .IN_PROGRESS,
    assigned_operator := some "OR", assigned_machine := some "MR" }

def stR : EngineState :=
  { operators := [opR], machines := [machR], materials := [], work_orders := [woR] }

/-- C2 as written is false: `handle_machine_maintenance` on a RUNNING machine
that is executing an IN_PROGRESS work order flips the machine to MAINTENANCE
without touching the order, leaving the order referencing a machine whose
status is no longer RUNNING — the invariant does not survive this handler. -/
theorem C2_counterexample :
    RefInv stR ∧ ¬ RefInv (handle_machine_maintenance 0 stR "MR") := by
  constructor
  · intro wo hw hs
    have e : wo = woR := List.mem_singleton.1 hw
    subst e
    exact ⟨⟨"OR", opR, rfl, rfl, rfl, rfl⟩, ⟨"MR", machR, rfl, rfl, rfl, rfl⟩⟩
  · intro href
    have hmem : woR ∈ (handle_machine_maintenance 0 stR "MR").work_orders :=
      List.mem_singleton.2 rfl
    obtain ⟨_, ⟨mid, m, ham, hfm, hrun, _⟩⟩ := href woR hmem rfl
    have ham' : some "MR" = some mid := ham
    have e : "MR" = mid := Option.some_injective _ ham'
    rw [← e] at hfm
    have hfm2 : findMachine (handle_machine_maintenance 0 stR "MR") "MR" =
        some { machR with current_status := .MAINTENANCE, last_maintenance := some 0 } := rfl
    rw [hfm2] at hfm
    have em := Option.some_injective _ hfm
    rw [← em] at hrun
    exact absurd hrun (by decide)

/-- C2 (amended): from any state with distinct operator, machine and
work-order ids, the invariant — every IN_PROGRESS order carries non-null
operator and machine references whose records are ASSIGNED/RUNNING and point
back at the order — is preserved by every sequence of allocation commits, bulk
passes, shortages and deliveries, and by maintenance, operator-available,
completion and breakdown steps under their side conditions (no in-progress
order references the serviced machine or freed operator, the completed order
is IN_PROGRESS, the broken machine's back-pointer is consistent).  Contrary to
the claim, the handlers do NOT preserve it unconditionally: maintenance on a
referenced machine breaks it, as the counterexample shows. -/
theorem C2_reference_invariant (st st' : EngineState)
    (h : Relation.ReflTransGen RefStep st st') (hids : WFids st) (href : RefInv st) :
    RefInv st' ∧ WFids st' := by
  induction h with
  | refl => exact ⟨href, hids⟩
  | tail hs hstep ih =>
    have hgood := goodR_step hstep ⟨ih.2, ih.1⟩
    exact ⟨hgood.2, hgood.1⟩

/-- Witness for C2 (amended): one delivery step for an unknown material id
from the fully cross-referenced single-order state. -/
theorem C2_reference_invariant_witness : RefInv stR ∧ WFids stR :=
  C2_reference_invariant stR stR
    (Relation.ReflTransGen.single (RefStep.delivered 0 "X" 1 stR stR rfl))
    ⟨by decide, by decide, by decide⟩
    (fun wo hw hs => by
      have e : wo = woR := List.mem_singleton.1 hw
      subst e
      exact ⟨⟨"OR", opR, rfl, rfl, rfl, rfl⟩, ⟨"MR", machR, rfl, rfl, rfl, rfl⟩⟩)
